import Mathlib

/-!
# AT25160 SPI EEPROM driver (BSP_EEPROM.c): shallow embedding and verification

The development embeds the software-SPI variant of the driver
(`USE_SOFTWARE_SPI == 1`, the configuration selected in BSP_EEPROM.h) together
with the page segmentation shared by `EEPROM_SoftSPI_WriteBuffer` and
`EEPROM_HardSPI_WriteBuffer`.

* machine integers are naturals with explicit reduction (`% 256`, `% 65536`,
  `% 2 ^ 32`);
* the bus is observed as a byte-level trace of chip-select edges and of the
  bytes shifted out and in;
* the device and the tick counter are an environment (`Device`): the byte the
  device shifts out is a function of the bus history, the tick is a stream
  indexed by the number of `HAL_GetTick` reads;
* the busy-wait loop of `EEPROM_SoftSPI_IsReady` takes a fuel argument and
  yields `none` when the fuel is exhausted.
-/

namespace BSP_EEPROM

/-! ## Constants of BSP_EEPROM.h -/

/-- Status codes of the STM32 HAL (`HAL_StatusTypeDef`). -/
inductive HAL_StatusTypeDef where
  | HAL_OK
  | HAL_ERROR
  | HAL_BUSY
  | HAL_TIMEOUT
  deriving DecidableEq, Repr

open HAL_StatusTypeDef

/-- Timeout of a status poll in ticks: `#define WRITE_TIMEOUT_MS (uint8_t)20`. -/
def WRITE_TIMEOUT_MS : Nat := 20

/-- Page size of the device: `#define EEP_SPI_PAGESIZE (uint8_t)32`. -/
def EEP_SPI_PAGESIZE : Nat := 32

/-- Opcode "write status register". -/
def CMD_WRSR : Nat := 0x01
/-- Opcode "write to EEPROM". -/
def CMD_WRITE : Nat := 0x02
/-- Opcode "read from EEPROM". -/
def CMD_READ : Nat := 0x03
/-- Opcode "write disable". -/
def CMD_WRDI : Nat := 0x04
/-- Opcode "read status register". -/
def CMD_RDSR : Nat := 0x05
/-- Opcode "write enable". -/
def CMD_WREN : Nat := 0x06

/-- Bit number of the write-in-progress flag in the status register. -/
def BIT_WIP : Nat := 0

/-- The macro `bitRead(value, bit)`, i.e. `(((value) >> (bit)) & 0x01)`. -/
def bitRead (value bit : Nat) : Nat := (value >>> bit) &&& 0x01

/-! ## Observable world -/

/-- One observable action on the SPI bus, at byte granularity. -/
inductive Event where
  | CS_LOW
  | CS_HIGH
  | tx (b : Nat)
  | rx (b : Nat)
  deriving DecidableEq, Repr

/-- Record of one invocation of a page write: the arguments it was called with
(`buffer` is the payload pointer as an offset from the caller's buffer, `none`
for `NULL`) and the status it returned. -/
structure PageWrite where
  address : Nat
  length : Nat
  buffer : Option Nat
  status : HAL_StatusTypeDef
  deriving DecidableEq, Repr

/-- The environment of the driver: `miso h` is the byte the device shifts out
during the next eight clock pulses when the bus history is `h`; `tick n` is the
value returned by the `n`-th read of `HAL_GetTick`. -/
structure Device where
  miso : List Event → Nat
  tick : Nat → Nat

/-- The mutable state: bus history, number of tick reads so far, the caller's
RAM (indexed from the base of the buffer handed to the driver), and the ghost
log of `EEPROM_SoftSPI_WritePage` invocations. -/
structure World where
  trace : List Event
  tk : Nat
  mem : Nat → Nat
  pages : List PageWrite

/-- The macro `EEP_SPI_CS_LOW()`. -/
def EEP_SPI_CS_LOW (w : World) : World :=
  { w with trace := w.trace ++ [Event.CS_LOW] }

/-- The macro `EEP_SPI_CS_HIGH()`. -/
def EEP_SPI_CS_HIGH (w : World) : World :=
  { w with trace := w.trace ++ [Event.CS_HIGH] }

/-- Byte-level view of `HAL_GetTick()`: a 32-bit counter read. -/
def HAL_GetTick (dev : Device) (w : World) : Nat × World :=
  (dev.tick w.tk % 2 ^ 32, { w with tk := w.tk + 1 })

/-- Byte-level view of `EEPROM_SoftSPI_SendByte(uint8_t value)`: eight clock
pulses shift `value` out; the trace records the byte. -/
def EEPROM_SoftSPI_SendByte (value : Nat) (w : World) : World :=
  { w with trace := w.trace ++ [Event.tx (value % 256)] }

/-- Byte-level view of `EEPROM_SoftSPI_RecvByte()`: eight clock pulses shift a
byte in from the device. -/
def EEPROM_SoftSPI_RecvByte (dev : Device) (w : World) : Nat × World :=
  (dev.miso w.trace % 256,
    { w with trace := w.trace ++ [Event.rx (dev.miso w.trace % 256)] })

/-! ## Software SPI: status poll and page write -/

/-- The `do { ... } while (...)` loop of `EEPROM_SoftSPI_IsReady`: sample the
status byte; leave when WIP is clear, or (the second operand of `&&` is only
evaluated when WIP is set) when the tick read is not below `tw + 20`. -/
def IsReady_poll (dev : Device) : Nat → Nat → World → Option (Nat × World)
  | 0, _, _ => none
  | fuel + 1, tw, w =>
    let r := EEPROM_SoftSPI_RecvByte dev w
    if bitRead r.1 BIT_WIP = 1 then
      let t := HAL_GetTick dev r.2
      if t.1 < (tw + WRITE_TIMEOUT_MS) % 2 ^ 32 then IsReady_poll dev fuel tw t.2
      else some (r.1, t.2)
    else some (r.1, r.2)

/-- Translation of `EEPROM_SoftSPI_IsReady` (BSP_EEPROM.c, lines 514-536). -/
def EEPROM_SoftSPI_IsReady (dev : Device) (fuel : Nat) (w : World) :
    Option (HAL_StatusTypeDef × World) :=
  let tw := HAL_GetTick dev w
  let w1 := EEP_SPI_CS_LOW tw.2
  let w2 := EEPROM_SoftSPI_SendByte CMD_RDSR w1
  match IsReady_poll dev fuel tw.1 w2 with
  | none => none
  | some (_, w3) =>
    let w4 := EEP_SPI_CS_HIGH w3
    let t := HAL_GetTick dev w4
    if t.1 ≥ (tw.1 + WRITE_TIMEOUT_MS) % 2 ^ 32 then some (HAL_ERROR, t.2)
    else some (HAL_OK, t.2)

/-- The payload loop of `EEPROM_SoftSPI_WritePage`:
`for (uCount = 0; uCount < NumByteToWrite; uCount++, pBuffer++) SendByte(*pBuffer)`;
the first argument is the number of iterations left. -/
def WritePage_payload : Nat → Nat → World → World
  | 0, _, w => w
  | n + 1, pBuffer, w =>
    WritePage_payload n (pBuffer + 1) (EEPROM_SoftSPI_SendByte (w.mem pBuffer) w)

/-- The idiom `E2PStatus = f(...); if (E2PStatus != HAL_OK) return E2PStatus;`:
run `r`; a status other than `HAL_OK` is returned at once, otherwise execution
continues with `k`.  `none` (fuel exhausted) propagates. -/
def orReturn {σ : Type} (r : Option (HAL_StatusTypeDef × σ))
    (k : σ → Option (HAL_StatusTypeDef × σ)) : Option (HAL_StatusTypeDef × σ) :=
  match r with
  | none => none
  | some (E2PStatus, s) => if E2PStatus ≠ HAL_OK then some (E2PStatus, s) else k s

/-- The guard
`if (IsReady() != HAL_OK) { if (IsReady() != HAL_OK) return HAL_ERROR; }`
used by every software-SPI write routine.  The status is `HAL_OK` when
execution continues and `HAL_ERROR` when the routine returns. -/
def IsReady_retry (dev : Device) (fuel : Nat) (w : World) :
    Option (HAL_StatusTypeDef × World) :=
  match EEPROM_SoftSPI_IsReady dev fuel w with
  | none => none
  | some (s1, w1) =>
    if s1 ≠ HAL_OK then
      match EEPROM_SoftSPI_IsReady dev fuel w1 with
      | none => none
      | some (s2, w2) => if s2 ≠ HAL_OK then some (HAL_ERROR, w2) else some (HAL_OK, w2)
    else some (HAL_OK, w1)

/-- The three chip-select frames of `EEPROM_SoftSPI_WritePage` (lines 685-704):
write enable, write command with big-endian address and payload, write
disable.  `EEP_SEQ_DELAY` is a busy loop of NOPs and leaves no observation. -/
def WritePage_frames (p WriteAddr NumByteToWrite : Nat) (w : World) : World :=
  let w := EEP_SPI_CS_LOW w
  let w := EEPROM_SoftSPI_SendByte CMD_WREN w
  let w := EEP_SPI_CS_HIGH w
  let w := EEP_SPI_CS_LOW w
  let w := EEPROM_SoftSPI_SendByte CMD_WRITE w
  let w := EEPROM_SoftSPI_SendByte (((WriteAddr >>> 8) % 256) &&& 0xFF) w
  let w := EEPROM_SoftSPI_SendByte ((WriteAddr &&& 0xFF) % 256) w
  let w := WritePage_payload NumByteToWrite p w
  let w := EEP_SPI_CS_HIGH w
  let w := EEP_SPI_CS_LOW w
  let w := EEPROM_SoftSPI_SendByte CMD_WRDI w
  EEP_SPI_CS_HIGH w

/-- The code of `EEPROM_SoftSPI_WritePage` (BSP_EEPROM.c, lines 674-707),
without the ghost log. -/
def WritePage_body (dev : Device) (fuel : Nat) (pBuffer : Option Nat)
    (WriteAddr NumByteToWrite : Nat) (w : World) : Option (HAL_StatusTypeDef × World) :=
  match pBuffer with
  | none => some (HAL_ERROR, w)
  | some p =>
    if NumByteToWrite = 0 then some (HAL_ERROR, w)
    else
      orReturn (IsReady_retry dev fuel w) fun w =>
        some (HAL_OK, WritePage_frames p WriteAddr NumByteToWrite w)

/-- Ghost instrumentation: append the record of a finished page write. -/
def recordPage (pBuffer : Option Nat) (WriteAddr NumByteToWrite : Nat) :
    Option (HAL_StatusTypeDef × World) → Option (HAL_StatusTypeDef × World)
  | none => none
  | some (st, w) =>
    some (st, { w with pages := w.pages ++ [⟨WriteAddr, NumByteToWrite, pBuffer, st⟩] })

/-- Translation of `EEPROM_SoftSPI_WritePage`: the code, followed by the ghost
record of the invocation. -/
def EEPROM_SoftSPI_WritePage (dev : Device) (fuel : Nat) (pBuffer : Option Nat)
    (WriteAddr NumByteToWrite : Nat) (w : World) : Option (HAL_StatusTypeDef × World) :=
  recordPage pBuffer WriteAddr NumByteToWrite
    (WritePage_body dev fuel pBuffer WriteAddr NumByteToWrite w)

/-! ## Page segmentation -/

/-- The loop
`while (NumOfPage--) { E2PStatus = WritePage(pBuffer, WriteAddr, 32);
 if (E2PStatus != HAL_OK) return E2PStatus; WriteAddr += 32; pBuffer += 32; }`.
A status other than `HAL_OK` in the result is the status returned from inside
the loop; with `HAL_OK` the loop ran to its end and the result carries the
advanced pointer and the advanced 16-bit address. -/
def WriteBuffer_loop {σ : Type}
    (WritePage : Option Nat → Nat → Nat → σ → Option (HAL_StatusTypeDef × σ)) :
    Nat → Option Nat → Nat → σ → Option (HAL_StatusTypeDef × (Option Nat × Nat × σ))
  | 0, pBuffer, WriteAddr, s => some (HAL_OK, (pBuffer, WriteAddr, s))
  | NumOfPage + 1, pBuffer, WriteAddr, s =>
    match WritePage pBuffer WriteAddr EEP_SPI_PAGESIZE s with
    | none => none
    | some (E2PStatus, s1) =>
      if E2PStatus ≠ HAL_OK then some (E2PStatus, (pBuffer, WriteAddr, s1))
      else
        WriteBuffer_loop WritePage NumOfPage (pBuffer.map (· + EEP_SPI_PAGESIZE))
          ((WriteAddr + EEP_SPI_PAGESIZE) % 65536) s1

/-- The segmentation shared verbatim by `EEPROM_HardSPI_WriteBuffer`
(lines 316-406) and `EEPROM_SoftSPI_WriteBuffer` (lines 725-728 and 734-819),
over the page writer of the variant.  All locals are `uint16_t`. -/
def WriteBuffer_pages {σ : Type}
    (WritePage : Option Nat → Nat → Nat → σ → Option (HAL_StatusTypeDef × σ))
    (pBuffer : Option Nat) (WriteAddr NumByteToWrite : Nat) (s : σ) :
    Option (HAL_StatusTypeDef × σ) :=
  let Addr := WriteAddr % EEP_SPI_PAGESIZE
  let count := EEP_SPI_PAGESIZE - Addr
  let NumOfPage := NumByteToWrite / EEP_SPI_PAGESIZE
  let NumOfSingle := NumByteToWrite % EEP_SPI_PAGESIZE
  if Addr = 0 then
    if NumOfPage = 0 then
      orReturn (WritePage pBuffer WriteAddr NumByteToWrite s) fun s => some (HAL_OK, s)
    else
      match WriteBuffer_loop WritePage NumOfPage pBuffer WriteAddr s with
      | none => none
      | some (E2PStatus, (pBuffer, WriteAddr, s)) =>
        if E2PStatus ≠ HAL_OK then some (E2PStatus, s)
        else
          orReturn (WritePage pBuffer WriteAddr NumOfSingle s) fun s => some (HAL_OK, s)
  else
    if NumOfPage = 0 then
      if NumOfSingle > count then
        let temp := (NumOfSingle + 65536 - count) % 65536
        orReturn (WritePage pBuffer WriteAddr count s) fun s =>
          orReturn (WritePage (pBuffer.map (· + count)) ((WriteAddr + count) % 65536) temp s)
            fun s => some (HAL_OK, s)
      else
        orReturn (WritePage pBuffer WriteAddr NumByteToWrite s) fun s => some (HAL_OK, s)
    else
      let NumByteToWrite := (NumByteToWrite + 65536 - count) % 65536
      let NumOfPage := NumByteToWrite / EEP_SPI_PAGESIZE
      let NumOfSingle := NumByteToWrite % EEP_SPI_PAGESIZE
      orReturn (WritePage pBuffer WriteAddr count s) fun s =>
        match WriteBuffer_loop WritePage NumOfPage (pBuffer.map (· + count))
            ((WriteAddr + count) % 65536) s with
        | none => none
        | some (E2PStatus, (pBuffer, WriteAddr, s)) =>
          if E2PStatus ≠ HAL_OK then some (E2PStatus, s)
          else if NumOfSingle ≠ 0 then
            orReturn (WritePage pBuffer WriteAddr NumOfSingle s) fun s => some (HAL_OK, s)
          else some (HAL_OK, s)

/-- Translation of `EEPROM_HardSPI_WriteBuffer` (lines 309-407).  The page
writer of the hardware variant drives the STM32 HAL, which is not part of the
repository; it is a parameter. -/
def EEPROM_HardSPI_WriteBuffer {σ : Type}
    (EEPROM_HardSPI_WritePage :
      Option Nat → Nat → Nat → σ → Option (HAL_StatusTypeDef × σ))
    (pBuffer : Option Nat) (WriteAddr NumByteToWrite : Nat) (s : σ) :
    Option (HAL_StatusTypeDef × σ) :=
  WriteBuffer_pages EEPROM_HardSPI_WritePage pBuffer WriteAddr NumByteToWrite s

/-- Translation of `EEPROM_SoftSPI_WriteBuffer` (lines 717-820): the readiness
guard of lines 730-732, then the segmentation. -/
def EEPROM_SoftSPI_WriteBuffer (dev : Device) (fuel : Nat) (pBuffer : Option Nat)
    (WriteAddr NumByteToWrite : Nat) (w : World) : Option (HAL_StatusTypeDef × World) :=
  orReturn (IsReady_retry dev fuel w) fun w =>
    WriteBuffer_pages (EEPROM_SoftSPI_WritePage dev fuel) pBuffer WriteAddr NumByteToWrite w

/-- Translation of `BSP_EEPROM_Write` (lines 971-977); `EEPROM_SPI_WriteBuffer`
is `EEPROM_SoftSPI_WriteBuffer` under `USE_SOFTWARE_SPI == 1`. -/
def BSP_EEPROM_Write (dev : Device) (fuel : Nat) (reg_address : Nat)
    (data_buf : Option Nat) (length : Nat) (w : World) :
    Option (HAL_StatusTypeDef × World) :=
  EEPROM_SoftSPI_WriteBuffer dev fuel data_buf reg_address length w

/-- Ghost instrumentation of an arbitrary page writer: the state is paired with
the log of invocations. -/
def logged {σ : Type}
    (WritePage : Option Nat → Nat → Nat → σ → Option (HAL_StatusTypeDef × σ))
    (pBuffer : Option Nat) (WriteAddr NumByteToWrite : Nat) (s : σ × List PageWrite) :
    Option (HAL_StatusTypeDef × (σ × List PageWrite)) :=
  match WritePage pBuffer WriteAddr NumByteToWrite s.1 with
  | none => none
  | some (st, s1) => some (st, (s1, s.2 ++ [⟨WriteAddr, NumByteToWrite, pBuffer, st⟩]))

/-! ## Software SPI: the other routines -/

/-- Translation of `EEPROM_SoftSPI_WriteByte` (lines 545-574). -/
def EEPROM_SoftSPI_WriteByte (dev : Device) (fuel : Nat) (RegAdd RegData : Nat) (w : World) :
    Option (HAL_StatusTypeDef × World) :=
  orReturn (IsReady_retry dev fuel w) fun w =>
    let w := EEP_SPI_CS_LOW w
    let w := EEPROM_SoftSPI_SendByte CMD_WREN w
    let w := EEP_SPI_CS_HIGH w
    let w := EEP_SPI_CS_LOW w
    let w := EEPROM_SoftSPI_SendByte CMD_WRITE w
    let w := EEPROM_SoftSPI_SendByte (((RegAdd >>> 8) % 256) &&& 0xFF) w
    let w := EEPROM_SoftSPI_SendByte ((RegAdd % 256) &&& 0xFF) w
    let w := EEPROM_SoftSPI_SendByte RegData w
    let w := EEP_SPI_CS_HIGH w
    let w := EEP_SPI_CS_LOW w
    let w := EEPROM_SoftSPI_SendByte CMD_WRDI w
    let w := EEP_SPI_CS_HIGH w
    some (HAL_OK, w)

/-- Translation of `EEPROM_SoftSPI_ReadByte` (lines 583-596); `pData` is the
offset in RAM the byte is stored at. -/
def EEPROM_SoftSPI_ReadByte (dev : Device) (RegAdd pData : Nat) (w : World) :
    HAL_StatusTypeDef × World :=
  let w := EEP_SPI_CS_LOW w
  let w := EEPROM_SoftSPI_SendByte CMD_READ w
  let w := EEPROM_SoftSPI_SendByte (((RegAdd >>> 8) % 256) &&& 0xFF) w
  let w := EEPROM_SoftSPI_SendByte ((RegAdd % 256) &&& 0xFF) w
  let r := EEPROM_SoftSPI_RecvByte dev w
  let w := { r.2 with mem := Function.update r.2.mem pData r.1 }
  let w := EEP_SPI_CS_HIGH w
  (HAL_OK, w)

/-- Translation of `EEPROM_SoftSPI_WriteStatusRegister` (lines 604-633). -/
def EEPROM_SoftSPI_WriteStatusRegister (dev : Device) (fuel : Nat) (regval : Nat) (w : World) :
    Option (HAL_StatusTypeDef × World) :=
  orReturn (IsReady_retry dev fuel w) fun w =>
    let w := EEP_SPI_CS_LOW w
    let w := EEPROM_SoftSPI_SendByte CMD_WREN w
    let w := EEP_SPI_CS_HIGH w
    let w := EEP_SPI_CS_LOW w
    let w := EEPROM_SoftSPI_SendByte CMD_WRSR w
    let w := EEPROM_SoftSPI_SendByte regval w
    let w := EEP_SPI_CS_HIGH w
    let w := EEP_SPI_CS_LOW w
    let w := EEPROM_SoftSPI_SendByte CMD_WRDI w
    let w := EEP_SPI_CS_HIGH w
    some (HAL_OK, w)

/-- The loop of `EEPROM_SoftSPI_ReadBuffer`:
`for (uCount = 0; uCount < NumByteToRead; uCount++, pBuffer++) *pBuffer = RecvByte()`;
the first argument is the number of iterations left. -/
def ReadBuffer_loop (dev : Device) : Nat → Nat → World → World
  | 0, _, w => w
  | n + 1, pBuffer, w =>
    let r := EEPROM_SoftSPI_RecvByte dev w
    ReadBuffer_loop dev n (pBuffer + 1) { r.2 with mem := Function.update r.2.mem pBuffer r.1 }

/-- Translation of `EEPROM_SoftSPI_ReadBuffer` (lines 643-664). -/
def EEPROM_SoftSPI_ReadBuffer (dev : Device) (pBuffer : Option Nat)
    (ReadAddr NumByteToRead : Nat) (w : World) : HAL_StatusTypeDef × World :=
  match pBuffer with
  | none => (HAL_ERROR, w)
  | some p =>
    if NumByteToRead = 0 then (HAL_ERROR, w)
    else
      let w := EEP_SPI_CS_LOW w
      let w := EEPROM_SoftSPI_SendByte CMD_READ w
      let w := EEPROM_SoftSPI_SendByte (((ReadAddr >>> 8) % 256) &&& 0xFF) w
      let w := EEPROM_SoftSPI_SendByte ((ReadAddr &&& 0xFF) % 256) w
      let w := ReadBuffer_loop dev NumByteToRead p w
      let w := EEP_SPI_CS_HIGH w
      (HAL_OK, w)

/-- Translation of `BSP_EEPROM_Read` (lines 987-993); `EEPROM_SPI_ReadBuffer`
is `EEPROM_SoftSPI_ReadBuffer` under `USE_SOFTWARE_SPI == 1`. -/
def BSP_EEPROM_Read (dev : Device) (reg_address : Nat) (data_buf : Option Nat)
    (length : Nat) (w : World) : HAL_StatusTypeDef × World :=
  EEPROM_SoftSPI_ReadBuffer dev data_buf reg_address length w

/-! ## Connection probe -/

/-- The loop of `BSP_EEPROM_IsConnected`:
`for (uCount = 0; uCount < 5; uCount++) { if (EEPROM_SPI_IsReady() == HAL_OK) return 1; HAL_Delay(50); }`
followed by `return 0`; the first argument is the number of rounds left. -/
def IsConnected_loop {σ : Type} (EEPROM_SPI_IsReady : σ → Option (HAL_StatusTypeDef × σ))
    (HAL_Delay : Nat → σ → σ) : Nat → σ → Option (Nat × σ)
  | 0, s => some (0, s)
  | k + 1, s =>
    match EEPROM_SPI_IsReady s with
    | none => none
    | some (st, s1) =>
      if st = HAL_OK then some (1, s1)
      else IsConnected_loop EEPROM_SPI_IsReady HAL_Delay k (HAL_Delay 50 s1)

/-- Translation of `BSP_EEPROM_IsConnected` (lines 950-961).  The pin set-up
`EEPROM_SPI_Init`, the probe `EEPROM_SPI_IsReady` and `HAL_Delay` are
parameters over the state they act on. -/
def BSP_EEPROM_IsConnected {σ : Type} (EEPROM_SPI_Init : σ → σ)
    (EEPROM_SPI_IsReady : σ → Option (HAL_StatusTypeDef × σ))
    (HAL_Delay : Nat → σ → σ) (s : σ) : Option (Nat × σ) :=
  IsConnected_loop EEPROM_SPI_IsReady HAL_Delay 5 (EEPROM_SPI_Init s)

/-- A probe that answers with a given sequence of results; the state is the
number of probes made so far. -/
def probeSeq (res : Nat → HAL_StatusTypeDef) (k : Nat) : Option (HAL_StatusTypeDef × Nat) :=
  some (res k, k + 1)

/-! ## Hardware SPI: buffer read -/

/-- One observable action of the hardware variant: a chip-select edge, a
`HAL_SPI_Transmit` call with its data and result, a `HAL_SPI_Receive` call
with the requested size, the bytes delivered and its result. -/
inductive HardEvent where
  | CS_LOW
  | CS_HIGH
  | transmit (data : List Nat) (st : HAL_StatusTypeDef)
  | receive (size : Nat) (data : List Nat) (st : HAL_StatusTypeDef)
  deriving DecidableEq, Repr

/-- The STM32 HAL and the peripheral behind it, which are not part of the
repository: the `n`-th reading of the TXE and RXNE flags, the `n`-th value of
`BSP_GetTick`, and the outcome of `HAL_SPI_Transmit` and `HAL_SPI_Receive`
as functions of the history. -/
structure Hal where
  flagTXE : Nat → Bool
  flagRXNE : Nat → Bool
  tick : Nat → Nat
  transmit : List HardEvent → List Nat → HAL_StatusTypeDef
  receive : List HardEvent → Nat → HAL_StatusTypeDef × List Nat

/-- The mutable state of the hardware variant: history, number of tick reads,
number of flag reads, RAM. -/
structure HardWorld where
  trace : List HardEvent
  tk : Nat
  nflag : Nat
  mem : Nat → Nat

/-- Store the bytes `bs` in RAM from offset `p`. -/
def storeBytes (mem : Nat → Nat) (p : Nat) (bs : List Nat) : Nat → Nat :=
  fun x => if p ≤ x ∧ x < p + bs.length then bs.getD (x - p) 0 else mem x

/-- The busy-wait `while (!flag && (BSP_GetTick() - uwTimeout < WRITE_TIMEOUT_MS));`
of `EEPROM_HardSPI_SendByte` and `EEPROM_HardSPI_RecvByte`; the tick is read
only when the flag is clear, differences are taken in 32 bits. -/
def HardSPI_wait (hal : Hal) (flag : Nat → Bool) : Nat → Nat → HardWorld → Option HardWorld
  | 0, _, _ => none
  | fuel + 1, uwTimeout, w =>
    if flag w.nflag then some { w with nflag := w.nflag + 1 }
    else
      if (hal.tick w.tk % 2 ^ 32 + 2 ^ 32 - uwTimeout) % 2 ^ 32 < WRITE_TIMEOUT_MS then
        HardSPI_wait hal flag fuel uwTimeout { w with nflag := w.nflag + 1, tk := w.tk + 1 }
      else some { w with nflag := w.nflag + 1, tk := w.tk + 1 }

/-- Translation of `EEPROM_HardSPI_SendByte(pByte, ucSize)` (lines 37-46); the
bytes to send are passed as a list. -/
def EEPROM_HardSPI_SendByte (hal : Hal) (fuel : Nat) (data : List Nat) (w : HardWorld) :
    Option (HAL_StatusTypeDef × HardWorld) :=
  let uwTimeout := hal.tick w.tk % 2 ^ 32
  let w := { w with tk := w.tk + 1 }
  match HardSPI_wait hal hal.flagTXE fuel uwTimeout w with
  | none => none
  | some w =>
    let t := hal.tick w.tk % 2 ^ 32
    let w := { w with tk := w.tk + 1 }
    if (t + 2 ^ 32 - uwTimeout) % 2 ^ 32 ≥ 50 then some (HAL_ERROR, w)
    else
      let st := hal.transmit w.trace data
      some (st, { w with trace := w.trace ++ [HardEvent.transmit data st] })

/-- Translation of `EEPROM_HardSPI_RecvByte(pByte, ucSize)` (lines 53-62):
`HAL_SPI_Receive` stores the bytes it delivers, at most `ucSize`, from
`pByte` on. -/
def EEPROM_HardSPI_RecvByte (hal : Hal) (fuel : Nat) (pByte ucSize : Nat) (w : HardWorld) :
    Option (HAL_StatusTypeDef × HardWorld) :=
  let uwTimeout := hal.tick w.tk % 2 ^ 32
  let w := { w with tk := w.tk + 1 }
  match HardSPI_wait hal hal.flagRXNE fuel uwTimeout w with
  | none => none
  | some w =>
    let t := hal.tick w.tk % 2 ^ 32
    let w := { w with tk := w.tk + 1 }
    if (t + 2 ^ 32 - uwTimeout) % 2 ^ 32 ≥ 50 then some (HAL_ERROR, w)
    else
      let r := hal.receive w.trace ucSize
      some (r.1, { w with
        trace := w.trace ++ [HardEvent.receive ucSize (r.2.take ucSize) r.1]
        mem := storeBytes w.mem pByte (r.2.take ucSize) })

/-- The loop of `EEPROM_HardSPI_ReadBuffer`:
`for (uCount = 0; uCount < 5; uCount++) { if (RecvByte(pBuffer, 1) == HAL_OK) { E2PStatus = HAL_OK; break; } BSP_Delay(1, NONE_BLOCKING); }`;
the first argument is the number of rounds left, the status in the result is
the value of `E2PStatus` after the loop. -/
def HardSPI_ReadBuffer_loop (hal : Hal) (fuel : Nat) (pBuffer : Nat) :
    Nat → HAL_StatusTypeDef → HardWorld → Option (HAL_StatusTypeDef × HardWorld)
  | 0, E2PStatus, w => some (E2PStatus, w)
  | k + 1, E2PStatus, w =>
    match EEPROM_HardSPI_RecvByte hal fuel pBuffer 1 w with
    | none => none
    | some (st, w1) =>
      if st = HAL_OK then some (HAL_OK, w1)
      else HardSPI_ReadBuffer_loop hal fuel pBuffer k E2PStatus w1

/-- Translation of `EEPROM_HardSPI_ReadBuffer` (lines 221-249).  The header
bytes are `uint8_t`. -/
def EEPROM_HardSPI_ReadBuffer (hal : Hal) (fuel : Nat) (pBuffer : Nat)
    (ReadAddr NumByteToRead : Nat) (w : HardWorld) : Option (HAL_StatusTypeDef × HardWorld) :=
  let _ := NumByteToRead -- the parameter is never read
  let header := [CMD_READ, (ReadAddr >>> 8) % 256, ReadAddr % 256]
  let w := { w with trace := w.trace ++ [HardEvent.CS_LOW] }
  match EEPROM_HardSPI_SendByte hal fuel header w with
  | none => none
  | some (st, w) =>
    let r :=
      if st = HAL_OK then HardSPI_ReadBuffer_loop hal fuel pBuffer 5 HAL_ERROR w
      else some (HAL_ERROR, w)
    match r with
    | none => none
    | some (E2PStatus, w) =>
      some (E2PStatus, { w with trace := w.trace ++ [HardEvent.CS_HIGH] })

/-- A transport on which every call succeeds: the flags are set, the clock
stands still, `HAL_SPI_Transmit` returns `HAL_OK`, and `HAL_SPI_Receive`
returns `HAL_OK` with the bytes `0xA0, 0xA1, ...`. -/
def goodHal : Hal :=
  { flagTXE := fun _ => true
    flagRXNE := fun _ => true
    tick := fun _ => 0
    transmit := fun _ _ => HAL_OK
    receive := fun _ size => (HAL_OK, (List.range size).map (fun i => 0xA0 + i)) }

/-- The initial state of the hardware variant: empty history, RAM cleared. -/
def hw0 : HardWorld := { trace := [], tk := 0, nflag := 0, mem := fun _ => 0 }

/-! ## The call sequence of the segmentation -/

/-- One page-write request: payload pointer, 16-bit address, length. -/
structure Chunk where
  buffer : Option Nat
  address : Nat
  length : Nat
  deriving DecidableEq, Repr

/-- Issue the requests in order through the page writer, stopping at the first
status other than `HAL_OK`, which is then the result. -/
def runPages {σ : Type}
    (WritePage : Option Nat → Nat → Nat → σ → Option (HAL_StatusTypeDef × σ)) :
    List Chunk → σ → Option (HAL_StatusTypeDef × σ)
  | [], s => some (HAL_OK, s)
  | c :: cs, s => orReturn (WritePage c.buffer c.address c.length s) (runPages WritePage cs)

/-- The requests of `k` rounds of the `while (NumOfPage--)` loop. -/
def fullPages : Nat → Option Nat → Nat → List Chunk
  | 0, _, _ => []
  | k + 1, b, a =>
    ⟨b, a, EEP_SPI_PAGESIZE⟩ ::
      fullPages k (b.map (· + EEP_SPI_PAGESIZE)) ((a + EEP_SPI_PAGESIZE) % 65536)

/-- The requests `WriteBuffer_pages` makes when no page write fails, branch by
branch (`WriteBuffer_pages_eq_runPages` proves that the code issues exactly
these, up to the first failure). -/
def segments (b : Option Nat) (a n : Nat) : List Chunk :=
  let count := EEP_SPI_PAGESIZE - a % EEP_SPI_PAGESIZE
  if a % EEP_SPI_PAGESIZE = 0 then
    if n / EEP_SPI_PAGESIZE = 0 then [⟨b, a, n⟩]
    else
      fullPages (n / EEP_SPI_PAGESIZE) b a ++
        [⟨b.map (· + EEP_SPI_PAGESIZE * (n / EEP_SPI_PAGESIZE)),
          (a + EEP_SPI_PAGESIZE * (n / EEP_SPI_PAGESIZE)) % 65536, n % EEP_SPI_PAGESIZE⟩]
  else if n / EEP_SPI_PAGESIZE = 0 then
    if n % EEP_SPI_PAGESIZE > count then
      [⟨b, a, count⟩,
        ⟨b.map (· + count), (a + count) % 65536, (n % EEP_SPI_PAGESIZE + 65536 - count) % 65536⟩]
    else [⟨b, a, n⟩]
  else
    let m := (n + 65536 - count) % 65536
    ⟨b, a, count⟩ ::
      (fullPages (m / EEP_SPI_PAGESIZE) (b.map (· + count)) ((a + count) % 65536) ++
        if m % EEP_SPI_PAGESIZE ≠ 0 then
          [⟨(b.map (· + count)).map (· + EEP_SPI_PAGESIZE * (m / EEP_SPI_PAGESIZE)),
            ((a + count) % 65536 + EEP_SPI_PAGESIZE * (m / EEP_SPI_PAGESIZE)) % 65536,
            m % EEP_SPI_PAGESIZE⟩]
        else [])

/-! ## Hypotheses on the environment -/

/-- Every readiness check made from a state with `k` tick reads succeeds: the
first status byte the device returns after a read-status opcode has WIP clear,
and the tick read after each poll is below the deadline `tw + 20` computed
from the tick read before it (a poll of an idle device reads the tick twice). -/
def AlwaysReady (dev : Device) (k : Nat) : Prop :=
  (∀ h : List Event,
      bitRead (dev.miso (h ++ [Event.CS_LOW, Event.tx CMD_RDSR]) % 256) BIT_WIP = 0) ∧
  (∀ i : Nat, dev.tick (k + 2 * i + 1) % 2 ^ 32
      < (dev.tick (k + 2 * i) % 2 ^ 32 + WRITE_TIMEOUT_MS) % 2 ^ 32)

/-- The tick counter makes progress: after any read, some later read is not
below the deadline `tw + 20` (reduced to 32 bits) computed from it. -/
def ClockAdvances (dev : Device) : Prop :=
  ∀ i : Nat, ∃ j : Nat, i < j ∧
    (dev.tick i % 2 ^ 32 + WRITE_TIMEOUT_MS) % 2 ^ 32 ≤ dev.tick j % 2 ^ 32

/-- The bytes of the payload loop: `n` bytes of RAM from offset `p`. -/
def payloadBytes (mem : Nat → Nat) (p n : Nat) : List Nat :=
  (List.range n).map fun i => mem (p + i) % 256

/-- The bus events of one successful page write after the readiness check:
the write-enable frame, the write frame, the write-disable frame. -/
def pageFrames (mem : Nat → Nat) (p WriteAddr n : Nat) : List Event :=
  [Event.CS_LOW, Event.tx CMD_WREN, Event.CS_HIGH] ++
  ([Event.CS_LOW, Event.tx CMD_WRITE, Event.tx (WriteAddr / 256), Event.tx (WriteAddr % 256)]
    ++ (payloadBytes mem p n).map Event.tx ++ [Event.CS_HIGH]) ++
  [Event.CS_LOW, Event.tx CMD_WRDI, Event.CS_HIGH]

/-- The readiness guard of a write routine lets execution continue and leaves
the state `wr`: the first `EEPROM_SoftSPI_IsReady` returns `HAL_OK`, or it
fails and the second one returns `HAL_OK`. -/
def GuardPasses (dev : Device) (fuel : Nat) (w wr : World) : Prop :=
  EEPROM_SoftSPI_IsReady dev fuel w = some (HAL_OK, wr) ∨
  ∃ s1 w1, EEPROM_SoftSPI_IsReady dev fuel w = some (s1, w1) ∧ s1 ≠ HAL_OK ∧
    EEPROM_SoftSPI_IsReady dev fuel w1 = some (HAL_OK, wr)

/-- The bus events of one status poll that sampled the status bytes `bs`. -/
def pollFrame (bs : List Nat) : List Event :=
  [Event.CS_LOW, Event.tx CMD_RDSR] ++ bs.map Event.rx ++ [Event.CS_HIGH]

/-- The status `EEPROM_SoftSPI_WritePage` returns for a request when every
readiness check succeeds: only the argument check of line 679 can fail. -/
def chunkStatus (c : Chunk) : HAL_StatusTypeDef :=
  if c.length = 0 ∨ c.buffer = none then HAL_ERROR else HAL_OK

/-- The record of a request together with a status. -/
def Chunk.record (c : Chunk) (st : HAL_StatusTypeDef) : PageWrite :=
  ⟨c.address, c.length, c.buffer, st⟩

/-- The log a request list leaves when every readiness check succeeds. -/
def readyLog : List Chunk → List PageWrite
  | [] => []
  | c :: cs => c.record (chunkStatus c) :: (if chunkStatus c = HAL_OK then readyLog cs else [])

/-- The status a request list ends with when every readiness check succeeds. -/
def readyStatus : List Chunk → HAL_StatusTypeDef
  | [] => HAL_OK
  | c :: cs => if chunkStatus c = HAL_OK then readyStatus cs else chunkStatus c

/-- The log `recs` and final status `st` that running a request list can
leave: every request served before the last logged one returned `HAL_OK`; the
run ends either after the whole list (status `HAL_OK`) or at the first request
that returns another status, which is then the final status. -/
inductive Issued : List Chunk → List PageWrite → HAL_StatusTypeDef → Prop where
  | done : Issued [] [] HAL_OK
  | fail (c : Chunk) (cs : List Chunk) (st : HAL_StatusTypeDef) :
      st ≠ HAL_OK → Issued (c :: cs) [c.record st] st
  | step (c : Chunk) (cs : List Chunk) (recs : List PageWrite) (st : HAL_StatusTypeDef) :
      Issued cs recs st → Issued (c :: cs) (c.record HAL_OK :: recs) st

/-- The page writes `recs` are contiguous from address `a` and payload offset
`o`: the first one is at `a` with its payload at offset `o`, and each next one
starts where the previous one ends, in the address space and in the payload. -/
def Contiguous : Nat → Nat → List PageWrite → Prop
  | _, _, [] => True
  | a, o, r :: rs =>
    r.address = a ∧ r.buffer = some o ∧ Contiguous (a + r.length) (o + r.length) rs

/-- A fuel-indexed computation converges: from some fuel on it returns one and
the same result. -/
def Converges {α : Type} (f : Nat → Option α) : Prop :=
  ∃ n r, ∀ m, n ≤ m → f m = some r

/-! ## Test environments -/

/-- A device that is idle at every poll, with a clock that stands still. -/
def idleDevice : Device := { miso := fun _ => 0, tick := fun _ => 0 }

/-- A device that is idle at every poll, with a clock that advances by one at
every read. -/
def tickingDevice : Device := { miso := fun _ => 0, tick := fun n => n }

/-- A device that reports write-in-progress at every poll, with a clock that
advances by one at every read. -/
def busyDevice : Device := { miso := fun _ => 1, tick := fun n => n }

/-- A device that is idle until a write opcode has been on the bus and reports
write-in-progress ever after: a write cycle that never completes. -/
def busyAfterWrite : Device :=
  { miso := fun h => if Event.tx CMD_WRITE ∈ h then 1 else 0, tick := fun _ => 0 }

/-- A page writer for tests of the hardware variant: the state counts the
invocations, the second invocation times out, every other one succeeds. -/
def failingSecond (_ : Option Nat) (_ _ : Nat) (k : Nat) : Option (HAL_StatusTypeDef × Nat) :=
  some (if k = 1 then HAL_TIMEOUT else HAL_OK, k + 1)

/-- The initial state: empty bus history, a buffer holding `i % 256` at
offset `i`, no page write logged. -/
def w0 : World := { trace := [], tk := 0, mem := fun i => i % 256, pages := [] }

/-! ## Further environments -/

/-- The predicate "is a byte shifted in". -/
def Event.isRx : Event → Bool
  | Event.rx _ => true
  | _ => false

/-- A device that answers with a fixed sequence of bytes: the `i`-th byte
shifted in over the whole bus history is `bytes i`. -/
def statusStream (bytes : Nat → Nat) (tick : Nat → Nat) : Device :=
  { miso := fun h => bytes (h.countP Event.isRx), tick := tick }

/-- An idle device behind a slow clock: the tick grows by 20 between two
reads. -/
def lateDevice : Device := { miso := fun _ => 0, tick := fun n => 20 * n }


/-- A device that reports write-in-progress (and the write-enable latch) at
every poll, behind a clock that counts up to 100 and stays there. -/
def saturatingBusy : Device := { miso := fun _ => 3, tick := fun n => min n 100 }

/-- A device that is idle at every poll while the millisecond tick counter
stands at `4294967290`, six ticks before the 32-bit counter wraps: every tick
read of the run falls into that one millisecond. -/
def nearWrapIdle : Device := { miso := fun _ => 0, tick := fun _ => 4294967290 }

/-- A tick counter that starts `26` ticks before the 32-bit wrap and advances
by one at every read. -/
def nearWrapClock (n : Nat) : Nat := 4294967270 + n


/-! ## Chip-select framing -/

/-- Follow the chip-select line through a list of bus events, from the state
`asserted` (`true` when chip select is low).  The result is the final state,
or `none` when the events are ill-framed: a falling edge while asserted, a
rising edge while deasserted, or a byte outside a frame. -/
def chipSelect : Bool → List Event → Option Bool
  | s, [] => some s
  | false, Event.CS_LOW :: r => chipSelect true r
  | true, Event.CS_HIGH :: r => chipSelect false r
  | true, Event.tx _ :: r => chipSelect true r
  | true, Event.rx _ :: r => chipSelect true r
  | false, Event.CS_HIGH :: _ => none
  | false, Event.tx _ :: _ => none
  | false, Event.rx _ :: _ => none
  | true, Event.CS_LOW :: _ => none

/-- The run from `w` to `w1` only adds bus events, and they are well framed:
chip-select edges alternate low, high, ... starting with low, every byte lies
between a low and the next high, and chip select is high at the end. -/
def FramedRun (w w1 : World) : Prop :=
  ∃ evs, w1.trace = w.trace ++ evs ∧ chipSelect false evs = some false

/-- The predicate "is a byte on the bus". -/
def Event.isByte : Event → Bool
  | Event.tx _ => true
  | Event.rx _ => true
  | _ => false


/-- The bytes a device shifts out during `n` successive `RecvByte` calls that
start with the bus history `h`. -/
def recvBytes (dev : Device) : Nat → List Event → List Nat
  | 0, _ => []
  | n + 1, h => (dev.miso h % 256) :: recvBytes dev n (h ++ [Event.rx (dev.miso h % 256)])


/-- A sequence of probe results: only the third probe succeeds. -/
def thirdProbeOk (i : Nat) : HAL_StatusTypeDef := if i = 2 then HAL_OK else HAL_ERROR


/-! ## Bit-banged byte transfer at pin level -/

/-- One observable action on the pins of the software SPI: a level written to
MOSI (`true` is high), a clock edge, a level sampled on MISO. -/
inductive PinEvent where
  | SI (level : Bool)
  | CK_LOW
  | CK_HIGH
  | SO (level : Bool)
  deriving DecidableEq, Repr

/-- The loop of `EEPROM_SoftSPI_SendByte` (lines 457-475) with `clk` rounds
left: set MOSI to bit 7 of `value`, pulse the clock low then high, shift
`value` left in 8 bits. -/
def SendByte_pins : Nat → Nat → List PinEvent
  | 0, _ => []
  | clk + 1, value =>
    PinEvent.SI (decide (value &&& 0x80 ≠ 0)) :: PinEvent.CK_LOW :: PinEvent.CK_HIGH ::
      SendByte_pins clk ((value <<< 1) % 256)

/-- Pin-level translation of `EEPROM_SoftSPI_SendByte(uint8_t value)`. -/
def EEPROM_SoftSPI_SendByte_pins (value : Nat) : List PinEvent :=
  SendByte_pins 8 (value % 256)

/-- The loop of `EEPROM_SoftSPI_RecvByte` (lines 489-504) with `clk` rounds
left: pulse the clock low then high, shift `temp` left in 8 bits, set bit 0
when the MISO sample is high.  `so k` is the `k`-th level sampled. -/
def RecvByte_pins (so : Nat → Bool) : Nat → Nat → Nat → Nat × List PinEvent
  | 0, temp, _ => (temp, [])
  | clk + 1, temp, k =>
    let temp := (temp <<< 1) % 256
    let temp := if so k then temp ||| 1 else temp
    let r := RecvByte_pins so clk temp (k + 1)
    (r.1, PinEvent.CK_LOW :: PinEvent.CK_HIGH :: PinEvent.SO (so k) :: r.2)

/-- Pin-level translation of `EEPROM_SoftSPI_RecvByte()`. -/
def EEPROM_SoftSPI_RecvByte_pins (so : Nat → Bool) : Nat × List PinEvent :=
  RecvByte_pins so 8 0 0

/-- The levels written to MOSI, in order. -/
def mosiLevels : List PinEvent → List Bool
  | [] => []
  | PinEvent.SI l :: r => l :: mosiLevels r
  | _ :: r => mosiLevels r


/-! ## An idealised device -/

/-- Position of the idealised device inside a chip-select frame. -/
inductive Phase where
  | idle
  | opcode
  | addrHi (op : Nat)
  | addrLo (op hi : Nat)
  | writing (addr : Nat)
  | reading (addr : Nat)
  | status

/-- State of the idealised device: the byte array and the position inside the
current frame. -/
structure Eeprom where
  cells : Nat → Nat
  phase : Phase

/-- One bus event seen by the idealised device.  A falling chip-select edge
opens a frame, a rising edge closes it.  In a write frame `0x02, hi, lo,
data...` each data byte is stored at the current address, which then advances
inside the page and rolls over to the start of the page at its end.  In a read
frame `0x03, hi, lo` each byte clocked out advances the address. -/
def Eeprom.step (s : Eeprom) : Event → Eeprom
  | Event.CS_LOW => { s with phase := Phase.opcode }
  | Event.CS_HIGH => { s with phase := Phase.idle }
  | Event.tx b =>
    match s.phase with
    | Phase.opcode =>
      if b = CMD_WRITE ∨ b = CMD_READ then { s with phase := Phase.addrHi b }
      else if b = CMD_RDSR then { s with phase := Phase.status }
      else { s with phase := Phase.idle }
    | Phase.addrHi op => { s with phase := Phase.addrLo op b }
    | Phase.addrLo op hi =>
      if op = CMD_WRITE then { s with phase := Phase.writing (hi * 256 + b) }
      else { s with phase := Phase.reading (hi * 256 + b) }
    | Phase.writing a =>
      { cells := Function.update s.cells a b,
        phase := Phase.writing
          (a / EEP_SPI_PAGESIZE * EEP_SPI_PAGESIZE + (a + 1) % EEP_SPI_PAGESIZE) }
    | _ => s
  | Event.rx _ =>
    match s.phase with
    | Phase.reading a => { s with phase := Phase.reading ((a + 1) % 65536) }
    | _ => s

/-- The byte the idealised device shifts out next: the stored byte at the
current address in a read frame; the status register, which always reads
zero (never busy), otherwise. -/
def Eeprom.respond (s : Eeprom) : Nat :=
  match s.phase with
  | Phase.reading a => s.cells a
  | _ => 0

/-- The idealised device after a bus history. -/
def Eeprom.run (s : Eeprom) (h : List Event) : Eeprom := h.foldl Eeprom.step s

/-- The idealised always-ready device with initial content `cells`, as an
environment of the driver. -/
def idealEeprom (cells : Nat → Nat) (tick : Nat → Nat) : Device :=
  { miso := fun h => (Eeprom.run { cells := cells, phase := Phase.idle } h).respond
    tick := tick }

/-- Every status poll started at an even number of tick reads after the `k`-th
one ends within the deadline: the tick read after the poll is below `tw + 20`. -/
def PollsInTime (tick : Nat → Nat) (k : Nat) : Prop :=
  ∀ i : Nat, tick (k + 2 * i + 1) % 2 ^ 32
    < (tick (k + 2 * i) % 2 ^ 32 + WRITE_TIMEOUT_MS) % 2 ^ 32

/-- The byte array after `n` bytes of RAM from offset `p` have been stored at
the consecutive addresses from `a`. -/
def writeSpan (cells mem : Nat → Nat) (a p n : Nat) : Nat → Nat :=
  fun x => if a ≤ x ∧ x < a + n then mem (p + (x - a)) % 256 else cells x

/-- The byte array after a request list has been served up to its first
rejected request (zero length or `NULL` buffer), each served request storing
its bytes at consecutive addresses. -/
def storeChunks (mem : Nat → Nat) : List Chunk → (Nat → Nat) → (Nat → Nat)
  | [], cells => cells
  | c :: cs, cells =>
    match c.buffer with
    | none => cells
    | some p =>
      if c.length = 0 then cells
      else storeChunks mem cs (writeSpan cells mem c.address p c.length)


end BSP_EEPROM

/-! # Theorems -/

namespace BSP_EEPROM

open HAL_StatusTypeDef

/-! ## The segmentation issues `segments`, fail-fast -/

theorem orReturn_some {σ : Type} (st : HAL_StatusTypeDef) (s : σ)
    (k : σ → Option (HAL_StatusTypeDef × σ)) :
    orReturn (some (st, s)) k = if st ≠ HAL_OK then some (st, s) else k s := rfl

theorem orReturn_none {σ : Type} (k : σ → Option (HAL_StatusTypeDef × σ)) :
    orReturn none k = none := rfl

theorem orReturn_pure {σ : Type} (r : Option (HAL_StatusTypeDef × σ)) :
    orReturn r (fun s => some (HAL_OK, s)) = r := by
  rcases r with _ | ⟨st, s⟩
  · rfl
  · cases st <;> simp [orReturn]

theorem orReturn_assoc {σ : Type} (r : Option (HAL_StatusTypeDef × σ))
    (k1 k2 : σ → Option (HAL_StatusTypeDef × σ)) :
    orReturn (orReturn r k1) k2 = orReturn r (fun s => orReturn (k1 s) k2) := by
  rcases r with _ | ⟨st, s⟩
  · rfl
  · by_cases h : st = HAL_OK
    · simp [orReturn, h]
    · simp [orReturn, h]

theorem runPages_append {σ : Type}
    (wp : Option Nat → Nat → Nat → σ → Option (HAL_StatusTypeDef × σ))
    (xs ys : List Chunk) (s : σ) :
    runPages wp (xs ++ ys) s = orReturn (runPages wp xs s) (runPages wp ys) := by
  induction xs generalizing s with
  | nil => simp [runPages, orReturn]
  | cons c cs ih =>
    simp only [List.cons_append, runPages, orReturn_assoc]
    congr 1
    funext s1
    exact ih s1

theorem map_add_add (b : Option Nat) (x y : Nat) :
    (b.map (· + x)).map (· + y) = b.map (· + (x + y)) := by
  cases b <;> simp [Nat.add_assoc]

/-- The `while (NumOfPage--)` loop followed by a continuation issues the
requests of `fullPages` and hands the advanced pointer and address on. -/
theorem WriteBuffer_loop_eq {σ : Type}
    (wp : Option Nat → Nat → Nat → σ → Option (HAL_StatusTypeDef × σ))
    (K : Option Nat → Nat → σ → Option (HAL_StatusTypeDef × σ))
    (k : Nat) (b : Option Nat) (a : Nat) (ha : a < 65536) (s : σ) :
    (match WriteBuffer_loop wp k b a s with
      | none => none
      | some (st, (b1, a1, s1)) => if st ≠ HAL_OK then some (st, s1) else K b1 a1 s1)
    = orReturn (runPages wp (fullPages k b a) s)
        (K (b.map (· + EEP_SPI_PAGESIZE * k)) ((a + EEP_SPI_PAGESIZE * k) % 65536)) := by
  induction k generalizing b a s with
  | zero =>
    have hb : b.map (· + EEP_SPI_PAGESIZE * 0) = b := by cases b <;> simp
    simp [WriteBuffer_loop, fullPages, runPages, orReturn, hb, Nat.mod_eq_of_lt ha]
  | succ k ih =>
    simp only [WriteBuffer_loop, fullPages, runPages]
    rcases hwp : wp b a EEP_SPI_PAGESIZE s with _ | ⟨st, s1⟩
    · simp [orReturn]
    · by_cases hst : st = HAL_OK
      · subst hst
        have hlt : (a + EEP_SPI_PAGESIZE) % 65536 < 65536 := Nat.mod_lt _ (by decide)
        have := ih (b.map (· + EEP_SPI_PAGESIZE)) ((a + EEP_SPI_PAGESIZE) % 65536) hlt s1
        simp only [orReturn_some, ne_eq, not_true_eq_false, if_false]
        rw [this, map_add_add]
        have e1 : EEP_SPI_PAGESIZE + EEP_SPI_PAGESIZE * k = EEP_SPI_PAGESIZE * (k + 1) := by
          simp [EEP_SPI_PAGESIZE]; omega
        have e2 : ((a + EEP_SPI_PAGESIZE) % 65536 + EEP_SPI_PAGESIZE * k) % 65536
            = (a + EEP_SPI_PAGESIZE * (k + 1)) % 65536 := by
          simp only [EEP_SPI_PAGESIZE]; omega
        rw [e1, e2]
      · simp [orReturn, hst]

/-- Master equation: the segmentation code issues the requests of `segments`
in order and returns at the first failure. -/
theorem WriteBuffer_pages_eq_runPages {σ : Type}
    (wp : Option Nat → Nat → Nat → σ → Option (HAL_StatusTypeDef × σ))
    (b : Option Nat) (a n : Nat) (ha : a < 65536) (s : σ) :
    WriteBuffer_pages wp b a n s = runPages wp (segments b a n) s := by
  unfold WriteBuffer_pages segments
  simp only []
  split_ifs with h1 h2 h3 h4 h5
  · simp [runPages, orReturn_pure]
  · rw [WriteBuffer_loop_eq wp _ _ b a ha s, runPages_append]
    simp [runPages, orReturn_pure]
  · simp [runPages, orReturn_pure]
  · simp [runPages, orReturn_pure]
  · have hlt : (a + (EEP_SPI_PAGESIZE - a % EEP_SPI_PAGESIZE)) % 65536 < 65536 :=
      Nat.mod_lt _ (by decide)
    simp only [runPages]
    congr 1
    funext s1
    rw [WriteBuffer_loop_eq wp _ _ _ _ hlt s1, runPages_append]
    simp [runPages, orReturn_pure]
  · have hlt : (a + (EEP_SPI_PAGESIZE - a % EEP_SPI_PAGESIZE)) % 65536 < 65536 :=
      Nat.mod_lt _ (by decide)
    simp only [runPages]
    congr 1
    funext s1
    rw [WriteBuffer_loop_eq wp _ _ _ _ hlt s1]
    simp [runPages, orReturn_pure]

/-! ## Status poll and page write on an idle device -/

theorem bitRead_WIP (v : Nat) : bitRead v BIT_WIP = v % 2 := by
  simp [bitRead, BIT_WIP, Nat.and_one_is_mod]

theorem AlwaysReady_step {dev : Device} {k : Nat} (h : AlwaysReady dev k) :
    AlwaysReady dev (k + 2) := by
  refine ⟨h.1, fun i => ?_⟩
  have := h.2 (i + 1)
  have e : k + 2 * (i + 1) = k + 2 + 2 * i := by omega
  rw [e] at this
  exact this

/-- A status poll of an idle device within the deadline: one frame with one
status byte, two tick reads, `HAL_OK`. -/
theorem IsReady_ready (dev : Device) (fuel : Nat) (w : World)
    (h : AlwaysReady dev w.tk) (hf : 1 ≤ fuel) :
    EEPROM_SoftSPI_IsReady dev fuel w = some (HAL_OK,
      { w with
        trace := w.trace ++ [Event.CS_LOW, Event.tx CMD_RDSR,
          Event.rx (dev.miso (w.trace ++ [Event.CS_LOW, Event.tx CMD_RDSR]) % 256),
          Event.CS_HIGH]
        tk := w.tk + 2 }) := by
  obtain ⟨f, rfl⟩ : ∃ f, fuel = f + 1 := ⟨fuel - 1, by omega⟩
  have h1 := h.1 w.trace
  have h2 := h.2 0
  simp only [Nat.mul_zero, Nat.add_zero] at h2
  have h3 : ¬ (dev.tick w.tk % 2 ^ 32 + WRITE_TIMEOUT_MS) % 2 ^ 32 ≤ dev.tick (w.tk + 1) % 2 ^ 32 :=
    Nat.not_le.mpr h2
  simp only [CMD_RDSR, Nat.mod_add_mod, Nat.reducePow] at h1 h3
  simp [EEPROM_SoftSPI_IsReady, IsReady_poll, HAL_GetTick, EEP_SPI_CS_LOW, EEP_SPI_CS_HIGH,
    EEPROM_SoftSPI_SendByte, EEPROM_SoftSPI_RecvByte, h1, h3, CMD_RDSR]

theorem IsReady_retry_ready (dev : Device) (fuel : Nat) (w : World)
    (h : AlwaysReady dev w.tk) (hf : 1 ≤ fuel) :
    IsReady_retry dev fuel w = some (HAL_OK,
      { w with
        trace := w.trace ++ [Event.CS_LOW, Event.tx CMD_RDSR,
          Event.rx (dev.miso (w.trace ++ [Event.CS_LOW, Event.tx CMD_RDSR]) % 256),
          Event.CS_HIGH]
        tk := w.tk + 2 }) := by
  simp [IsReady_retry, IsReady_ready dev fuel w h hf]

theorem and_0xFF (x : Nat) : x &&& 0xFF = x % 256 := by
  have := Nat.and_pow_two_sub_one_eq_mod x 8
  simpa using this

theorem payloadBytes_succ (mem : Nat → Nat) (p n : Nat) :
    payloadBytes mem p (n + 1) = mem p % 256 :: payloadBytes mem (p + 1) n := by
  simp only [payloadBytes, List.range_succ_eq_map, List.map_cons, List.map_map, Nat.add_zero]
  congr 1
  apply List.map_congr_left
  intro i _
  simp only [Function.comp, Nat.succ_eq_add_one]
  congr 2
  omega

theorem payloadBytes_length (mem : Nat → Nat) (p n : Nat) :
    (payloadBytes mem p n).length = n := by
  simp [payloadBytes]

/-- The payload loop shifts out `n` bytes of RAM in order and touches nothing
but the bus. -/
theorem WritePage_payload_eq (n p : Nat) (w : World) :
    WritePage_payload n p w =
      { w with trace := w.trace ++ (payloadBytes w.mem p n).map Event.tx } := by
  induction n generalizing p w with
  | zero => simp [WritePage_payload, payloadBytes]
  | succ n ih =>
    rw [WritePage_payload, ih, payloadBytes_succ]
    simp [EEPROM_SoftSPI_SendByte]

/-- The three frames of a page write as bus events. -/
theorem WritePage_frames_eq (p a n : Nat) (ha : a < 65536) (w : World) :
    WritePage_frames p a n w =
      { w with trace := w.trace ++ pageFrames w.mem p a n } := by
  have e1 : (a >>> 8 % 256 &&& 0xFF) % 256 = a / 256 := by
    rw [and_0xFF, Nat.shiftRight_eq_div_pow]
    omega
  have e2 : (a &&& 0xFF) % 256 % 256 = a % 256 := by
    rw [and_0xFF]
    omega
  simp only [WritePage_frames, EEP_SPI_CS_LOW, EEP_SPI_CS_HIGH, EEPROM_SoftSPI_SendByte,
    WritePage_payload_eq, pageFrames, e1, e2]
  simp [CMD_WREN, CMD_WRITE, CMD_WRDI]

/-- A zero-length or `NULL` request is rejected by line 679 before any bus
activity. -/
theorem WritePage_rejected (dev : Device) (fuel : Nat) (b : Option Nat) (a n : Nat) (w : World)
    (h : n = 0 ∨ b = none) :
    EEPROM_SoftSPI_WritePage dev fuel b a n w =
      some (HAL_ERROR, { w with pages := w.pages ++ [⟨a, n, b, HAL_ERROR⟩] }) := by
  rcases b with _ | p
  · simp [EEPROM_SoftSPI_WritePage, WritePage_body, recordPage]
  · have hn : n = 0 := by simpa using h
    simp [EEPROM_SoftSPI_WritePage, WritePage_body, recordPage, hn]

theorem WritePage_frames_tk (p a n : Nat) (w : World) :
    (WritePage_frames p a n w).tk = w.tk ∧ (WritePage_frames p a n w).mem = w.mem ∧
      (WritePage_frames p a n w).pages = w.pages := by
  simp [WritePage_frames, WritePage_payload_eq, EEP_SPI_CS_LOW, EEP_SPI_CS_HIGH,
    EEPROM_SoftSPI_SendByte]

/-- Once the readiness guard lets execution continue, a page write of `n > 0`
bytes from a non-null buffer sends its three frames and returns `HAL_OK`. -/
theorem WritePage_of_guard (dev : Device) (fuel : Nat) (p a n : Nat) (w wr : World)
    (hg : IsReady_retry dev fuel w = some (HAL_OK, wr)) (hn : n ≠ 0) :
    EEPROM_SoftSPI_WritePage dev fuel (some p) a n w = some (HAL_OK,
      { WritePage_frames p a n wr with
        pages := (WritePage_frames p a n wr).pages ++ [⟨a, n, some p, HAL_OK⟩] }) := by
  simp only [EEPROM_SoftSPI_WritePage, WritePage_body, hn, if_false, hg, orReturn_some, ne_eq,
    not_true_eq_false, recordPage]

/-- A page write of `n > 0` bytes from a non-null buffer, on an idle device:
one poll, the three frames, `HAL_OK`. -/
theorem WritePage_ready (dev : Device) (fuel : Nat) (p a n : Nat) (w : World)
    (h : AlwaysReady dev w.tk) (hf : 1 ≤ fuel) (hn : 0 < n) :
    ∃ w1, EEPROM_SoftSPI_WritePage dev fuel (some p) a n w = some (HAL_OK, w1) ∧
      w1.tk = w.tk + 2 ∧ w1.pages = w.pages ++ [⟨a, n, some p, HAL_OK⟩] ∧ w1.mem = w.mem := by
  have hn0 : n ≠ 0 := by omega
  have hw := WritePage_of_guard dev fuel p a n w _ (IsReady_retry_ready dev fuel w h hf) hn0
  refine ⟨_, hw, ?_, ?_, ?_⟩
  · simp [(WritePage_frames_tk p a n _).1]
  · simp [(WritePage_frames_tk p a n _).2.2]
  · simp [(WritePage_frames_tk p a n _).2.1]

/-- Running a request list on an idle device: the log and the status are
`readyLog` and `readyStatus`. -/
theorem runPages_ready (dev : Device) (fuel : Nat) (hf : 1 ≤ fuel) (cs : List Chunk) (w : World)
    (h : AlwaysReady dev w.tk) :
    ∃ w1, runPages (EEPROM_SoftSPI_WritePage dev fuel) cs w = some (readyStatus cs, w1) ∧
      w1.pages = w.pages ++ readyLog cs ∧ w1.mem = w.mem := by
  induction cs generalizing w with
  | nil => exact ⟨w, by simp [runPages, readyStatus, readyLog]⟩
  | cons c cs ih =>
    rcases c with ⟨b, a, n⟩
    by_cases hc : n = 0 ∨ b = none
    · refine ⟨{ w with pages := w.pages ++ [⟨a, n, b, HAL_ERROR⟩] }, ?_, ?_, ?_⟩
      · simp only [runPages, WritePage_rejected dev fuel b a n w hc, orReturn_some]
        simp [readyStatus, chunkStatus, hc]
      · simp [readyLog, chunkStatus, hc, Chunk.record]
      · rfl
    · have hn : 0 < n := by
        rcases Nat.eq_zero_or_pos n with h0 | h0
        · exact absurd (Or.inl h0) hc
        · exact h0
      obtain ⟨p, rfl⟩ : ∃ p, b = some p := by
        rcases b with _ | p
        · exact absurd (Or.inr rfl) hc
        · exact ⟨p, rfl⟩
      obtain ⟨w2, hw, htk, hpg, hmem⟩ := WritePage_ready dev fuel p a n w h hf hn
      have hr : AlwaysReady dev w2.tk := by
        rw [htk]
        exact AlwaysReady_step h
      obtain ⟨w1, h1, h2, h3⟩ := ih w2 hr
      have hcs : chunkStatus ⟨some p, a, n⟩ = HAL_OK := by
        simp [chunkStatus]
        omega
      refine ⟨w1, ?_, ?_, ?_⟩
      · simp only [runPages, hw, orReturn_some, ne_eq, not_true_eq_false, if_false, h1,
          readyStatus, hcs, if_true]
      · rw [h2, hpg]
        simp [readyLog, hcs, Chunk.record]
      · rw [h3, hmem]

/-- On an idle device `EEPROM_SoftSPI_WriteBuffer` returns, and its log and
status are those of the request list `segments`. -/
theorem WriteBuffer_ready (dev : Device) (fuel : Nat) (hf : 1 ≤ fuel) (b : Option Nat)
    (a n : Nat) (ha : a < 65536) (w : World) (h : AlwaysReady dev w.tk) :
    ∃ w1, EEPROM_SoftSPI_WriteBuffer dev fuel b a n w
        = some (readyStatus (segments b a n), w1) ∧
      w1.pages = w.pages ++ readyLog (segments b a n) ∧ w1.mem = w.mem := by
  have hr := IsReady_retry_ready dev fuel w h hf
  simp only [EEPROM_SoftSPI_WriteBuffer, hr, orReturn_some, ne_eq, not_true_eq_false, if_false]
  rw [WriteBuffer_pages_eq_runPages _ b a n ha]
  exact runPages_ready dev fuel hf _ _ (AlwaysReady_step h)

/-! ## Shape of the request list -/

theorem fullPages_map (k p a : Nat) (ha : a < 65536) :
    fullPages k (some p) a =
      (List.range k).map fun i => (⟨some (p + 32 * i), (a + 32 * i) % 65536, 32⟩ : Chunk) := by
  induction k generalizing p a with
  | zero => simp [fullPages]
  | succ k ih =>
    have hlt : (a + 32) % 65536 < 65536 := Nat.mod_lt _ (by decide)
    simp only [fullPages, EEP_SPI_PAGESIZE, Option.map_some', ih (p + 32) ((a + 32) % 65536) hlt,
      List.range_succ_eq_map, List.map_cons, List.map_map, Nat.mul_zero, Nat.add_zero,
      Nat.mod_eq_of_lt ha]
    congr 1
    apply List.map_congr_left
    intro i _
    simp only [Function.comp, Nat.succ_eq_add_one, Chunk.mk.injEq, Option.some.injEq, and_true]
    constructor <;> omega

theorem readyLog_append_ok (xs ys : List Chunk) (h : ∀ c ∈ xs, chunkStatus c = HAL_OK) :
    readyLog (xs ++ ys) = xs.map (fun c => c.record HAL_OK) ++ readyLog ys ∧
      readyStatus (xs ++ ys) = readyStatus ys := by
  induction xs with
  | nil => simp
  | cons c cs ih =>
    have hc : chunkStatus c = HAL_OK := h c (List.mem_cons_self _ _)
    have := ih (fun c1 h1 => h c1 (List.mem_cons_of_mem _ h1))
    simp [readyLog, readyStatus, hc, this.1, this.2]

theorem readyLog_all_ok (xs : List Chunk) (h : ∀ c ∈ xs, chunkStatus c = HAL_OK) :
    readyLog xs = xs.map (fun c => c.record HAL_OK) ∧ readyStatus xs = HAL_OK := by
  have := readyLog_append_ok xs [] h
  simpa [readyLog, readyStatus] using this

/-- The request list for a misaligned start inside the address space, in the
words of the decomposition rule. -/
theorem segments_unaligned (p a n : Nat) (hmis : a % 32 ≠ 0) (hn : 0 < n)
    (hspace : a + n ≤ 65536) :
    segments (some p) a n =
      if n ≤ 32 - a % 32 then [⟨some p, a, n⟩]
      else
        (⟨some p, a, 32 - a % 32⟩ : Chunk) ::
          ((List.range ((n - (32 - a % 32)) / 32)).map
              (fun i => (⟨some (p + (32 - a % 32) + 32 * i), a + (32 - a % 32) + 32 * i, 32⟩ : Chunk))
            ++ if (n - (32 - a % 32)) % 32 ≠ 0 then
                [⟨some (p + (32 - a % 32) + 32 * ((n - (32 - a % 32)) / 32)),
                  a + (32 - a % 32) + 32 * ((n - (32 - a % 32)) / 32),
                  (n - (32 - a % 32)) % 32⟩]
               else []) := by
  have hcap : 32 - a % 32 ≤ 31 := by omega
  unfold segments
  simp only [EEP_SPI_PAGESIZE, if_neg hmis]
  by_cases h1 : n / 32 = 0
  · have hn32 : n % 32 = n := by omega
    simp only [h1, if_true, hn32]
    by_cases h2 : n > 32 - a % 32
    · have e1 : (n - (32 - a % 32)) / 32 = 0 := by omega
      have e2 : (n - (32 - a % 32)) % 32 = n - (32 - a % 32) := by omega
      have e3 : n - (32 - a % 32) ≠ 0 := by omega
      have e4 : (a + (32 - a % 32)) % 65536 = a + (32 - a % 32) := by omega
      have e5 : (n + 65536 - (32 - a % 32)) % 65536 = n - (32 - a % 32) := by omega
      have e6 : ¬ n ≤ 32 - a % 32 := by omega
      simp [h2, e1, e2, e3, e4, e5, e6]
    · have e6 : n ≤ 32 - a % 32 := by omega
      simp [h2, e6]
  · have e6 : ¬ n ≤ 32 - a % 32 := by omega
    have e5 : (n + 65536 - (32 - a % 32)) % 65536 = n - (32 - a % 32) := by omega
    have hlt : (a + (32 - a % 32)) % 65536 < 65536 := Nat.mod_lt _ (by decide)
    simp only [h1, if_false, e6, e5, Option.map_some', fullPages_map _ _ _ hlt]
    congr 1
    congr 1
    · apply List.map_congr_left
      intro i hi
      have hi1 : i < (n - (32 - a % 32)) / 32 := List.mem_range.mp hi
      simp only [Chunk.mk.injEq, and_true, true_and]
      omega
    · by_cases h3 : (n - (32 - a % 32)) % 32 = 0
      · simp [h3]
      · simp only [ne_eq, h3, not_false_eq_true, if_true, List.cons.injEq, Chunk.mk.injEq,
          and_true, true_and]
        omega

theorem idleDevice_ready (k : Nat) : AlwaysReady idleDevice k := by
  constructor
  · intro h
    simp [idleDevice, bitRead]
  · intro i
    simp [idleDevice, WRITE_TIMEOUT_MS]

/-! ## Status poll and page write on an arbitrary device -/

/-- The polling loop only shifts status bytes in: at least one, and nothing
else changes but the tick count. -/
theorem IsReady_poll_spec (dev : Device) (fuel tw : Nat) (w : World) (v : Nat) (w1 : World)
    (h : IsReady_poll dev fuel tw w = some (v, w1)) :
    w1.mem = w.mem ∧ w1.pages = w.pages ∧
      ∃ bs, bs ≠ [] ∧ w1.trace = w.trace ++ bs.map Event.rx := by
  induction fuel generalizing w with
  | zero => simp [IsReady_poll] at h
  | succ f ih =>
    simp only [IsReady_poll] at h
    split_ifs at h with h1 h2
    · obtain ⟨hm, hp, bs, -, hb⟩ := ih _ h
      refine ⟨hm, hp, (dev.miso w.trace % 256) :: bs, by simp, ?_⟩
      rw [hb]
      simp [HAL_GetTick, EEPROM_SoftSPI_RecvByte]
    · simp only [Option.some.injEq, Prod.mk.injEq] at h
      obtain ⟨-, rfl⟩ := h
      exact ⟨rfl, rfl, [dev.miso w.trace % 256], by simp, by
        simp [HAL_GetTick, EEPROM_SoftSPI_RecvByte]⟩
    · simp only [Option.some.injEq, Prod.mk.injEq] at h
      obtain ⟨-, rfl⟩ := h
      exact ⟨rfl, rfl, [dev.miso w.trace % 256], by simp, by
        simp [EEPROM_SoftSPI_RecvByte]⟩

/-- A status poll is one chip-select frame: the read-status opcode, then at
least one status byte shifted in.  It returns `HAL_OK` or `HAL_ERROR` and
leaves RAM and the page-write log alone. -/
theorem IsReady_spec (dev : Device) (fuel : Nat) (w : World) (st : HAL_StatusTypeDef)
    (w1 : World) (h : EEPROM_SoftSPI_IsReady dev fuel w = some (st, w1)) :
    w1.mem = w.mem ∧ w1.pages = w.pages ∧ (st = HAL_OK ∨ st = HAL_ERROR) ∧
      ∃ bs, bs ≠ [] ∧ w1.trace = w.trace ++ pollFrame bs := by
  simp only [EEPROM_SoftSPI_IsReady] at h
  rcases hp : IsReady_poll dev fuel (HAL_GetTick dev w).1
      (EEPROM_SoftSPI_SendByte CMD_RDSR (EEP_SPI_CS_LOW (HAL_GetTick dev w).2)) with _ | ⟨v, w3⟩
  · simp [hp] at h
  · obtain ⟨hm, hpg, bs, hbs, htr⟩ := IsReady_poll_spec _ _ _ _ _ _ hp
    simp only [hp] at h
    have key : ∀ s2, some (s2, (HAL_GetTick dev (EEP_SPI_CS_HIGH w3)).2) = some (st, w1) →
        w1.mem = w.mem ∧ w1.pages = w.pages ∧
          ∃ bs, bs ≠ [] ∧ w1.trace = w.trace ++ pollFrame bs := by
      intro s2 h2
      simp only [Option.some.injEq, Prod.mk.injEq] at h2
      obtain ⟨-, rfl⟩ := h2
      refine ⟨?_, ?_, bs, hbs, ?_⟩
      · simpa [HAL_GetTick, EEP_SPI_CS_HIGH, EEP_SPI_CS_LOW, EEPROM_SoftSPI_SendByte] using hm
      · simpa [HAL_GetTick, EEP_SPI_CS_HIGH, EEP_SPI_CS_LOW, EEPROM_SoftSPI_SendByte] using hpg
      · simp [HAL_GetTick, EEP_SPI_CS_HIGH, htr, EEP_SPI_CS_LOW, EEPROM_SoftSPI_SendByte,
          pollFrame, CMD_RDSR]
    split_ifs at h
    · obtain ⟨a1, a2, a3⟩ := key _ h
      have : st = HAL_ERROR := by
        simp only [Option.some.injEq, Prod.mk.injEq] at h
        exact h.1.symm
      exact ⟨a1, a2, Or.inr this, a3⟩
    · obtain ⟨a1, a2, a3⟩ := key _ h
      have : st = HAL_OK := by
        simp only [Option.some.injEq, Prod.mk.injEq] at h
        exact h.1.symm
      exact ⟨a1, a2, Or.inl this, a3⟩

/-- The readiness guard is one or two status polls; with status `HAL_OK` the
last poll returned `HAL_OK`, with `HAL_ERROR` both polls failed. -/
theorem IsReady_retry_spec (dev : Device) (fuel : Nat) (w : World) (st : HAL_StatusTypeDef)
    (w1 : World) (h : IsReady_retry dev fuel w = some (st, w1)) :
    w1.mem = w.mem ∧ w1.pages = w.pages ∧ (st = HAL_OK ∨ st = HAL_ERROR) ∧
      ∃ bs, bs ≠ [] ∧ (w1.trace = w.trace ++ pollFrame bs ∨
        ∃ cs, cs ≠ [] ∧ w1.trace = w.trace ++ pollFrame bs ++ pollFrame cs) := by
  simp only [IsReady_retry] at h
  rcases h1 : EEPROM_SoftSPI_IsReady dev fuel w with _ | ⟨s1, w2⟩
  · simp [h1] at h
  · obtain ⟨hm, hp, -, bs, hbs, htr⟩ := IsReady_spec _ _ _ _ _ h1
    simp only [h1] at h
    by_cases hs1 : s1 = HAL_OK
    · simp only [hs1, ne_eq, not_true_eq_false, if_false, Option.some.injEq,
        Prod.mk.injEq] at h
      obtain ⟨rfl, rfl⟩ := h
      exact ⟨hm, hp, Or.inl rfl, bs, hbs, Or.inl htr⟩
    · simp only [ne_eq, hs1, not_false_eq_true, if_true] at h
      rcases h2 : EEPROM_SoftSPI_IsReady dev fuel w2 with _ | ⟨s2, w3⟩
      · simp [h2] at h
      · obtain ⟨hm2, hp2, -, cs, hcs, htr2⟩ := IsReady_spec _ _ _ _ _ h2
        simp only [h2] at h
        have hw : w1 = w3 := by
          split_ifs at h <;> simp only [Option.some.injEq, Prod.mk.injEq] at h <;> exact h.2.symm
        have hst : st = HAL_OK ∨ st = HAL_ERROR := by
          split_ifs at h <;> simp only [Option.some.injEq, Prod.mk.injEq] at h
          · exact Or.inl h.1.symm
          · exact Or.inr h.1.symm
        subst hw
        refine ⟨hm2.trans hm, hp2.trans hp, hst, bs, hbs, Or.inr ⟨cs, hcs, ?_⟩⟩
        rw [htr2, htr]

/-- The page writer of the software variant logs each invocation with the
status it returns. -/
theorem WritePage_logs (dev : Device) (fuel : Nat) (b : Option Nat) (a n : Nat) (w : World)
    (st : HAL_StatusTypeDef) (w1 : World)
    (h : EEPROM_SoftSPI_WritePage dev fuel b a n w = some (st, w1)) :
    w1.pages = w.pages ++ [⟨a, n, b, st⟩] := by
  by_cases hc : n = 0 ∨ b = none
  · rw [WritePage_rejected dev fuel b a n w hc] at h
    simp only [Option.some.injEq, Prod.mk.injEq] at h
    obtain ⟨rfl, rfl⟩ := h
    rfl
  · have hn : n ≠ 0 := fun h0 => hc (Or.inl h0)
    obtain ⟨p, rfl⟩ : ∃ p, b = some p := by
      rcases b with _ | p
      · exact absurd (Or.inr rfl) hc
      · exact ⟨p, rfl⟩
    simp only [EEPROM_SoftSPI_WritePage, WritePage_body, hn, if_false] at h
    rcases hg : IsReady_retry dev fuel w with _ | ⟨s1, w2⟩
    · simp [hg, orReturn, recordPage] at h
    · obtain ⟨-, hp, -, -⟩ := IsReady_retry_spec _ _ _ _ _ hg
      rw [hg, orReturn_some] at h
      split_ifs at h
      · simp only [recordPage, Option.some.injEq, Prod.mk.injEq] at h
        obtain ⟨rfl, rfl⟩ := h
        simp [hp]
      · simp only [recordPage, Option.some.injEq, Prod.mk.injEq] at h
        obtain ⟨rfl, rfl⟩ := h
        simp [(WritePage_frames_tk p a n w2).2.2, hp]

/-! ## Termination: with an advancing clock every routine returns -/

theorem Converges.const {α : Type} (r : α) : Converges (fun _ : Nat => some r) :=
  ⟨0, r, fun _ _ => rfl⟩

theorem Converges.exists_some {α : Type} {f : Nat → Option α} (h : Converges f) :
    ∃ n r, f n = some r := by
  obtain ⟨n, r, hr⟩ := h
  exact ⟨n, r, hr n (Nat.le_refl n)⟩

theorem Converges.orReturn {σ : Type} {f : Nat → Option (HAL_StatusTypeDef × σ)}
    {g : Nat → σ → Option (HAL_StatusTypeDef × σ)}
    (hf : Converges f) (hg : ∀ s, Converges (fun m => g m s)) :
    Converges (fun m => orReturn (f m) (g m)) := by
  obtain ⟨n1, ⟨st, s⟩, h1⟩ := hf
  by_cases hst : st = HAL_OK
  · obtain ⟨n2, r2, h2⟩ := hg s
    refine ⟨max n1 n2, r2, fun m hm => ?_⟩
    have e1 := h1 m (le_trans (le_max_left _ _) hm)
    have e2 := h2 m (le_trans (le_max_right _ _) hm)
    simp only at e2
    simp only [e1, orReturn_some, hst, ne_eq, not_true_eq_false, if_false, e2]
  · refine ⟨n1, (st, s), fun m hm => ?_⟩
    simp only [h1 m hm, orReturn_some, ne_eq, hst, not_false_eq_true, if_true]

/-- The polling loop ends once a tick read reaches the deadline. -/
theorem IsReady_poll_converges (dev : Device) (tw j : Nat)
    (hj : (tw + WRITE_TIMEOUT_MS) % 2 ^ 32 ≤ dev.tick j % 2 ^ 32) (w : World) (hw : w.tk ≤ j) :
    Converges (fun m => IsReady_poll dev m tw w) := by
  obtain ⟨d, hd⟩ : ∃ d, j - w.tk = d := ⟨_, rfl⟩
  induction d generalizing w with
  | zero =>
    have hjw : w.tk = j := by omega
    by_cases h1 : bitRead (EEPROM_SoftSPI_RecvByte dev w).1 BIT_WIP = 1
    · refine ⟨1, ((EEPROM_SoftSPI_RecvByte dev w).1,
        (HAL_GetTick dev (EEPROM_SoftSPI_RecvByte dev w).2).2), fun m hm => ?_⟩
      obtain ⟨m1, rfl⟩ : ∃ m1, m = m1 + 1 := ⟨m - 1, by omega⟩
      have h2 : ¬ (HAL_GetTick dev (EEPROM_SoftSPI_RecvByte dev w).2).1
          < (tw + WRITE_TIMEOUT_MS) % 2 ^ 32 := by
        simp only [HAL_GetTick, EEPROM_SoftSPI_RecvByte, hjw]
        omega
      simp only [IsReady_poll, h1, if_true, h2, if_false]
    · refine ⟨1, EEPROM_SoftSPI_RecvByte dev w, fun m hm => ?_⟩
      obtain ⟨m1, rfl⟩ : ∃ m1, m = m1 + 1 := ⟨m - 1, by omega⟩
      simp only [IsReady_poll, h1, if_false]
  | succ d ih =>
    by_cases h1 : bitRead (EEPROM_SoftSPI_RecvByte dev w).1 BIT_WIP = 1
    · by_cases h2 : (HAL_GetTick dev (EEPROM_SoftSPI_RecvByte dev w).2).1
          < (tw + WRITE_TIMEOUT_MS) % 2 ^ 32
      · obtain ⟨n, r, hr⟩ := ih (HAL_GetTick dev (EEPROM_SoftSPI_RecvByte dev w).2).2
          (by simp only [HAL_GetTick, EEPROM_SoftSPI_RecvByte]; omega)
          (by simp only [HAL_GetTick, EEPROM_SoftSPI_RecvByte]; omega)
        refine ⟨n + 1, r, fun m hm => ?_⟩
        obtain ⟨m1, rfl⟩ : ∃ m1, m = m1 + 1 := ⟨m - 1, by omega⟩
        simp only [IsReady_poll, h1, if_true, h2]
        exact hr m1 (by omega)
      · refine ⟨1, ((EEPROM_SoftSPI_RecvByte dev w).1,
          (HAL_GetTick dev (EEPROM_SoftSPI_RecvByte dev w).2).2), fun m hm => ?_⟩
        obtain ⟨m1, rfl⟩ : ∃ m1, m = m1 + 1 := ⟨m - 1, by omega⟩
        simp only [IsReady_poll, h1, if_true, h2, if_false]
    · refine ⟨1, EEPROM_SoftSPI_RecvByte dev w, fun m hm => ?_⟩
      obtain ⟨m1, rfl⟩ : ∃ m1, m = m1 + 1 := ⟨m - 1, by omega⟩
      simp only [IsReady_poll, h1, if_false]

/-- With an advancing clock a status poll returns. -/
theorem IsReady_converges (dev : Device) (hclk : ClockAdvances dev) (w : World) :
    Converges (fun m => EEPROM_SoftSPI_IsReady dev m w) := by
  obtain ⟨j, hij, hj⟩ := hclk w.tk
  have hp := IsReady_poll_converges dev (HAL_GetTick dev w).1 j
    (by simpa [HAL_GetTick] using hj)
    (EEPROM_SoftSPI_SendByte CMD_RDSR (EEP_SPI_CS_LOW (HAL_GetTick dev w).2))
    (by simp only [HAL_GetTick, EEP_SPI_CS_LOW, EEPROM_SoftSPI_SendByte]; omega)
  obtain ⟨n, ⟨v, w3⟩, hr⟩ := hp
  by_cases hc : (HAL_GetTick dev (EEP_SPI_CS_HIGH w3)).1
      ≥ ((HAL_GetTick dev w).1 + WRITE_TIMEOUT_MS) % 2 ^ 32
  · refine ⟨n, (HAL_ERROR, (HAL_GetTick dev (EEP_SPI_CS_HIGH w3)).2), fun m hm => ?_⟩
    have := hr m hm
    simp only at this
    simp only [EEPROM_SoftSPI_IsReady, this, hc, if_true]
  · refine ⟨n, (HAL_OK, (HAL_GetTick dev (EEP_SPI_CS_HIGH w3)).2), fun m hm => ?_⟩
    have := hr m hm
    simp only at this
    simp only [EEPROM_SoftSPI_IsReady, this, hc, if_false]

/-- With an advancing clock the readiness guard returns. -/
theorem IsReady_retry_converges (dev : Device) (hclk : ClockAdvances dev) (w : World) :
    Converges (fun m => IsReady_retry dev m w) := by
  obtain ⟨n1, ⟨s1, w1⟩, h1⟩ := IsReady_converges dev hclk w
  by_cases hs1 : s1 = HAL_OK
  · refine ⟨n1, (HAL_OK, w1), fun m hm => ?_⟩
    have := h1 m hm
    simp only at this
    simp only [IsReady_retry, this, hs1, ne_eq, not_true_eq_false, if_false]
  · obtain ⟨n2, ⟨s2, w2⟩, h2⟩ := IsReady_converges dev hclk w1
    by_cases hs2 : s2 = HAL_OK
    · refine ⟨max n1 n2, (HAL_OK, w2), fun m hm => ?_⟩
      have e1 := h1 m (le_trans (le_max_left _ _) hm)
      have e2 := h2 m (le_trans (le_max_right _ _) hm)
      simp only at e1 e2
      simp only [IsReady_retry, e1, hs1, ne_eq, not_false_eq_true, if_true, e2, hs2,
        not_true_eq_false, if_false]
    · refine ⟨max n1 n2, (HAL_ERROR, w2), fun m hm => ?_⟩
      have e1 := h1 m (le_trans (le_max_left _ _) hm)
      have e2 := h2 m (le_trans (le_max_right _ _) hm)
      simp only at e1 e2
      simp only [IsReady_retry, e1, hs1, ne_eq, not_false_eq_true, if_true, e2, hs2]

/-- With an advancing clock a page write returns. -/
theorem WritePage_converges (dev : Device) (hclk : ClockAdvances dev) (b : Option Nat)
    (a n : Nat) (w : World) :
    Converges (fun m => EEPROM_SoftSPI_WritePage dev m b a n w) := by
  by_cases hc : n = 0 ∨ b = none
  · refine ⟨0, _, fun m _ => WritePage_rejected dev m b a n w hc⟩
  · have hn : n ≠ 0 := fun h0 => hc (Or.inl h0)
    obtain ⟨p, rfl⟩ : ∃ p, b = some p := by
      rcases b with _ | p
      · exact absurd (Or.inr rfl) hc
      · exact ⟨p, rfl⟩
    have h1 := Converges.orReturn (IsReady_retry_converges dev hclk w)
      (g := fun _ w1 => some (HAL_OK, WritePage_frames p a n w1)) (fun s => Converges.const _)
    obtain ⟨k, ⟨st, w1⟩, hr⟩ := h1
    refine ⟨k, (st, { w1 with pages := w1.pages ++ [⟨a, n, some p, st⟩] }), fun m hm => ?_⟩
    have := hr m hm
    simp only at this
    simp only [EEPROM_SoftSPI_WritePage, WritePage_body, hn, if_false, this, recordPage]

/-- With an advancing clock a request list runs to its end or to its first
failure. -/
theorem runPages_converges (dev : Device) (hclk : ClockAdvances dev) (cs : List Chunk)
    (w : World) :
    Converges (fun m => runPages (EEPROM_SoftSPI_WritePage dev m) cs w) := by
  induction cs generalizing w with
  | nil => exact Converges.const _
  | cons c cs ih =>
    simp only [runPages]
    exact Converges.orReturn (WritePage_converges dev hclk _ _ _ w) ih

/-- With an advancing clock `EEPROM_SoftSPI_WriteBuffer` returns, whatever the
device reports. -/
theorem WriteBuffer_converges (dev : Device) (hclk : ClockAdvances dev) (b : Option Nat)
    (a n : Nat) (ha : a < 65536) (w : World) :
    Converges (fun m => EEPROM_SoftSPI_WriteBuffer dev m b a n w) := by
  simp only [EEPROM_SoftSPI_WriteBuffer, WriteBuffer_pages_eq_runPages _ b a n ha]
  exact Converges.orReturn (IsReady_retry_converges dev hclk w)
    (fun s => runPages_converges dev hclk _ s)

/-! ## Fail-fast structure of the log, for every page writer -/

/-- Running a request list through a page writer that logs its invocations
leaves a log of the shape `Issued`. -/
theorem runPages_issued {σ : Type}
    (wp : Option Nat → Nat → Nat → σ → Option (HAL_StatusTypeDef × σ))
    (log : σ → List PageWrite)
    (hlog : ∀ b a n s st s1, wp b a n s = some (st, s1) → log s1 = log s ++ [⟨a, n, b, st⟩])
    (cs : List Chunk) (s : σ) (st : HAL_StatusTypeDef) (s1 : σ)
    (h : runPages wp cs s = some (st, s1)) :
    ∃ recs, log s1 = log s ++ recs ∧ Issued cs recs st := by
  induction cs generalizing s with
  | nil =>
    simp only [runPages, Option.some.injEq, Prod.mk.injEq] at h
    obtain ⟨rfl, rfl⟩ := h
    exact ⟨[], by simp, Issued.done⟩
  | cons c cs ih =>
    simp only [runPages] at h
    rcases hwp : wp c.buffer c.address c.length s with _ | ⟨st1, s2⟩
    · simp [hwp, orReturn] at h
    · have hl := hlog _ _ _ _ _ _ hwp
      rw [hwp, orReturn_some] at h
      by_cases hst : st1 = HAL_OK
      · subst hst
        simp only [ne_eq, not_true_eq_false, if_false] at h
        obtain ⟨recs, h1, h2⟩ := ih s2 h
        refine ⟨c.record HAL_OK :: recs, ?_, Issued.step c cs recs st h2⟩
        rw [h1, hl]
        simp [Chunk.record]
      · simp only [ne_eq, hst, not_false_eq_true, if_true, Option.some.injEq,
          Prod.mk.injEq] at h
        obtain ⟨rfl, rfl⟩ := h
        exact ⟨[c.record st1], by rw [hl]; rfl, Issued.fail c cs st1 hst⟩

/-- Every logged page write is one of the requests. -/
theorem Issued.mem_chunk {cs : List Chunk} {recs : List PageWrite} {st : HAL_StatusTypeDef}
    (h : Issued cs recs st) :
    ∀ r ∈ recs, ∃ c ∈ cs, r.address = c.address ∧ r.length = c.length ∧ r.buffer = c.buffer := by
  induction h with
  | done => simp
  | fail c cs st _ =>
    intro r hr
    simp only [List.mem_singleton] at hr
    subst hr
    exact ⟨c, List.mem_cons_self _ _, rfl, rfl, rfl⟩
  | step c cs recs st _ ih =>
    intro r hr
    rcases List.mem_cons.mp hr with rfl | hr
    · exact ⟨c, List.mem_cons_self _ _, rfl, rfl, rfl⟩
    · obtain ⟨c1, hc1, h1⟩ := ih r hr
      exact ⟨c1, List.mem_cons_of_mem _ hc1, h1⟩

/-- Fail-fast: a logged page write with a status other than `HAL_OK` is the
last one logged and its status is the final status. -/
theorem Issued.fail_fast {cs : List Chunk} {recs : List PageWrite} {st : HAL_StatusTypeDef}
    (h : Issued cs recs st) :
    ∀ pre r post, recs = pre ++ r :: post → r.status ≠ HAL_OK → post = [] ∧ st = r.status := by
  induction h with
  | done =>
    intro pre r post h1
    simp at h1
  | fail c cs st _ =>
    intro pre r post h1 _
    rcases pre with _ | ⟨x, pre⟩
    · simp only [List.nil_append, List.cons.injEq] at h1
      obtain ⟨h2, h3⟩ := h1
      exact ⟨h3.symm, by rw [← h2]; rfl⟩
    · simp at h1
  | step c cs recs st _ ih =>
    intro pre r post h1 h2
    rcases pre with _ | ⟨x, pre⟩
    · simp only [List.nil_append, List.cons.injEq] at h1
      obtain ⟨h3, -⟩ := h1
      rw [← h3] at h2
      exact absurd rfl h2
    · simp only [List.cons_append, List.cons.injEq] at h1
      exact ih pre r post h1.2 h2

/-- A final status `HAL_OK` means the whole list was served and every page
write returned `HAL_OK`. -/
theorem Issued.ok_all {cs : List Chunk} {recs : List PageWrite} {st : HAL_StatusTypeDef}
    (h : Issued cs recs st) (hst : st = HAL_OK) :
    recs = cs.map (fun c => c.record HAL_OK) := by
  induction h with
  | done => rfl
  | fail c cs st h1 => exact absurd hst h1
  | step c cs recs st _ ih => simp [ih hst]

theorem fullPages_aligned (k : Nat) (b : Option Nat) (a : Nat) (ha : a % 32 = 0) :
    ∀ c ∈ fullPages k b a, c.address % 32 = 0 ∧ c.length = 32 := by
  induction k generalizing b a with
  | zero => simp [fullPages]
  | succ k ih =>
    intro c hc
    simp only [fullPages, List.mem_cons] at hc
    rcases hc with rfl | hc
    · exact ⟨ha, rfl⟩
    · exact ih _ _ (by simp only [EEP_SPI_PAGESIZE]; omega) c hc

/-- No request of the segmentation straddles a page boundary, whatever the
address and the length. -/
theorem segments_within_page (b : Option Nat) (a n : Nat) :
    ∀ c ∈ segments b a n, c.address % 32 + c.length ≤ 32 := by
  intro c hc
  unfold segments at hc
  simp only [EEP_SPI_PAGESIZE] at hc
  split_ifs at hc with h1 h2 h3 h4 h5
  · simp only [List.mem_singleton] at hc
    subst hc
    simp only
    omega
  · rcases List.mem_append.mp hc with hc | hc
    · have := fullPages_aligned _ _ _ h1 c hc
      omega
    · simp only [List.mem_singleton] at hc
      subst hc
      simp only
      omega
  · simp only [List.mem_cons, List.mem_singleton, List.not_mem_nil, or_false] at hc
    rcases hc with rfl | rfl
    · simp only
      omega
    · simp only
      omega
  · simp only [List.mem_singleton] at hc
    subst hc
    simp only
    omega
  · simp only [List.mem_cons, List.mem_append, List.not_mem_nil, or_false] at hc
    rcases hc with rfl | hc | rfl
    · simp only
      omega
    · have := fullPages_aligned _ _ _ (by omega) c hc
      omega
    · simp only
      omega
  · simp only [List.mem_cons, List.mem_append, List.not_mem_nil, or_false] at hc
    rcases hc with rfl | hc
    · simp only
      omega
    · have := fullPages_aligned _ _ _ (by omega) c hc
      omega

theorem segments_ne_nil (b : Option Nat) (a n : Nat) : segments b a n ≠ [] := by
  unfold segments
  simp only []
  split_ifs <;> simp

/-- The log of `EEPROM_SoftSPI_WriteBuffer`: nothing when the readiness guard
fails (status `HAL_ERROR`), otherwise a log of shape `Issued` over `segments`. -/
theorem WriteBuffer_issued (dev : Device) (fuel : Nat) (b : Option Nat) (a n : Nat)
    (ha : a < 65536) (w : World) (st : HAL_StatusTypeDef) (w1 : World)
    (h : EEPROM_SoftSPI_WriteBuffer dev fuel b a n w = some (st, w1)) :
    (st = HAL_ERROR ∧ w1.pages = w.pages) ∨
      ∃ recs, w1.pages = w.pages ++ recs ∧ Issued (segments b a n) recs st := by
  simp only [EEPROM_SoftSPI_WriteBuffer] at h
  rcases hg : IsReady_retry dev fuel w with _ | ⟨s1, w2⟩
  · simp [hg, orReturn] at h
  · obtain ⟨-, hp, hs, -⟩ := IsReady_retry_spec _ _ _ _ _ hg
    rw [hg, orReturn_some] at h
    by_cases hs1 : s1 = HAL_OK
    · simp only [hs1, ne_eq, not_true_eq_false, if_false] at h
      rw [WriteBuffer_pages_eq_runPages _ b a n ha] at h
      obtain ⟨recs, h1, h2⟩ := runPages_issued (EEPROM_SoftSPI_WritePage dev fuel) World.pages
        (fun b a n s st s1 h => WritePage_logs dev fuel b a n s st s1 h) _ _ _ _ h
      exact Or.inr ⟨recs, by rw [h1, hp], h2⟩
    · simp only [ne_eq, hs1, not_false_eq_true, if_true, Option.some.injEq,
        Prod.mk.injEq] at h
      obtain ⟨rfl, rfl⟩ := h
      rcases hs with hs | hs
      · exact absurd hs hs1
      · exact Or.inl ⟨hs, hp⟩

theorem tickingDevice_clock : ClockAdvances tickingDevice := by
  intro i
  refine ⟨i + 20, by omega, ?_⟩
  simp only [tickingDevice, WRITE_TIMEOUT_MS]
  omega

theorem busyDevice_clock : ClockAdvances busyDevice := by
  intro i
  refine ⟨i + 20, by omega, ?_⟩
  simp only [busyDevice, WRITE_TIMEOUT_MS]
  omega

theorem runPages_total {σ : Type}
    (wp : Option Nat → Nat → Nat → σ → Option (HAL_StatusTypeDef × σ))
    (htot : ∀ b a n s, ∃ r, wp b a n s = some r) (cs : List Chunk) (s : σ) :
    ∃ r, runPages wp cs s = some r := by
  induction cs generalizing s with
  | nil => exact ⟨_, rfl⟩
  | cons c cs ih =>
    obtain ⟨⟨st, s1⟩, h1⟩ := htot c.buffer c.address c.length s
    simp only [runPages, h1, orReturn_some]
    split_ifs
    · exact ⟨_, rfl⟩
    · exact ih s1

theorem logged_logs {σ : Type}
    (hp : Option Nat → Nat → Nat → σ → Option (HAL_StatusTypeDef × σ))
    (b : Option Nat) (a n : Nat) (s : σ × List PageWrite) (st : HAL_StatusTypeDef)
    (s1 : σ × List PageWrite) (h : logged hp b a n s = some (st, s1)) :
    s1.2 = s.2 ++ [⟨a, n, b, st⟩] := by
  simp only [logged] at h
  rcases hh : hp b a n s.1 with _ | ⟨st2, s2⟩
  · simp [hh] at h
  · simp only [hh, Option.some.injEq, Prod.mk.injEq] at h
    obtain ⟨rfl, rfl⟩ := h
    rfl

theorem IsReady_retry_iff_guard (dev : Device) (fuel : Nat) (w wr : World) :
    IsReady_retry dev fuel w = some (HAL_OK, wr) ↔ GuardPasses dev fuel w wr := by
  rcases h1 : EEPROM_SoftSPI_IsReady dev fuel w with _ | ⟨s1, w1⟩
  · simp [GuardPasses, IsReady_retry, h1]
  · by_cases hs1 : s1 = HAL_OK
    · subst hs1
      simp [GuardPasses, IsReady_retry, h1]
    · rcases h2 : EEPROM_SoftSPI_IsReady dev fuel w1 with _ | ⟨s2, w2⟩
      · simp [GuardPasses, IsReady_retry, h1, hs1, h2]
      · have e : IsReady_retry dev fuel w
            = if s2 ≠ HAL_OK then some (HAL_ERROR, w2) else some (HAL_OK, w2) := by
          simp only [IsReady_retry, h1, ne_eq, hs1, not_false_eq_true, if_true, h2]
        have g : GuardPasses dev fuel w wr ↔ (s2 = HAL_OK ∧ w2 = wr) := by
          unfold GuardPasses
          rw [h1]
          constructor
          · rintro (h | ⟨s3, w3, h3, -, h4⟩)
            · simp only [Option.some.injEq, Prod.mk.injEq] at h
              exact absurd h.1 hs1
            · simp only [Option.some.injEq, Prod.mk.injEq] at h3
              obtain ⟨rfl, rfl⟩ := h3
              rw [h2] at h4
              simpa using h4
          · rintro ⟨rfl, rfl⟩
            exact Or.inr ⟨s1, w1, rfl, hs1, h2⟩
        rw [e, g]
        by_cases hs2 : s2 = HAL_OK
        · simp [hs2]
        · simp [hs2]

theorem WriteBuffer_pages_zero {σ : Type}
    (wp : Option Nat → Nat → Nat → σ → Option (HAL_StatusTypeDef × σ))
    (b : Option Nat) (a : Nat) (s : σ) :
    WriteBuffer_pages wp b a 0 s = wp b a 0 s := by
  unfold WriteBuffer_pages
  simp only [EEP_SPI_PAGESIZE, Nat.zero_div, Nat.zero_mod, if_true]
  split_ifs with h1 h2
  · exact orReturn_pure _
  · omega
  · exact orReturn_pure _

theorem not_tx_mem_pollFrame (bs : List Nat) (b : Nat) (h : Event.tx b ∈ pollFrame bs) :
    b = CMD_RDSR := by
  simp only [pollFrame, List.mem_append, List.mem_cons, List.mem_singleton, List.mem_map,
    Event.tx.injEq, List.not_mem_nil, or_false] at h
  rcases h with (h | h) | h
  · rcases h with h | h
    · exact absurd h (by simp)
    · exact h
  · obtain ⟨_, _, h2⟩ := h
    exact absurd h2 (by simp)
  · exact absurd h (by simp)

/-- After a passed readiness guard a page write of `n > 0` bytes from a
non-null buffer puts exactly its three frames on the bus, reads no tick and
returns `HAL_OK`. -/
theorem WritePage_after_guard (dev : Device) (fuel p a n : Nat) (w wr : World)
    (ha : a < 65536) (hn : 0 < n) (hg : IsReady_retry dev fuel w = some (HAL_OK, wr)) :
    ∃ w2, EEPROM_SoftSPI_WritePage dev fuel (some p) a n w = some (HAL_OK, w2) ∧
      w2.trace = wr.trace ++ pageFrames w.mem p a n ∧ w2.tk = wr.tk := by
  obtain ⟨hm, -, -, -⟩ := IsReady_retry_spec _ _ _ _ _ hg
  have hw := WritePage_of_guard dev fuel p a n w wr hg (by omega)
  refine ⟨_, hw, ?_, ?_⟩
  · simp only [WritePage_frames_eq p a n ha wr, hm]
  · simp [(WritePage_frames_tk p a n wr).1]

theorem pageFrames_eq (mem : Nat → Nat) (p a n : Nat) :
    pageFrames mem p a n =
      [Event.CS_LOW, Event.tx 0x06, Event.CS_HIGH] ++
        ([Event.CS_LOW, Event.tx 0x02, Event.tx (a / 256), Event.tx (a % 256)]
          ++ (List.range n).map (fun i => Event.tx (mem (p + i) % 256))
          ++ [Event.CS_HIGH]) ++
        [Event.CS_LOW, Event.tx 0x04, Event.CS_HIGH] := by
  simp only [pageFrames, payloadBytes, List.map_map, CMD_WREN, CMD_WRITE, CMD_WRDI]
  rfl

/-! ## Extent of the unguarded trailing page write of the aligned branch -/

theorem fullPages_length (k : Nat) (b : Option Nat) (a : Nat) :
    (fullPages k b a).length = k := by
  induction k generalizing b a with
  | zero => rfl
  | succ k ih => simp [fullPages, ih]

theorem fullPages_status (k p a : Nat) :
    ∀ c ∈ fullPages k (some p) a, chunkStatus c = HAL_OK := by
  induction k generalizing p a with
  | zero => simp [fullPages]
  | succ k ih =>
    intro c hc
    simp only [fullPages, List.mem_cons, Option.map_some'] at hc
    rcases hc with rfl | hc
    · simp [chunkStatus, EEP_SPI_PAGESIZE]
    · exact ih _ _ c hc

/-- For every page-aligned 16-bit start and every length `32 * k` with
`k >= 1`, when every readiness check succeeds: `EEPROM_SoftSPI_WriteBuffer`
writes the `k` pages, then issues one more page write of length 0, which is
rejected, and returns `HAL_ERROR`. -/
theorem WriteBuffer_aligned_multiple (dev : Device) (fuel p a k : Nat) (w : World)
    (hfuel : 1 ≤ fuel) (hready : AlwaysReady dev w.tk) (hal : a % 32 = 0) (ha : a < 65536)
    (hk : 1 ≤ k) :
    ∃ w1, EEPROM_SoftSPI_WriteBuffer dev fuel (some p) a (32 * k) w = some (HAL_ERROR, w1) ∧
      w1.pages = w.pages ++
        ((List.range k).map
            (fun i => (⟨(a + 32 * i) % 65536, 32, some (p + 32 * i), HAL_OK⟩ : PageWrite))
          ++ [⟨(a + 32 * k) % 65536, 0, some (p + 32 * k), HAL_ERROR⟩]) := by
  obtain ⟨w1, hrun, hpages, -⟩ := WriteBuffer_ready dev fuel hfuel (some p) a (32 * k) ha w hready
  have hseg : segments (some p) a (32 * k) =
      fullPages k (some p) a ++ [⟨some (p + 32 * k), (a + 32 * k) % 65536, 0⟩] := by
    have h1 : 32 * k / 32 = k := by omega
    have h2 : 32 * k % 32 = 0 := by omega
    have h3 : k ≠ 0 := by omega
    unfold segments
    simp only [EEP_SPI_PAGESIZE, hal, if_true, h1, h2, h3, if_false, Option.map_some']
  obtain ⟨hlog, hst⟩ := readyLog_append_ok (fullPages k (some p) a)
    [⟨some (p + 32 * k), (a + 32 * k) % 65536, 0⟩] (fullPages_status k p a)
  refine ⟨w1, ?_, ?_⟩
  · rw [hrun, hseg, hst]
    simp [readyStatus, chunkStatus]
  · rw [hpages, hseg, hlog, fullPages_map k p a ha]
    simp [readyLog, chunkStatus, Chunk.record, Function.comp]

/-- For every 16-bit start and every 16-bit length `n > 0`, unless the start is
page-aligned and the length a multiple of the page size: when every readiness
check succeeds `EEPROM_SoftSPI_WriteBuffer` returns `HAL_OK`, every page write
it issues returns `HAL_OK`, and their number is
`ceil((WriteAddr mod 32 + n) / 32)`. -/
theorem WriteBuffer_ready_ok (dev : Device) (fuel p a n : Nat) (w : World)
    (hfuel : 1 ≤ fuel) (hready : AlwaysReady dev w.tk) (ha : a < 65536) (hn : 0 < n)
    (hn16 : n < 65536) (hgood : ¬ (a % 32 = 0 ∧ n % 32 = 0)) :
    ∃ w1 recs, EEPROM_SoftSPI_WriteBuffer dev fuel (some p) a n w = some (HAL_OK, w1) ∧
      w1.pages = w.pages ++ recs ∧ (∀ r ∈ recs, r.status = HAL_OK) ∧
      recs.length = (a % 32 + n + 31) / 32 := by
  obtain ⟨w1, hrun, hpages, -⟩ := WriteBuffer_ready dev fuel hfuel (some p) a n ha w hready
  have hok : ∀ c ∈ segments (some p) a n, chunkStatus c = HAL_OK := by
    intro c hc
    unfold segments at hc
    simp only [EEP_SPI_PAGESIZE, Option.map_some'] at hc
    split_ifs at hc with h1 h2 h3 h4 h5
    · simp only [List.mem_singleton] at hc
      subst hc
      simp [chunkStatus]
      omega
    · rcases List.mem_append.mp hc with hc | hc
      · exact fullPages_status _ _ _ c hc
      · simp only [List.mem_singleton] at hc
        subst hc
        have : n % 32 ≠ 0 := fun h => hgood ⟨h1, h⟩
        simp [chunkStatus, this]
    · simp only [List.mem_cons, List.mem_singleton, List.not_mem_nil, or_false] at hc
      rcases hc with rfl | rfl
      · simp [chunkStatus]
        omega
      · simp [chunkStatus]
        omega
    · simp only [List.mem_singleton] at hc
      subst hc
      simp [chunkStatus]
      omega
    · simp only [List.mem_cons, List.mem_append, List.not_mem_nil, or_false] at hc
      rcases hc with rfl | hc | rfl
      · simp [chunkStatus]
        omega
      · exact fullPages_status _ _ _ c hc
      · simp [chunkStatus]
        omega
    · simp only [List.mem_cons, List.mem_append, List.not_mem_nil, or_false] at hc
      rcases hc with rfl | hc
      · simp [chunkStatus]
        omega
      · exact fullPages_status _ _ _ c hc
  obtain ⟨hlog, hst⟩ := readyLog_all_ok _ hok
  refine ⟨w1, _, by rw [hrun, hst], by rw [hpages, hlog], ?_, ?_⟩
  · intro r hr
    simp only [List.mem_map] at hr
    obtain ⟨c, -, rfl⟩ := hr
    rfl
  · rw [List.length_map]
    unfold segments
    simp only [EEP_SPI_PAGESIZE]
    split_ifs with h1 h2 h3 h4 h5
    · simp only [List.length_singleton]
      omega
    · have : n % 32 ≠ 0 := fun h => hgood ⟨h1, h⟩
      simp only [List.length_append, fullPages_length, List.length_singleton]
      omega
    · simp only [List.length_cons, List.length_nil]
      omega
    · simp only [List.length_singleton]
      omega
    · simp only [List.length_cons, List.length_append, fullPages_length, List.length_singleton,
        List.length_nil]
      omega
    · simp only [List.length_cons, List.length_append, fullPages_length, List.length_nil]
      omega

/-! ## Contiguity of the page writes inside the address space -/

theorem Contiguous_fullPages (k o a : Nat) (rest : List PageWrite)
    (hk : a + 32 * k ≤ 65536) :
    (Contiguous a o ((fullPages k (some o) a).map (fun c => c.record HAL_OK) ++ rest) ↔
      Contiguous (a + 32 * k) (o + 32 * k) rest) ∧
    (((fullPages k (some o) a).map (fun c => c.record HAL_OK) ++ rest).map
        (fun r => r.length)).sum = 32 * k + (rest.map (fun r => r.length)).sum := by
  induction k generalizing o a with
  | zero => simp [fullPages]
  | succ k ih =>
    rcases Nat.eq_zero_or_pos k with rfl | hpos
    · simp [fullPages, Contiguous, Chunk.record, EEP_SPI_PAGESIZE]
    · have hmod : (a + 32) % 65536 = a + 32 := Nat.mod_eq_of_lt (by omega)
      obtain ⟨h1, h2⟩ := ih (o + 32) (a + 32) (by omega)
      have e1 : a + 32 + 32 * k = a + 32 * (k + 1) := by omega
      have e2 : o + 32 + 32 * k = o + 32 * (k + 1) := by omega
      rw [e1, e2] at h1
      constructor
      · simp only [fullPages, EEP_SPI_PAGESIZE, Option.map_some', hmod, List.map_cons,
          List.cons_append, Contiguous, Chunk.record, true_and]
        exact h1
      · simp only [fullPages, EEP_SPI_PAGESIZE, Option.map_some', hmod, List.map_cons,
          List.cons_append, List.sum_cons]
        rw [h2]
        simp only [Chunk.record]
        omega

/-- For every start and every length `n > 0` inside the address space, except
an aligned start with a length that is a multiple of the page size ending
exactly at 65536: when every readiness check succeeds, the page writes issued
by `EEPROM_SoftSPI_WriteBuffer` are contiguous from `WriteAddr` and payload
offset `p`, and their lengths sum to `n`. -/
theorem WriteBuffer_ready_contiguous (dev : Device) (fuel p a n : Nat) (w : World)
    (hfuel : 1 ≤ fuel) (hready : AlwaysReady dev w.tk) (hn : 0 < n) (hspace : a + n ≤ 65536)
    (hedge : ¬ (a % 32 = 0 ∧ n % 32 = 0 ∧ a + n = 65536)) :
    ∃ st w1 recs, EEPROM_SoftSPI_WriteBuffer dev fuel (some p) a n w = some (st, w1) ∧
      w1.pages = w.pages ++ recs ∧ Contiguous a p recs ∧
      (recs.map (fun r => r.length)).sum = n := by
  have ha : a < 65536 := by omega
  obtain ⟨w1, hrun, hpages, -⟩ := WriteBuffer_ready dev fuel hfuel (some p) a n ha w hready
  refine ⟨_, w1, _, hrun, hpages, ?_⟩
  unfold segments
  simp only [EEP_SPI_PAGESIZE, Option.map_some']
  split_ifs with h1 h2 h3 h4 h5
  · have hc : chunkStatus ⟨some p, a, n⟩ = HAL_OK := by
      simp [chunkStatus]
      omega
    simp [readyLog, hc, Contiguous, Chunk.record]
  · obtain ⟨hlog, -⟩ := readyLog_append_ok (fullPages (n / 32) (some p) a)
      [⟨some (p + 32 * (n / 32)), (a + 32 * (n / 32)) % 65536, n % 32⟩]
      (fullPages_status _ p a)
    obtain ⟨c1, c2⟩ := Contiguous_fullPages (n / 32) p a
      (readyLog [⟨some (p + 32 * (n / 32)), (a + 32 * (n / 32)) % 65536, n % 32⟩]) (by omega)
    have hmod : (a + 32 * (n / 32)) % 65536 = a + 32 * (n / 32) := by
      apply Nat.mod_eq_of_lt
      by_cases h0 : n % 32 = 0
      · have : a + n ≠ 65536 := fun h => hedge ⟨h1, h0, h⟩
        omega
      · omega
    rw [hlog, c2]
    refine ⟨c1.mpr ?_, ?_⟩
    · simp [readyLog, Contiguous, Chunk.record, hmod]
    · simp only [readyLog, Chunk.record, List.map_cons, List.sum_cons]
      split_ifs <;> simp <;> omega
  · have hc1 : chunkStatus ⟨some p, a, 32 - a % 32⟩ = HAL_OK := by
      simp [chunkStatus]
      omega
    have hc2 : chunkStatus ⟨some (p + (32 - a % 32)), (a + (32 - a % 32)) % 65536,
        (n % 32 + 65536 - (32 - a % 32)) % 65536⟩ = HAL_OK := by
      simp [chunkStatus]
      omega
    have hmod : (a + (32 - a % 32)) % 65536 = a + (32 - a % 32) := by omega
    simp only [readyLog, hc1, hc2, if_true, Contiguous, Chunk.record, hmod, true_and, and_true,
      List.map_cons, List.map_nil, List.sum_cons, List.sum_nil, ite_self]
    omega
  · have hc : chunkStatus ⟨some p, a, n⟩ = HAL_OK := by
      simp [chunkStatus]
      omega
    simp [readyLog, hc, Contiguous, Chunk.record]
  · have hmod : (a + (32 - a % 32)) % 65536 = a + (32 - a % 32) := by omega
    have hm : (n + 65536 - (32 - a % 32)) % 65536 = n - (32 - a % 32) := by omega
    have hc1 : chunkStatus ⟨some p, a, 32 - a % 32⟩ = HAL_OK := by
      simp [chunkStatus]
      omega
    rw [hmod, hm] at *
    have hmod2 : (a + (32 - a % 32) + 32 * ((n - (32 - a % 32)) / 32)) % 65536
        = a + (32 - a % 32) + 32 * ((n - (32 - a % 32)) / 32) := by omega
    have hc3 : chunkStatus ⟨some (p + (32 - a % 32) + 32 * ((n - (32 - a % 32)) / 32)),
        a + (32 - a % 32) + 32 * ((n - (32 - a % 32)) / 32),
        (n - (32 - a % 32)) % 32⟩ = HAL_OK := by
      simp [chunkStatus]
      omega
    obtain ⟨hlog, -⟩ := readyLog_append_ok
      (fullPages ((n - (32 - a % 32)) / 32) (some (p + (32 - a % 32))) (a + (32 - a % 32)))
      [⟨some (p + (32 - a % 32) + 32 * ((n - (32 - a % 32)) / 32)),
        a + (32 - a % 32) + 32 * ((n - (32 - a % 32)) / 32), (n - (32 - a % 32)) % 32⟩]
      (fullPages_status _ _ _)
    obtain ⟨c1, c2⟩ := Contiguous_fullPages ((n - (32 - a % 32)) / 32) (p + (32 - a % 32))
      (a + (32 - a % 32))
      (readyLog [⟨some (p + (32 - a % 32) + 32 * ((n - (32 - a % 32)) / 32)),
        a + (32 - a % 32) + 32 * ((n - (32 - a % 32)) / 32), (n - (32 - a % 32)) % 32⟩])
      (by omega)
    simp only [readyLog, hc1, if_true, Contiguous, Chunk.record, true_and, List.map_cons,
      List.sum_cons, hmod2]
    rw [hlog, c2]
    refine ⟨c1.mpr ?_, ?_⟩
    · simp [readyLog, Contiguous, Chunk.record, hc3]
    · simp only [readyLog, hc3, if_true, Chunk.record, List.map_cons, List.map_nil,
        List.sum_cons, List.sum_nil]
      omega
  · have hmod : (a + (32 - a % 32)) % 65536 = a + (32 - a % 32) := by omega
    have hm : (n + 65536 - (32 - a % 32)) % 65536 = n - (32 - a % 32) := by omega
    have hc1 : chunkStatus ⟨some p, a, 32 - a % 32⟩ = HAL_OK := by
      simp [chunkStatus]
      omega
    rw [hmod, hm] at *
    obtain ⟨hlog, -⟩ := readyLog_append_ok
      (fullPages ((n - (32 - a % 32)) / 32) (some (p + (32 - a % 32))) (a + (32 - a % 32)))
      [] (fullPages_status _ _ _)
    obtain ⟨c1, c2⟩ := Contiguous_fullPages ((n - (32 - a % 32)) / 32) (p + (32 - a % 32))
      (a + (32 - a % 32)) [] (by omega)
    simp only [readyLog, hc1, if_true, Contiguous, Chunk.record, true_and, List.map_cons,
      List.sum_cons]
    rw [hlog, List.map_nil, List.sum_nil] at *
    simp only [readyLog, List.append_nil] at *
    refine ⟨c1.mpr (by simp [Contiguous]), ?_⟩
    rw [c2]
    simp only [not_not] at h5
    omega

/-! ## Claims -/

/-- C1 fails at the top of the address space: writing the last page,
`WriteAddr = 65504`, `NumByteToWrite = 32` (so `WriteAddr + NumByteToWrite =
65536`), on an idle device.  After the 32-byte page write the aligned branch
issues one more page write, of length 0, at the wrapped address 0 with payload
offset 32: the second address is not `65504 + 32`, and its payload offset is
not `address - WriteAddr`. -/
theorem WriteBuffer_last_page_wraps :
    (EEPROM_SoftSPI_WriteBuffer idleDevice 1 (some 0) 65504 32 w0).map
        (fun r => (r.1, r.2.pages))
      = some (HAL_ERROR,
          [⟨65504, 32, some 0, HAL_OK⟩, ⟨0, 0, some 32, HAL_ERROR⟩]) ∧
    65504 + 32 ≤ 65536 ∧ (0 : Nat) ≠ 65504 + 32 := by
  decide

/-- C2: for every 16-bit `WriteAddr` and every `NumByteToWrite`, on every
device and for every outcome of the readiness checks and page writes, each
page write `(address, length)` that `EEPROM_SoftSPI_WriteBuffer` issues
satisfies `address mod 32 + length <= 32`: no chunk straddles a page boundary,
also after the running 16-bit address has wrapped.  With an advancing clock
the call returns, so the statement is not vacuous. -/
theorem WriteBuffer_page_writes_within_page (dev : Device) (pBuffer : Option Nat)
    (WriteAddr NumByteToWrite : Nat) (w : World) (ha : WriteAddr < 65536) :
    (∀ fuel st w1,
      EEPROM_SoftSPI_WriteBuffer dev fuel pBuffer WriteAddr NumByteToWrite w = some (st, w1) →
        ∃ recs, w1.pages = w.pages ++ recs ∧
          ∀ r ∈ recs, r.address % 32 + r.length ≤ 32) ∧
    (ClockAdvances dev → ∃ fuel st w1,
      EEPROM_SoftSPI_WriteBuffer dev fuel pBuffer WriteAddr NumByteToWrite w = some (st, w1)) := by
  constructor
  · intro fuel st w1 h
    rcases WriteBuffer_issued dev fuel pBuffer WriteAddr NumByteToWrite ha w st w1 h with
      ⟨-, hp⟩ | ⟨recs, hp, hi⟩
    · exact ⟨[], by simp [hp], by simp⟩
    · refine ⟨recs, hp, fun r hr => ?_⟩
      obtain ⟨c, hc, h1, h2, -⟩ := hi.mem_chunk r hr
      have := segments_within_page pBuffer WriteAddr NumByteToWrite c hc
      rw [h1, h2]
      exact this
  · intro hclk
    obtain ⟨k, ⟨st, w1⟩, hk⟩ :=
      (WriteBuffer_converges dev hclk pBuffer WriteAddr NumByteToWrite ha w).exists_some
    exact ⟨k, st, w1, hk⟩

/-- C2 at a concrete request that wraps the 16-bit address: 100 bytes from
address 65500 on an idle device with a running clock. -/
theorem WriteBuffer_page_writes_within_page_witness :
    65500 < 65536 ∧ ClockAdvances tickingDevice ∧
    ∃ fuel st w1,
      EEPROM_SoftSPI_WriteBuffer tickingDevice fuel (some 0) 65500 100 w0 = some (st, w1) ∧
      ∃ recs, w1.pages = w0.pages ++ recs ∧ ∀ r ∈ recs, r.address % 32 + r.length ≤ 32 := by
  have h := WriteBuffer_page_writes_within_page tickingDevice (some 0) 65500 100 w0 (by decide)
  obtain ⟨fuel, st, w1, h1⟩ := h.2 tickingDevice_clock
  exact ⟨by decide, tickingDevice_clock, fuel, st, w1, h1, h.1 fuel st w1 h1⟩

/-- C3 fails for a page-aligned address and a length that is a multiple of the
page size: for `(0, 32)` on an idle device `EEPROM_SoftSPI_WritePage` is
invoked twice, while `ceil((0 mod 32 + 32) / 32) = 1`. -/
theorem WriteBuffer_aligned_page_count :
    (EEPROM_SoftSPI_WriteBuffer idleDevice 1 (some 0) 0 32 w0).map
        (fun r => r.2.pages.length) = some 2 ∧
    (0 % 32 + 32 + 31) / 32 = 1 := by
  decide

/-- C4 fails for a page-aligned address and a length that is a multiple of the
page size: on an idle device `EEPROM_SoftSPI_WriteBuffer` and
`BSP_EEPROM_Write` return `HAL_ERROR` for `(0, 32)` and for `(0, 64)`. -/
theorem WriteBuffer_aligned_multiple_returns_error :
    (EEPROM_SoftSPI_WriteBuffer idleDevice 1 (some 0) 0 32 w0).map (fun r => r.1)
      = some HAL_ERROR ∧
    (EEPROM_SoftSPI_WriteBuffer idleDevice 1 (some 0) 0 64 w0).map (fun r => r.1)
      = some HAL_ERROR ∧
    (BSP_EEPROM_Write idleDevice 1 0 (some 0) 32 w0).map (fun r => r.1) = some HAL_ERROR ∧
    (BSP_EEPROM_Write idleDevice 1 0 (some 0) 64 w0).map (fun r => r.1) = some HAL_ERROR := by
  decide

/-- C5 fails at its own witnesses: on an idle device `(0, 32)` issues two page
writes, `[0, 32)` and a rejected one of length 0 at address 32; `(0, 64)`
issues three, `[0, 32)`, `[32, 64)` and a rejected one of length 0 at
address 64. -/
theorem WriteBuffer_aligned_extra_page_write :
    (EEPROM_SoftSPI_WriteBuffer idleDevice 1 (some 0) 0 32 w0).map (fun r => r.2.pages)
      = some [⟨0, 32, some 0, HAL_OK⟩, ⟨32, 0, some 32, HAL_ERROR⟩] ∧
    (EEPROM_SoftSPI_WriteBuffer idleDevice 1 (some 0) 0 64 w0).map (fun r => r.2.pages)
      = some [⟨0, 32, some 0, HAL_OK⟩, ⟨32, 32, some 32, HAL_OK⟩,
          ⟨64, 0, some 64, HAL_ERROR⟩] := by
  decide

/-- The decomposition rule for a start address that is not page-aligned, with
`cap = 32 - WriteAddr mod 32`, and a length `n > 0` inside the address space:
when every status poll samples WIP clear at once and ends within its deadline
(`AlwaysReady`), `EEPROM_SoftSPI_WriteBuffer` returns
`HAL_OK` and the page writes it issues are exactly: the single write
`(WriteAddr, n)` if `n <= cap`; otherwise `(WriteAddr, cap)`, then
`floor((n - cap) / 32)` writes of 32 bytes at the successive page starts
`WriteAddr + cap + 32 i`, then one trailing write of `(n - cap) mod 32` bytes
exactly when that remainder is not zero.  Each write takes its payload from
the buffer offset `address - WriteAddr`. -/
theorem WriteBuffer_unaligned_page_writes (dev : Device) (fuel p WriteAddr n : Nat) (w : World)
    (hfuel : 1 ≤ fuel) (hready : AlwaysReady dev w.tk) (hmis : WriteAddr % 32 ≠ 0)
    (hn : 0 < n) (hspace : WriteAddr + n ≤ 65536) :
    (WriteAddr + (32 - WriteAddr % 32)) % 32 = 0 ∧
    ∃ w1, EEPROM_SoftSPI_WriteBuffer dev fuel (some p) WriteAddr n w = some (HAL_OK, w1) ∧
      w1.pages = w.pages ++
        if n ≤ 32 - WriteAddr % 32 then [⟨WriteAddr, n, some p, HAL_OK⟩]
        else
          (⟨WriteAddr, 32 - WriteAddr % 32, some p, HAL_OK⟩ : PageWrite) ::
            ((List.range ((n - (32 - WriteAddr % 32)) / 32)).map
                (fun i => (⟨WriteAddr + (32 - WriteAddr % 32) + 32 * i, 32,
                  some (p + (32 - WriteAddr % 32) + 32 * i), HAL_OK⟩ : PageWrite))
              ++ if (n - (32 - WriteAddr % 32)) % 32 ≠ 0 then
                  [⟨WriteAddr + (32 - WriteAddr % 32) + 32 * ((n - (32 - WriteAddr % 32)) / 32),
                    (n - (32 - WriteAddr % 32)) % 32,
                    some (p + (32 - WriteAddr % 32) + 32 * ((n - (32 - WriteAddr % 32)) / 32)),
                    HAL_OK⟩]
                 else []) := by
  refine ⟨by omega, ?_⟩
  have ha : WriteAddr < 65536 := by omega
  obtain ⟨w1, hrun, hpages, -⟩ := WriteBuffer_ready dev fuel hfuel (some p) WriteAddr n ha w hready
  have hseg := segments_unaligned p WriteAddr n hmis hn hspace
  have hok : ∀ c ∈ segments (some p) WriteAddr n, chunkStatus c = HAL_OK := by
    intro c hc
    rw [hseg] at hc
    by_cases h1 : n ≤ 32 - WriteAddr % 32
    · simp only [h1, if_true, List.mem_singleton] at hc
      subst hc
      simp [chunkStatus]
      omega
    · simp only [h1, if_false, List.mem_cons, List.mem_append, List.mem_map] at hc
      rcases hc with rfl | ⟨i, -, rfl⟩ | hc
      · simp [chunkStatus]
        omega
      · simp [chunkStatus]
      · by_cases h3 : (n - (32 - WriteAddr % 32)) % 32 = 0
        · simp [h3] at hc
        · simp only [ne_eq, h3, not_false_eq_true, if_true, List.mem_singleton] at hc
          subst hc
          simp [chunkStatus, h3]
  obtain ⟨hlog, hst⟩ := readyLog_all_ok _ hok
  refine ⟨w1, by rw [hrun, hst], ?_⟩
  rw [hpages, hlog, hseg]
  congr 1
  by_cases h1 : n ≤ 32 - WriteAddr % 32
  · simp [h1, Chunk.record]
  · by_cases h3 : (n - (32 - WriteAddr % 32)) % 32 = 0
    · simp [h1, h3, Chunk.record, Function.comp]
    · simp [h1, h3, Chunk.record, Function.comp]

/-- Boundary scenarios (c) and (d) of the specification on the idle device
behind a clock that stands still at zero: `(20, 10)` gives the single chunk
`[20, 30)`; `(20, 50)` gives `[20, 32)`, `[32, 64)`, `[64, 70)`. -/
theorem WriteBuffer_unaligned_page_writes_witness :
    (∃ w1, EEPROM_SoftSPI_WriteBuffer idleDevice 1 (some 0) 20 10 w0 = some (HAL_OK, w1) ∧
      w1.pages = [⟨20, 10, some 0, HAL_OK⟩]) ∧
    (∃ w1, EEPROM_SoftSPI_WriteBuffer idleDevice 1 (some 0) 20 50 w0 = some (HAL_OK, w1) ∧
      w1.pages = [⟨20, 12, some 0, HAL_OK⟩, ⟨32, 32, some 12, HAL_OK⟩,
        ⟨64, 6, some 44, HAL_OK⟩]) := by
  constructor
  · obtain ⟨w1, h1, h2⟩ := (WriteBuffer_unaligned_page_writes idleDevice 1 0 20 10 w0
      (by decide) (idleDevice_ready _) (by decide) (by decide) (by decide)).2
    exact ⟨w1, h1, by rw [h2]; decide⟩
  · obtain ⟨w1, h1, h2⟩ := (WriteBuffer_unaligned_page_writes idleDevice 1 0 20 50 w0
      (by decide) (idleDevice_ready _) (by decide) (by decide) (by decide)).2
    exact ⟨w1, h1, by rw [h2]; decide⟩

/-- C7: fail-fast in both transport variants.  For every request, in the log
of page writes issued by `EEPROM_SoftSPI_WriteBuffer` (on every device) and by
`EEPROM_HardSPI_WriteBuffer` (over every page writer): a page write that
returned a status other than `HAL_OK` is the last one issued and `WriteBuffer`
returns that same status; hence `WriteBuffer` returns `HAL_OK` only if every
page write it issued returned `HAL_OK`.  Both variants return: the software
one when the clock advances, the hardware one when its page writer returns. -/
theorem WriteBuffer_fail_fast :
    (∀ (dev : Device) (fuel : Nat) (pBuffer : Option Nat) (WriteAddr n : Nat) (w : World)
        (st : HAL_StatusTypeDef) (w1 : World), WriteAddr < 65536 →
      EEPROM_SoftSPI_WriteBuffer dev fuel pBuffer WriteAddr n w = some (st, w1) →
      ∃ recs, w1.pages = w.pages ++ recs ∧
        (∀ pre r post, recs = pre ++ r :: post → r.status ≠ HAL_OK →
          post = [] ∧ st = r.status) ∧
        (st = HAL_OK → ∀ r ∈ recs, r.status = HAL_OK)) ∧
    (∀ (σ : Type) (WritePage : Option Nat → Nat → Nat → σ → Option (HAL_StatusTypeDef × σ))
        (pBuffer : Option Nat) (WriteAddr n : Nat) (s : σ) (l : List PageWrite)
        (st : HAL_StatusTypeDef) (s1 : σ) (l1 : List PageWrite), WriteAddr < 65536 →
      EEPROM_HardSPI_WriteBuffer (logged WritePage) pBuffer WriteAddr n (s, l)
        = some (st, (s1, l1)) →
      ∃ recs, l1 = l ++ recs ∧
        (∀ pre r post, recs = pre ++ r :: post → r.status ≠ HAL_OK →
          post = [] ∧ st = r.status) ∧
        (st = HAL_OK → ∀ r ∈ recs, r.status = HAL_OK)) ∧
    (∀ (dev : Device) (pBuffer : Option Nat) (WriteAddr n : Nat) (w : World),
      WriteAddr < 65536 → ClockAdvances dev →
      ∃ fuel r, EEPROM_SoftSPI_WriteBuffer dev fuel pBuffer WriteAddr n w = some r) ∧
    (∀ (σ : Type) (WritePage : Option Nat → Nat → Nat → σ → Option (HAL_StatusTypeDef × σ))
        (pBuffer : Option Nat) (WriteAddr n : Nat) (s : σ) (l : List PageWrite),
      WriteAddr < 65536 → (∀ b a k t, ∃ r, WritePage b a k t = some r) →
      ∃ r, EEPROM_HardSPI_WriteBuffer (logged WritePage) pBuffer WriteAddr n (s, l) = some r) := by
  have ok_of_ff : ∀ (recs : List PageWrite) (st : HAL_StatusTypeDef),
      (∀ pre r post, recs = pre ++ r :: post → r.status ≠ HAL_OK →
        post = [] ∧ st = r.status) → st = HAL_OK → ∀ r ∈ recs, r.status = HAL_OK := by
    intro recs st hff hst r hr
    by_contra hne
    obtain ⟨pre, post, hsplit⟩ := List.append_of_mem hr
    have := (hff pre r post hsplit hne).2
    exact hne (this ▸ hst)
  refine ⟨?_, ?_, ?_, ?_⟩
  · intro dev fuel pBuffer WriteAddr n w st w1 ha h
    rcases WriteBuffer_issued dev fuel pBuffer WriteAddr n ha w st w1 h with
      ⟨-, hp⟩ | ⟨recs, hp, hi⟩
    · refine ⟨[], by simp [hp], ?_, by simp⟩
      intro pre r post h1
      simp at h1
    · exact ⟨recs, hp, hi.fail_fast, ok_of_ff recs st hi.fail_fast⟩
  · intro σ WritePage pBuffer WriteAddr n s l st s1 l1 ha h
    simp only [EEPROM_HardSPI_WriteBuffer, WriteBuffer_pages_eq_runPages _ _ _ _ ha] at h
    obtain ⟨recs, h1, h2⟩ := runPages_issued (logged WritePage) Prod.snd
      (fun b a n s st s1 h => logged_logs WritePage b a n s st s1 h) _ _ _ _ h
    exact ⟨recs, h1, h2.fail_fast, ok_of_ff recs st h2.fail_fast⟩
  · intro dev pBuffer WriteAddr n w ha hclk
    obtain ⟨k, r, hk⟩ := (WriteBuffer_converges dev hclk pBuffer WriteAddr n ha w).exists_some
    exact ⟨k, r, hk⟩
  · intro σ WritePage pBuffer WriteAddr n s l ha htot
    simp only [EEPROM_HardSPI_WriteBuffer, WriteBuffer_pages_eq_runPages _ _ _ _ ha]
    apply runPages_total
    intro b a k t
    obtain ⟨⟨st, t1⟩, hr⟩ := htot b a k t.1
    exact ⟨(st, (t1, t.2 ++ [⟨a, k, b, st⟩])), by simp only [logged, hr]⟩

/-- C7 on a three-chunk request `(20, 50)`.  Hardware variant with a page
writer whose second invocation times out: two page writes are logged, the
third chunk is never attempted, and the result is the time-out status.
Software variant on an idle device with a running clock: the call returns and
its log is fail-fast. -/
theorem WriteBuffer_fail_fast_witness :
    EEPROM_HardSPI_WriteBuffer (logged failingSecond) (some 0) 20 50 (0, [])
      = some (HAL_TIMEOUT, (2, [⟨20, 12, some 0, HAL_OK⟩, ⟨32, 32, some 12, HAL_TIMEOUT⟩])) ∧
    (∃ recs : List PageWrite,
      [⟨20, 12, some 0, HAL_OK⟩, ⟨32, 32, some 12, HAL_TIMEOUT⟩] = [] ++ recs ∧
      (∀ pre r post, recs = pre ++ r :: post → r.status ≠ HAL_OK →
        post = [] ∧ HAL_TIMEOUT = r.status) ∧
      (HAL_TIMEOUT = HAL_OK → ∀ r ∈ recs, r.status = HAL_OK)) ∧
    (∃ fuel st w1,
      EEPROM_SoftSPI_WriteBuffer tickingDevice fuel (some 0) 20 50 w0 = some (st, w1) ∧
      ∃ recs, w1.pages = w0.pages ++ recs ∧
        (∀ pre r post, recs = pre ++ r :: post → r.status ≠ HAL_OK →
          post = [] ∧ st = r.status) ∧
        (st = HAL_OK → ∀ r ∈ recs, r.status = HAL_OK)) := by
  have hrun : EEPROM_HardSPI_WriteBuffer (logged failingSecond) (some 0) 20 50 (0, [])
      = some (HAL_TIMEOUT, (2, [⟨20, 12, some 0, HAL_OK⟩, ⟨32, 32, some 12, HAL_TIMEOUT⟩])) := by
    decide
  refine ⟨hrun, ?_, ?_⟩
  · exact WriteBuffer_fail_fast.2.1 Nat failingSecond (some 0) 20 50 0 [] HAL_TIMEOUT 2 _
      (by decide) hrun
  · obtain ⟨fuel, ⟨st, w1⟩, h1⟩ :=
      WriteBuffer_fail_fast.2.2.1 tickingDevice (some 0) 20 50 w0 (by decide) tickingDevice_clock
    exact ⟨fuel, st, w1, h1,
      WriteBuffer_fail_fast.1 tickingDevice fuel (some 0) 20 50 w0 st w1 (by decide) h1⟩

/-- C8: a zero-length write is rejected.  For every `WriteAddr`, every buffer
(also `NULL`) and every device, whenever `EEPROM_SoftSPI_WriteBuffer` called
with `NumByteToWrite = 0` returns, it returns `HAL_ERROR`, and every byte it
has sent is the read-status opcode `0x05`: neither write enable `0x06` nor
write `0x02` goes to the transport.  With an advancing clock it does return. -/
theorem WriteBuffer_zero_length_rejected (dev : Device) (pBuffer : Option Nat)
    (WriteAddr : Nat) (w : World) :
    (∀ fuel st w1,
      EEPROM_SoftSPI_WriteBuffer dev fuel pBuffer WriteAddr 0 w = some (st, w1) →
        st = HAL_ERROR ∧
        ∃ evs, w1.trace = w.trace ++ evs ∧ (∀ b, Event.tx b ∈ evs → b = CMD_RDSR) ∧
          Event.tx CMD_WREN ∉ evs ∧ Event.tx CMD_WRITE ∉ evs) ∧
    (ClockAdvances dev →
      ∃ fuel w1, EEPROM_SoftSPI_WriteBuffer dev fuel pBuffer WriteAddr 0 w
        = some (HAL_ERROR, w1)) := by
  have safety : ∀ fuel st w1,
      EEPROM_SoftSPI_WriteBuffer dev fuel pBuffer WriteAddr 0 w = some (st, w1) →
        st = HAL_ERROR ∧
        ∃ evs, w1.trace = w.trace ++ evs ∧ (∀ b, Event.tx b ∈ evs → b = CMD_RDSR) ∧
          Event.tx CMD_WREN ∉ evs ∧ Event.tx CMD_WRITE ∉ evs := by
    intro fuel st w1 h
    have key : st = HAL_ERROR ∧
        ∃ evs, w1.trace = w.trace ++ evs ∧ (∀ b, Event.tx b ∈ evs → b = CMD_RDSR) := by
      simp only [EEPROM_SoftSPI_WriteBuffer, WriteBuffer_pages_zero] at h
      rcases hg : IsReady_retry dev fuel w with _ | ⟨s1, w2⟩
      · simp [hg, orReturn] at h
      · obtain ⟨-, -, hs, bs, -, htr⟩ := IsReady_retry_spec _ _ _ _ _ hg
        have htx : ∃ evs, w2.trace = w.trace ++ evs ∧ ∀ b, Event.tx b ∈ evs → b = CMD_RDSR := by
          rcases htr with htr | ⟨cs, -, htr⟩
          · exact ⟨pollFrame bs, htr, fun b hb => not_tx_mem_pollFrame bs b hb⟩
          · refine ⟨pollFrame bs ++ pollFrame cs, by rw [htr, List.append_assoc], fun b hb => ?_⟩
            rcases List.mem_append.mp hb with hb | hb
            · exact not_tx_mem_pollFrame bs b hb
            · exact not_tx_mem_pollFrame cs b hb
        rw [hg, orReturn_some] at h
        by_cases hs1 : s1 = HAL_OK
        · simp only [hs1, ne_eq, not_true_eq_false, if_false,
            WritePage_rejected dev fuel pBuffer WriteAddr 0 w2 (Or.inl rfl), Option.some.injEq,
            Prod.mk.injEq] at h
          obtain ⟨rfl, rfl⟩ := h
          exact ⟨rfl, htx⟩
        · simp only [ne_eq, hs1, not_false_eq_true, if_true, Option.some.injEq,
            Prod.mk.injEq] at h
          obtain ⟨rfl, rfl⟩ := h
          rcases hs with hs | hs
          · exact absurd hs hs1
          · exact ⟨hs, htx⟩
    obtain ⟨h1, evs, h2, h3⟩ := key
    refine ⟨h1, evs, h2, h3, fun h6 => ?_, fun h2 => ?_⟩
    · exact absurd (h3 _ h6) (by decide)
    · exact absurd (h3 _ h2) (by decide)
  refine ⟨safety, fun hclk => ?_⟩
  have hconv : Converges (fun m => EEPROM_SoftSPI_WriteBuffer dev m pBuffer WriteAddr 0 w) := by
    simp only [EEPROM_SoftSPI_WriteBuffer, WriteBuffer_pages_zero]
    exact Converges.orReturn (IsReady_retry_converges dev hclk w)
      (fun s => WritePage_converges dev hclk _ _ _ s)
  obtain ⟨k, ⟨st, w1⟩, hk⟩ := hconv.exists_some
  obtain ⟨rfl, -⟩ := safety k st w1 hk
  exact ⟨k, w1, hk⟩

/-- C8 on a device that is busy at every poll: the zero-length write to
address 0 from a `NULL` buffer returns `HAL_ERROR`. -/
theorem WriteBuffer_zero_length_rejected_witness :
    ClockAdvances busyDevice ∧
    ∃ fuel w1, EEPROM_SoftSPI_WriteBuffer busyDevice fuel none 0 0 w0 = some (HAL_ERROR, w1) :=
  ⟨busyDevice_clock, (WriteBuffer_zero_length_rejected busyDevice none 0 w0).2 busyDevice_clock⟩

/-- C9: for every 16-bit `WriteAddr`, every non-null payload and every length
`n > 0`, once the readiness guard has passed (leaving state `wr`), the bus
activity of `EEPROM_SoftSPI_WritePage` after it is exactly three chip-select
frames in this order: the byte `0x06`; the bytes `0x02`, `WriteAddr / 256`,
`WriteAddr mod 256`, `payload[0]`, ..., `payload[n-1]`; the byte `0x04`.  The
address is big-endian (`hi * 256 + lo = WriteAddr`), no tick is read, and the
call returns `HAL_OK`. -/
theorem WritePage_three_frames (dev : Device) (fuel p WriteAddr n : Nat) (w wr : World)
    (ha : WriteAddr < 65536) (hn : 0 < n) (hready : GuardPasses dev fuel w wr) :
    ∃ w2, EEPROM_SoftSPI_WritePage dev fuel (some p) WriteAddr n w = some (HAL_OK, w2) ∧
      w2.trace = wr.trace ++
        ([Event.CS_LOW, Event.tx 0x06, Event.CS_HIGH] ++
         ([Event.CS_LOW, Event.tx 0x02, Event.tx (WriteAddr / 256), Event.tx (WriteAddr % 256)]
            ++ (List.range n).map (fun i => Event.tx (w.mem (p + i) % 256))
            ++ [Event.CS_HIGH]) ++
         [Event.CS_LOW, Event.tx 0x04, Event.CS_HIGH]) ∧
      WriteAddr / 256 * 256 + WriteAddr % 256 = WriteAddr ∧ WriteAddr / 256 < 256 ∧
      w2.tk = wr.tk := by
  have hg := (IsReady_retry_iff_guard dev fuel w wr).mpr hready
  obtain ⟨w2, h1, h2, h3⟩ := WritePage_after_guard dev fuel p WriteAddr n w wr ha hn hg
  exact ⟨w2, h1, by rw [h2, pageFrames_eq], by omega, by omega, h3⟩

/-- C9 on an idle device: three bytes written at address `0x0123`. -/
theorem WritePage_three_frames_witness :
    0x0123 < 65536 ∧ 0 < 3 ∧
    ∃ w2, EEPROM_SoftSPI_WritePage idleDevice 1 (some 0) 0x0123 3 w0 = some (HAL_OK, w2) ∧
      w2.trace = [Event.CS_LOW, Event.tx 0x05, Event.rx 0, Event.CS_HIGH,
        Event.CS_LOW, Event.tx 0x06, Event.CS_HIGH,
        Event.CS_LOW, Event.tx 0x02, Event.tx 0x01, Event.tx 0x23,
          Event.tx 0, Event.tx 1, Event.tx 2, Event.CS_HIGH,
        Event.CS_LOW, Event.tx 0x04, Event.CS_HIGH] := by
  obtain ⟨w2, h1, h2, -⟩ := WritePage_three_frames idleDevice 1 0 0x0123 3 w0 _
    (by decide) (by decide)
    (Or.inl (IsReady_ready idleDevice 1 w0 (idleDevice_ready _) (by decide)))
  exact ⟨by decide, by decide, w2, h1, by rw [h2]; decide⟩

/-- C10: the poll after the write frame is missing.  On a device that stays
busy after a write, `EEPROM_SoftSPI_WritePage (pBuffer, 0, 1)` polls the status
once before the write-enable frame, sends the write frame and then only the
write-disable frame, and returns `HAL_OK`.  No read-status opcode follows the
write opcode, although a poll at the end would have observed WIP = 1: the call
reports success for a write cycle that never completes. -/
theorem WritePage_no_poll_after_write :
    (EEPROM_SoftSPI_WritePage busyAfterWrite 1 (some 0) 0 1 w0).map
        (fun r => (r.1, r.2.trace))
      = some (HAL_OK,
          [Event.CS_LOW, Event.tx 0x05, Event.rx 0, Event.CS_HIGH,
           Event.CS_LOW, Event.tx 0x06, Event.CS_HIGH,
           Event.CS_LOW, Event.tx 0x02, Event.tx 0, Event.tx 0, Event.tx 0, Event.CS_HIGH,
           Event.CS_LOW, Event.tx 0x04, Event.CS_HIGH]) ∧
    Event.tx CMD_RDSR ∉
      [Event.CS_LOW, Event.tx 0x02, Event.tx 0, Event.tx 0, Event.tx 0, Event.CS_HIGH,
       Event.CS_LOW, Event.tx 0x04, Event.CS_HIGH] ∧
    bitRead (busyAfterWrite.miso
        ([Event.CS_LOW, Event.tx 0x05, Event.rx 0, Event.CS_HIGH,
          Event.CS_LOW, Event.tx 0x06, Event.CS_HIGH,
          Event.CS_LOW, Event.tx 0x02, Event.tx 0, Event.tx 0, Event.tx 0, Event.CS_HIGH,
          Event.CS_LOW, Event.tx 0x04, Event.CS_HIGH] ++ [Event.CS_LOW, Event.tx CMD_RDSR]) % 256)
      BIT_WIP = 1 := by
  decide

/-- Where `EEPROM_SoftSPI_WritePage` polls: in every call with a
non-null buffer and `n > 0` that returns, the status polling happens only in
the readiness guard before the write-enable frame.  The call returns `HAL_OK`
exactly when that guard passes, and then, after the guard, it sends the
write-enable frame, the write frame and the write-disable frame, shifts no
byte in and reads no tick.  Otherwise it returns `HAL_ERROR` and every byte it
has sent is the read-status opcode. -/
theorem WritePage_polls_only_before_write (dev : Device) (fuel p WriteAddr n : Nat)
    (w : World) (st : HAL_StatusTypeDef) (w2 : World) (ha : WriteAddr < 65536) (hn : 0 < n)
    (h : EEPROM_SoftSPI_WritePage dev fuel (some p) WriteAddr n w = some (st, w2)) :
    (st = HAL_OK ∧ ∃ wr frames, GuardPasses dev fuel w wr ∧ w2.tk = wr.tk ∧
      w2.trace = wr.trace ++ frames ∧
      frames =
        [Event.CS_LOW, Event.tx 0x06, Event.CS_HIGH] ++
         ([Event.CS_LOW, Event.tx 0x02, Event.tx (WriteAddr / 256), Event.tx (WriteAddr % 256)]
            ++ (List.range n).map (fun i => Event.tx (w.mem (p + i) % 256))
            ++ [Event.CS_HIGH]) ++
         [Event.CS_LOW, Event.tx 0x04, Event.CS_HIGH] ∧
      ∀ b, Event.rx b ∉ frames) ∨
    (st = HAL_ERROR ∧ (∀ wr, ¬ GuardPasses dev fuel w wr) ∧
      ∃ evs, w2.trace = w.trace ++ evs ∧ ∀ b, Event.tx b ∈ evs → b = CMD_RDSR) := by
  rcases hg : IsReady_retry dev fuel w with _ | ⟨s1, wr⟩
  · simp [EEPROM_SoftSPI_WritePage, WritePage_body, Nat.pos_iff_ne_zero.mp hn, hg, orReturn,
      recordPage] at h
  · obtain ⟨-, -, hs, bs, -, htr⟩ := IsReady_retry_spec _ _ _ _ _ hg
    rcases hs with rfl | rfl
    · left
      obtain ⟨w3, h3, h4, h5⟩ := WritePage_after_guard dev fuel p WriteAddr n w wr ha hn hg
      rw [pageFrames_eq] at h4
      rw [h3] at h
      simp only [Option.some.injEq, Prod.mk.injEq] at h
      obtain ⟨rfl, rfl⟩ := h
      refine ⟨rfl, wr, _, (IsReady_retry_iff_guard dev fuel w wr).mp hg, h5, h4, rfl, ?_⟩
      intro b hb
      simp at hb
    · right
      have hno : ∀ wr1, ¬ GuardPasses dev fuel w wr1 := by
        intro wr1 hgp
        have := (IsReady_retry_iff_guard dev fuel w wr1).mpr hgp
        rw [hg] at this
        simp at this
      simp only [EEPROM_SoftSPI_WritePage, WritePage_body, Nat.pos_iff_ne_zero.mp hn, if_false,
        hg, orReturn_some, ne_eq, reduceCtorEq, not_false_eq_true, if_true, recordPage,
        Option.some.injEq, Prod.mk.injEq] at h
      obtain ⟨rfl, rfl⟩ := h
      refine ⟨rfl, hno, ?_⟩
      rcases htr with htr | ⟨cs, -, htr⟩
      · exact ⟨pollFrame bs, htr, fun b hb => not_tx_mem_pollFrame bs b hb⟩
      · refine ⟨pollFrame bs ++ pollFrame cs, by simp [htr], fun b hb => ?_⟩
        rcases List.mem_append.mp hb with hb | hb
        · exact not_tx_mem_pollFrame bs b hb
        · exact not_tx_mem_pollFrame cs b hb

/-- On the device that stays busy after a write the call returns `HAL_OK`
and the guard passed before the write. -/
theorem WritePage_polls_only_before_write_witness :
    (0 : Nat) < 65536 ∧ 0 < 1 ∧
    ∃ w2, EEPROM_SoftSPI_WritePage busyAfterWrite 1 (some 0) 0 1 w0 = some (HAL_OK, w2) ∧
      ∃ wr, GuardPasses busyAfterWrite 1 w0 wr ∧ w2.tk = wr.tk := by
  obtain ⟨⟨st, w2⟩, h⟩ := Option.isSome_iff_exists.mp
    (show (EEPROM_SoftSPI_WritePage busyAfterWrite 1 (some 0) 0 1 w0).isSome = true by decide)
  have hst : st = HAL_OK := by
    have : (EEPROM_SoftSPI_WritePage busyAfterWrite 1 (some 0) 0 1 w0).map (fun r => r.1)
        = some HAL_OK := by decide
    rw [h] at this
    simpa using this
  subst hst
  rcases WritePage_polls_only_before_write busyAfterWrite 1 0 0 1 w0 HAL_OK w2
      (by decide) (by decide) h with ⟨-, wr, frames, h1, h2, -⟩ | ⟨h1, -⟩
  · exact ⟨by decide, by decide, w2, h, wr, h1, h2⟩
  · exact absurd h1 (by decide)

/-! ## The status poll in detail -/

/-- The polling loop: every sampled byte but the last has WIP set; if the last
one has WIP set too, the loop was left because the tick read after it had
reached the deadline. -/
theorem IsReady_poll_run (dev : Device) (fuel tw : Nat) (w : World) (v : Nat) (w1 : World)
    (h : IsReady_poll dev fuel tw w = some (v, w1)) :
    ∃ bs, w1.trace = w.trace ++ (bs ++ [v]).map Event.rx ∧
      (∀ b ∈ bs, bitRead b BIT_WIP = 1) ∧ w.tk ≤ w1.tk ∧
      (bitRead v BIT_WIP = 1 → w.tk < w1.tk ∧
        (tw + WRITE_TIMEOUT_MS) % 2 ^ 32 ≤ dev.tick (w1.tk - 1) % 2 ^ 32) := by
  induction fuel generalizing w with
  | zero => simp [IsReady_poll] at h
  | succ f ih =>
    simp only [IsReady_poll] at h
    split_ifs at h with h1 h2
    · obtain ⟨bs, htr, hb, htk, hlast⟩ := ih _ h
      simp only [HAL_GetTick, EEPROM_SoftSPI_RecvByte] at htr htk hlast
      refine ⟨(dev.miso w.trace % 256) :: bs, ?_, ?_, by omega, ?_⟩
      · rw [htr]
        simp
      · intro b hb1
        rcases List.mem_cons.mp hb1 with rfl | hb1
        · exact h1
        · exact hb b hb1
      · intro hv
        obtain ⟨a1, a2⟩ := hlast hv
        exact ⟨by omega, a2⟩
    · simp only [Option.some.injEq, Prod.mk.injEq] at h
      obtain ⟨rfl, rfl⟩ := h
      refine ⟨[], by simp [HAL_GetTick, EEPROM_SoftSPI_RecvByte], by simp, by
        simp [HAL_GetTick, EEPROM_SoftSPI_RecvByte], ?_⟩
      intro _
      simp only [HAL_GetTick, EEPROM_SoftSPI_RecvByte] at h2 ⊢
      exact ⟨by omega, by simpa using Nat.le_of_not_lt h2⟩
    · simp only [Option.some.injEq, Prod.mk.injEq] at h
      obtain ⟨rfl, rfl⟩ := h
      refine ⟨[], by simp [EEPROM_SoftSPI_RecvByte], by simp, by
        simp [EEPROM_SoftSPI_RecvByte], ?_⟩
      intro hv
      exact absurd hv h1

/-- One status poll: a frame with the read-status opcode and the sampled
bytes, of which all but the last have WIP set; the status is decided by the
tick read after the frame. -/
theorem IsReady_run (dev : Device) (fuel : Nat) (w : World) (st : HAL_StatusTypeDef)
    (w1 : World) (h : EEPROM_SoftSPI_IsReady dev fuel w = some (st, w1)) :
    ∃ bs last, w1.trace = w.trace ++ pollFrame (bs ++ [last]) ∧
      (∀ b ∈ bs, bitRead b BIT_WIP = 1) ∧ w.tk + 2 ≤ w1.tk ∧
      (bitRead last BIT_WIP = 1 →
        (dev.tick w.tk % 2 ^ 32 + WRITE_TIMEOUT_MS) % 2 ^ 32 ≤ dev.tick (w1.tk - 2) % 2 ^ 32) ∧
      ((st = HAL_OK ∧ dev.tick (w1.tk - 1) % 2 ^ 32
          < (dev.tick w.tk % 2 ^ 32 + WRITE_TIMEOUT_MS) % 2 ^ 32) ∨
       (st = HAL_ERROR ∧ (dev.tick w.tk % 2 ^ 32 + WRITE_TIMEOUT_MS) % 2 ^ 32
          ≤ dev.tick (w1.tk - 1) % 2 ^ 32)) := by
  simp only [EEPROM_SoftSPI_IsReady] at h
  rcases hp : IsReady_poll dev fuel (HAL_GetTick dev w).1
      (EEPROM_SoftSPI_SendByte CMD_RDSR (EEP_SPI_CS_LOW (HAL_GetTick dev w).2)) with _ | ⟨v, w3⟩
  · simp [hp] at h
  · obtain ⟨bs, htr, hb, htk, hlast⟩ := IsReady_poll_run _ _ _ _ _ _ hp
    simp only [HAL_GetTick, EEP_SPI_CS_LOW, EEPROM_SoftSPI_SendByte] at htr htk hlast
    simp only [hp] at h
    have hw1 : w1 = (HAL_GetTick dev (EEP_SPI_CS_HIGH w3)).2 := by
      split_ifs at h <;> simp only [Option.some.injEq, Prod.mk.injEq] at h <;> exact h.2.symm
    have htk1 : w1.tk = w3.tk + 1 := by rw [hw1]; rfl
    have htr1 : w1.trace = w3.trace ++ [Event.CS_HIGH] := by rw [hw1]; rfl
    refine ⟨bs, v, ?_, hb, by omega, ?_, ?_⟩
    · rw [htr1, htr]
      simp [pollFrame, CMD_RDSR]
    · intro hv
      obtain ⟨a1, a2⟩ := hlast hv
      have e : w1.tk - 2 = w3.tk - 1 := by omega
      rw [e]
      exact a2
    · have e : w1.tk - 1 = w3.tk := by omega
      rw [e]
      split_ifs at h with hc
      · right
        simp only [Option.some.injEq, Prod.mk.injEq] at h
        exact ⟨h.1.symm, by simpa [HAL_GetTick, EEP_SPI_CS_HIGH] using hc⟩
      · left
        simp only [Option.some.injEq, Prod.mk.injEq] at h
        exact ⟨h.1.symm, by simpa [HAL_GetTick, EEP_SPI_CS_HIGH] using hc⟩


theorem countP_isRx_append_rx (h : List Event) (b : Nat) :
    (h ++ [Event.rx b]).countP Event.isRx = h.countP Event.isRx + 1 := by
  simp [List.countP_append, Event.isRx]

/-- On two devices that answer with byte sequences agreeing on bit 0, the
polling loop runs in lockstep. -/
theorem IsReady_poll_WIP_only (b1 b2 tick : Nat → Nat)
    (hb : ∀ i, bitRead (b1 i % 256) BIT_WIP = bitRead (b2 i % 256) BIT_WIP)
    (fuel tw : Nat) (w1 w2 : World) (htk : w1.tk = w2.tk)
    (hrx : w1.trace.countP Event.isRx = w2.trace.countP Event.isRx) :
    (IsReady_poll (statusStream b1 tick) fuel tw w1 = none ∧
      IsReady_poll (statusStream b2 tick) fuel tw w2 = none) ∨
    ∃ v1 u1 v2 u2, IsReady_poll (statusStream b1 tick) fuel tw w1 = some (v1, u1) ∧
      IsReady_poll (statusStream b2 tick) fuel tw w2 = some (v2, u2) ∧ u1.tk = u2.tk := by
  induction fuel generalizing w1 w2 with
  | zero => exact Or.inl ⟨rfl, rfl⟩
  | succ f ih =>
    have hbit := hb (w1.trace.countP Event.isRx)
    simp only [IsReady_poll, EEPROM_SoftSPI_RecvByte, HAL_GetTick, statusStream]
    rw [← hrx, ← htk, ← hbit]
    by_cases h1 : bitRead (b1 (w1.trace.countP Event.isRx) % 256) BIT_WIP = 1
    · simp only [h1, if_true]
      by_cases h2 : tick w1.tk % 2 ^ 32 < (tw + WRITE_TIMEOUT_MS) % 2 ^ 32
      · simp only [h2, if_true]
        have := ih
          { w1 with
            trace := w1.trace ++ [Event.rx (b1 (w1.trace.countP Event.isRx) % 256)]
            tk := w1.tk + 1 }
          { w2 with
            trace := w2.trace ++ [Event.rx (b2 (w1.trace.countP Event.isRx) % 256)]
            tk := w1.tk + 1 }
          rfl (by simp only [countP_isRx_append_rx, hrx])
        simpa [statusStream, HAL_GetTick] using this
      · simp only [h2, if_false]
        exact Or.inr ⟨_, _, _, _, rfl, rfl, rfl⟩
    · simp only [h1, if_false]
      exact Or.inr ⟨_, _, _, _, rfl, rfl, rfl⟩

/-- The status returned by a poll depends on the sampled bytes only through
their bit 0. -/
theorem IsReady_WIP_only (b1 b2 tick : Nat → Nat)
    (hb : ∀ i, bitRead (b1 i % 256) BIT_WIP = bitRead (b2 i % 256) BIT_WIP)
    (fuel : Nat) (w : World) :
    (EEPROM_SoftSPI_IsReady (statusStream b1 tick) fuel w).map Prod.fst
      = (EEPROM_SoftSPI_IsReady (statusStream b2 tick) fuel w).map Prod.fst := by
  have hp := IsReady_poll_WIP_only b1 b2 tick hb fuel (tick w.tk % 2 ^ 32)
    (EEPROM_SoftSPI_SendByte CMD_RDSR (EEP_SPI_CS_LOW { w with tk := w.tk + 1 }))
    (EEPROM_SoftSPI_SendByte CMD_RDSR (EEP_SPI_CS_LOW { w with tk := w.tk + 1 })) rfl rfl
  simp only [EEPROM_SoftSPI_IsReady, HAL_GetTick, statusStream] at hp ⊢
  rcases hp with ⟨e1, e2⟩ | ⟨v1, u1, v2, u2, e1, e2, e3⟩
  · rw [e1, e2]
  · rw [e1, e2]
    simp only [EEP_SPI_CS_HIGH, e3]
    split_ifs <;> rfl

theorem saturatingBusy_monotone :
    ∀ i j, i ≤ j → saturatingBusy.tick i % 2 ^ 32 ≤ saturatingBusy.tick j % 2 ^ 32 := by
  intro i j hij
  simp only [saturatingBusy]
  omega

/-- C11: for every device and every tick sequence whose successive readings
never decrease, whenever `EEPROM_SoftSPI_IsReady` returns, it returns `HAL_OK`
only if the last status byte it sampled has WIP clear; in particular, if every
sampled byte has WIP set it returns `HAL_ERROR`.  (That `tw + 20` does not wrap
is not needed.)  For devices that answer with a byte sequence, the status
returned depends on the bytes only through bit 0.  With an advancing clock the
poll returns. -/
theorem IsReady_ok_only_if_WIP_clear :
    (∀ (dev : Device) (fuel : Nat) (w : World) (st : HAL_StatusTypeDef) (w1 : World),
      (∀ i j, i ≤ j → dev.tick i % 2 ^ 32 ≤ dev.tick j % 2 ^ 32) →
      EEPROM_SoftSPI_IsReady dev fuel w = some (st, w1) →
      ∃ bs last, w1.trace = w.trace ++ pollFrame (bs ++ [last]) ∧
        (st = HAL_OK → bitRead last BIT_WIP = 0) ∧
        ((∀ b ∈ bs ++ [last], bitRead b BIT_WIP = 1) → st = HAL_ERROR)) ∧
    (∀ (bytes1 bytes2 tick : Nat → Nat) (fuel : Nat) (w : World),
      (∀ i, bitRead (bytes1 i % 256) BIT_WIP = bitRead (bytes2 i % 256) BIT_WIP) →
      (EEPROM_SoftSPI_IsReady (statusStream bytes1 tick) fuel w).map Prod.fst
        = (EEPROM_SoftSPI_IsReady (statusStream bytes2 tick) fuel w).map Prod.fst) ∧
    (∀ (dev : Device) (w : World), ClockAdvances dev →
      ∃ fuel r, EEPROM_SoftSPI_IsReady dev fuel w = some r) := by
  refine ⟨?_, ?_, ?_⟩
  · intro dev fuel w st w1 hmono h
    obtain ⟨bs, last, htr, -, htk, hlast, hst⟩ := IsReady_run dev fuel w st w1 h
    have key : st = HAL_OK → bitRead last BIT_WIP = 0 := by
      intro hok
      rcases hst with ⟨-, hlt⟩ | ⟨herr, -⟩
      · by_contra hne
        have h1 : bitRead last BIT_WIP = 1 := by
          rw [bitRead_WIP] at hne ⊢
          omega
        have h2 := hlast h1
        have h3 := hmono (w1.tk - 2) (w1.tk - 1) (by omega)
        omega
      · rw [herr] at hok
        exact absurd hok (by decide)
    refine ⟨bs, last, htr, key, fun hall => ?_⟩
    rcases hst with ⟨hok, -⟩ | ⟨herr, -⟩
    · have := key hok
      have h1 := hall last (by simp)
      omega
    · exact herr
  · intro bytes1 bytes2 tick fuel w hb
    exact IsReady_WIP_only bytes1 bytes2 tick hb fuel w
  · intro dev w hclk
    obtain ⟨k, r, hk⟩ := (IsReady_converges dev hclk w).exists_some
    exact ⟨k, r, hk⟩

/-- C11 on a device that is busy at every poll (status byte 3) behind a
monotone clock: the poll returns `HAL_ERROR`; and the status bytes `0x01` and
`0xFF` give the same result. -/
theorem IsReady_ok_only_if_WIP_clear_witness :
    (∀ i j, i ≤ j → saturatingBusy.tick i % 2 ^ 32 ≤ saturatingBusy.tick j % 2 ^ 32) ∧
    (∃ w1, EEPROM_SoftSPI_IsReady saturatingBusy 20 w0 = some (HAL_ERROR, w1)) ∧
    (EEPROM_SoftSPI_IsReady (statusStream (fun _ => 0x01) (fun n => n)) 20 w0).map Prod.fst
      = (EEPROM_SoftSPI_IsReady (statusStream (fun _ => 0xFF) (fun n => n)) 20 w0).map
          Prod.fst := by
  refine ⟨saturatingBusy_monotone, ?_, ?_⟩
  · obtain ⟨⟨st, w1⟩, h⟩ := Option.isSome_iff_exists.mp
      (show (EEPROM_SoftSPI_IsReady saturatingBusy 20 w0).isSome = true by decide)
    obtain ⟨bs, last, htr, -, hall⟩ :=
      IsReady_ok_only_if_WIP_clear.1 saturatingBusy 20 w0 st w1 saturatingBusy_monotone h
    have hst : (EEPROM_SoftSPI_IsReady saturatingBusy 20 w0).map Prod.fst = some HAL_ERROR := by
      decide
    rw [h] at hst
    simp only [Option.map_some', Option.some.injEq] at hst
    subst hst
    exact ⟨w1, h⟩
  · exact IsReady_ok_only_if_WIP_clear.2.1 (fun _ => 0x01) (fun _ => 0xFF) (fun n => n) 20 w0
      (fun _ => by simp only [bitRead, BIT_WIP]; decide)

/-- An idle device behind a slow clock: the one status byte sampled has
WIP = 0, the polling stops, and `EEPROM_SoftSPI_IsReady` returns `HAL_ERROR`
because the tick read after the loop is 20, not below `tw + 20 = 20`. -/
theorem IsReady_idle_device_times_out :
    (EEPROM_SoftSPI_IsReady lateDevice 1 w0).map (fun r => (r.1, r.2.trace))
      = some (HAL_ERROR, [Event.CS_LOW, Event.tx 0x05, Event.rx 0, Event.CS_HIGH]) ∧
    bitRead 0 BIT_WIP = 0 := by
  decide

/-- What decides the result of `EEPROM_SoftSPI_IsReady` when it returns:
sampling a status byte with WIP = 0 stops the polling (every sampled byte but
the last has WIP set) and closes the frame; when `tw + 20` does not wrap, the
status is `HAL_OK` exactly when the tick read after the loop is below
`tw + 20`, and `HAL_ERROR` otherwise. -/
theorem IsReady_stops_when_idle_status_by_tick (dev : Device) (fuel : Nat) (w : World)
    (st : HAL_StatusTypeDef) (w1 : World)
    (hnowrap : dev.tick w.tk % 2 ^ 32 + WRITE_TIMEOUT_MS < 2 ^ 32)
    (h : EEPROM_SoftSPI_IsReady dev fuel w = some (st, w1)) :
    ∃ bs last, w1.trace = w.trace ++ pollFrame (bs ++ [last]) ∧
      (∀ b ∈ bs, bitRead b BIT_WIP = 1) ∧ w.tk + 2 ≤ w1.tk ∧
      (st = HAL_OK ↔
        dev.tick (w1.tk - 1) % 2 ^ 32 < dev.tick w.tk % 2 ^ 32 + WRITE_TIMEOUT_MS) ∧
      (st = HAL_OK ∨ st = HAL_ERROR) := by
  obtain ⟨bs, last, htr, hb, htk, -, hst⟩ := IsReady_run dev fuel w st w1 h
  rw [Nat.mod_eq_of_lt hnowrap] at hst
  refine ⟨bs, last, htr, hb, htk, ?_, ?_⟩
  · rcases hst with ⟨hok, hlt⟩ | ⟨herr, hge⟩
    · exact ⟨fun _ => hlt, fun _ => hok⟩
    · constructor
      · intro hok
        rw [herr] at hok
        exact absurd hok (by decide)
      · intro hlt
        omega
  · rcases hst with ⟨hok, -⟩ | ⟨herr, -⟩
    · exact Or.inl hok
    · exact Or.inr herr

/-- On the idle device behind the slow clock one byte is sampled and the
status is `HAL_ERROR`, as the tick test says. -/
theorem IsReady_stops_when_idle_status_by_tick_witness :
    lateDevice.tick w0.tk % 2 ^ 32 + WRITE_TIMEOUT_MS < 2 ^ 32 ∧
    ∃ st w1, EEPROM_SoftSPI_IsReady lateDevice 1 w0 = some (st, w1) ∧
      (st = HAL_OK ↔
        lateDevice.tick (w1.tk - 1) % 2 ^ 32 < lateDevice.tick w0.tk % 2 ^ 32 + WRITE_TIMEOUT_MS) := by
  obtain ⟨⟨st, w1⟩, h⟩ := Option.isSome_iff_exists.mp
    (show (EEPROM_SoftSPI_IsReady lateDevice 1 w0).isSome = true by decide)
  obtain ⟨bs, last, -, -, -, h1, -⟩ :=
    IsReady_stops_when_idle_status_by_tick lateDevice 1 w0 st w1 (by decide) h
  exact ⟨by decide, st, w1, h, h1⟩


/-! ## Chip-select framing of every software-SPI routine -/

theorem chipSelect_append (s : Bool) (xs ys : List Event) :
    chipSelect s (xs ++ ys) = (chipSelect s xs).bind (fun s1 => chipSelect s1 ys) := by
  induction xs generalizing s with
  | nil => simp [chipSelect]
  | cons e xs ih =>
    cases s <;> cases e <;> simp [chipSelect, ih]

theorem chipSelect_bytes (bs : List Event) (h : ∀ e ∈ bs, e.isByte = true) :
    chipSelect true bs = some true := by
  induction bs with
  | nil => rfl
  | cons e bs ih =>
    have he := h e (List.mem_cons_self _ _)
    have hr := ih (fun e1 h1 => h e1 (List.mem_cons_of_mem _ h1))
    cases e <;> simp [chipSelect, Event.isByte] at he ⊢ <;> exact hr

/-- One frame: chip select low, bytes, chip select high. -/
theorem chipSelect_frame (bs : List Event) (h : ∀ e ∈ bs, e.isByte = true) :
    chipSelect false (Event.CS_LOW :: (bs ++ [Event.CS_HIGH])) = some false := by
  simp only [chipSelect, chipSelect_append, chipSelect_bytes bs h, Option.some_bind]

theorem FramedRun.refl (w : World) : FramedRun w w := ⟨[], by simp, rfl⟩

theorem FramedRun.of_trace_eq {w w1 : World} (h : w1.trace = w.trace) : FramedRun w w1 :=
  ⟨[], by simp [h], rfl⟩

theorem FramedRun.trans {w w1 w2 : World} (h1 : FramedRun w w1) (h2 : FramedRun w1 w2) :
    FramedRun w w2 := by
  obtain ⟨e1, t1, c1⟩ := h1
  obtain ⟨e2, t2, c2⟩ := h2
  refine ⟨e1 ++ e2, by rw [t2, t1, List.append_assoc], ?_⟩
  rw [chipSelect_append, c1]
  exact c2

theorem FramedRun.frame {w w1 : World} (bs : List Event) (h : ∀ e ∈ bs, e.isByte = true)
    (ht : w1.trace = w.trace ++ Event.CS_LOW :: (bs ++ [Event.CS_HIGH])) : FramedRun w w1 :=
  ⟨_, ht, chipSelect_frame bs h⟩

theorem pollFrame_framed {w w1 : World} (bs : List Nat)
    (ht : w1.trace = w.trace ++ pollFrame bs) : FramedRun w w1 := by
  apply FramedRun.frame (Event.tx CMD_RDSR :: bs.map Event.rx)
  · intro e he
    rcases List.mem_cons.mp he with rfl | he
    · rfl
    · obtain ⟨b, -, rfl⟩ := List.mem_map.mp he
      rfl
  · rw [ht]
    simp [pollFrame]

theorem IsReady_framed (dev : Device) (fuel : Nat) (w : World) (st : HAL_StatusTypeDef)
    (w1 : World) (h : EEPROM_SoftSPI_IsReady dev fuel w = some (st, w1)) : FramedRun w w1 := by
  obtain ⟨-, -, -, bs, -, htr⟩ := IsReady_spec dev fuel w st w1 h
  exact pollFrame_framed bs htr

theorem IsReady_retry_framed (dev : Device) (fuel : Nat) (w : World) (st : HAL_StatusTypeDef)
    (w1 : World) (h : IsReady_retry dev fuel w = some (st, w1)) : FramedRun w w1 := by
  obtain ⟨-, -, -, bs, -, htr⟩ := IsReady_retry_spec dev fuel w st w1 h
  rcases htr with htr | ⟨cs, -, htr⟩
  · exact pollFrame_framed bs htr
  · exact FramedRun.trans
      (@pollFrame_framed w { w with trace := w.trace ++ pollFrame bs } bs rfl)
      (pollFrame_framed cs htr)

theorem WritePage_frames_framed (p a n : Nat) (w : World) :
    FramedRun w (WritePage_frames p a n w) := by
  refine ⟨[Event.CS_LOW, Event.tx (CMD_WREN % 256), Event.CS_HIGH] ++
    (Event.CS_LOW :: (([Event.tx (CMD_WRITE % 256), Event.tx ((a >>> 8 % 256 &&& 0xFF) % 256),
        Event.tx ((a &&& 0xFF) % 256 % 256)] ++ (payloadBytes w.mem p n).map Event.tx)
      ++ [Event.CS_HIGH])) ++
    [Event.CS_LOW, Event.tx (CMD_WRDI % 256), Event.CS_HIGH], ?_, ?_⟩
  · simp [WritePage_frames, WritePage_payload_eq, EEP_SPI_CS_LOW, EEP_SPI_CS_HIGH,
      EEPROM_SoftSPI_SendByte]
  · rw [chipSelect_append, chipSelect_append]
    have h1 : chipSelect false [Event.CS_LOW, Event.tx (CMD_WREN % 256), Event.CS_HIGH]
        = some false := rfl
    have h2 := chipSelect_frame
      ([Event.tx (CMD_WRITE % 256), Event.tx ((a >>> 8 % 256 &&& 0xFF) % 256),
        Event.tx ((a &&& 0xFF) % 256 % 256)] ++ (payloadBytes w.mem p n).map Event.tx)
      (by
        intro e he
        rcases List.mem_append.mp he with he | he
        · simp only [List.mem_cons, List.mem_singleton, List.not_mem_nil, or_false] at he
          rcases he with rfl | rfl | rfl <;> rfl
        · obtain ⟨b, -, rfl⟩ := List.mem_map.mp he
          rfl)
    rw [h1, Option.some_bind, h2, Option.some_bind]
    rfl

theorem WritePage_framed (dev : Device) (fuel : Nat) (b : Option Nat) (a n : Nat) (w : World)
    (st : HAL_StatusTypeDef) (w1 : World)
    (h : EEPROM_SoftSPI_WritePage dev fuel b a n w = some (st, w1)) : FramedRun w w1 := by
  by_cases hc : n = 0 ∨ b = none
  · rw [WritePage_rejected dev fuel b a n w hc] at h
    simp only [Option.some.injEq, Prod.mk.injEq] at h
    obtain ⟨-, rfl⟩ := h
    exact FramedRun.of_trace_eq rfl
  · have hn : n ≠ 0 := fun h0 => hc (Or.inl h0)
    obtain ⟨p, rfl⟩ : ∃ p, b = some p := by
      rcases b with _ | p
      · exact absurd (Or.inr rfl) hc
      · exact ⟨p, rfl⟩
    simp only [EEPROM_SoftSPI_WritePage, WritePage_body, hn, if_false] at h
    rcases hg : IsReady_retry dev fuel w with _ | ⟨s1, w2⟩
    · simp [hg, orReturn, recordPage] at h
    · have hf := IsReady_retry_framed dev fuel w s1 w2 hg
      rw [hg, orReturn_some] at h
      split_ifs at h
      · simp only [recordPage, Option.some.injEq, Prod.mk.injEq] at h
        obtain ⟨-, rfl⟩ := h
        exact hf.trans (FramedRun.of_trace_eq rfl)
      · simp only [recordPage, Option.some.injEq, Prod.mk.injEq] at h
        obtain ⟨-, rfl⟩ := h
        exact hf.trans ((WritePage_frames_framed p a n w2).trans (FramedRun.of_trace_eq rfl))

theorem runPages_framed (dev : Device) (fuel : Nat) (cs : List Chunk) (w : World)
    (st : HAL_StatusTypeDef) (w1 : World)
    (h : runPages (EEPROM_SoftSPI_WritePage dev fuel) cs w = some (st, w1)) :
    FramedRun w w1 := by
  induction cs generalizing w with
  | nil =>
    simp only [runPages, Option.some.injEq, Prod.mk.injEq] at h
    obtain ⟨-, rfl⟩ := h
    exact FramedRun.refl _
  | cons c cs ih =>
    simp only [runPages] at h
    rcases hwp : EEPROM_SoftSPI_WritePage dev fuel c.buffer c.address c.length w with
      _ | ⟨s1, w2⟩
    · simp [hwp, orReturn] at h
    · have hf := WritePage_framed dev fuel _ _ _ w s1 w2 hwp
      rw [hwp, orReturn_some] at h
      split_ifs at h
      · simp only [Option.some.injEq, Prod.mk.injEq] at h
        obtain ⟨-, rfl⟩ := h
        exact hf
      · exact hf.trans (ih w2 h)

theorem WriteBuffer_framed (dev : Device) (fuel : Nat) (b : Option Nat) (a n : Nat)
    (ha : a < 65536) (w : World) (st : HAL_StatusTypeDef) (w1 : World)
    (h : EEPROM_SoftSPI_WriteBuffer dev fuel b a n w = some (st, w1)) : FramedRun w w1 := by
  simp only [EEPROM_SoftSPI_WriteBuffer] at h
  rcases hg : IsReady_retry dev fuel w with _ | ⟨s1, w2⟩
  · simp [hg, orReturn] at h
  · have hf := IsReady_retry_framed dev fuel w s1 w2 hg
    rw [hg, orReturn_some] at h
    split_ifs at h
    · simp only [Option.some.injEq, Prod.mk.injEq] at h
      obtain ⟨-, rfl⟩ := h
      exact hf
    · rw [WriteBuffer_pages_eq_runPages _ b a n ha] at h
      exact hf.trans (runPages_framed dev fuel _ w2 st w1 h)


theorem recvBytes_length (dev : Device) (n : Nat) (h : List Event) :
    (recvBytes dev n h).length = n := by
  induction n generalizing h with
  | zero => rfl
  | succ n ih => simp [recvBytes, ih]

/-- The read loop shifts `n` bytes in and stores the `i`-th one at
`pBuffer + i`; nothing else changes. -/
theorem ReadBuffer_loop_spec (dev : Device) (n p : Nat) (w : World) :
    (ReadBuffer_loop dev n p w).trace = w.trace ++ (recvBytes dev n w.trace).map Event.rx ∧
    (ReadBuffer_loop dev n p w).tk = w.tk ∧
    (ReadBuffer_loop dev n p w).pages = w.pages ∧
    (∀ i, i < n → (ReadBuffer_loop dev n p w).mem (p + i) = (recvBytes dev n w.trace).getD i 0) ∧
    (∀ x, x < p ∨ p + n ≤ x → (ReadBuffer_loop dev n p w).mem x = w.mem x) := by
  induction n generalizing p w with
  | zero => simp [ReadBuffer_loop, recvBytes]
  | succ n ih =>
    obtain ⟨h1, h2, h3, h4, h5⟩ := ih (p + 1)
      { (EEPROM_SoftSPI_RecvByte dev w).2 with
        mem := Function.update (EEPROM_SoftSPI_RecvByte dev w).2.mem p
          (EEPROM_SoftSPI_RecvByte dev w).1 }
    simp only [EEPROM_SoftSPI_RecvByte] at h1 h2 h3 h4 h5
    simp only [ReadBuffer_loop, EEPROM_SoftSPI_RecvByte, recvBytes]
    refine ⟨by rw [h1]; simp, h2, h3, ?_, ?_⟩
    · intro i hi
      rcases Nat.eq_zero_or_pos i with rfl | hpos
      · have := h5 p (Or.inl (by omega))
        simpa using this
      · obtain ⟨j, rfl⟩ : ∃ j, i = j + 1 := ⟨i - 1, by omega⟩
        have := h4 j (by omega)
        have e : p + (j + 1) = p + 1 + j := by omega
        rw [e, this]
        simp
    · intro x hx
      rw [h5 x (by omega)]
      have : x ≠ p := by omega
      simp [Function.update, this]

theorem ReadBuffer_framed (dev : Device) (b : Option Nat) (a n : Nat) (w : World) :
    FramedRun w (EEPROM_SoftSPI_ReadBuffer dev b a n w).2 := by
  rcases b with _ | p
  · exact FramedRun.refl _
  · by_cases hn : n = 0
    · simp only [EEPROM_SoftSPI_ReadBuffer, hn, if_true]
      exact FramedRun.refl _
    · simp only [EEPROM_SoftSPI_ReadBuffer, hn, if_false]
      apply FramedRun.frame
        ([Event.tx (CMD_READ % 256), Event.tx ((a >>> 8 % 256 &&& 0xFF) % 256),
          Event.tx ((a &&& 0xFF) % 256 % 256)] ++
          (recvBytes dev n (w.trace ++ [Event.CS_LOW, Event.tx (CMD_READ % 256),
            Event.tx ((a >>> 8 % 256 &&& 0xFF) % 256),
            Event.tx ((a &&& 0xFF) % 256 % 256)])).map Event.rx)
      · intro e he
        rcases List.mem_append.mp he with he | he
        · simp only [List.mem_cons, List.mem_singleton, List.not_mem_nil, or_false] at he
          rcases he with rfl | rfl | rfl <;> rfl
        · obtain ⟨x, -, rfl⟩ := List.mem_map.mp he
          rfl
      · simp [EEP_SPI_CS_HIGH, (ReadBuffer_loop_spec dev n p _).1, EEP_SPI_CS_LOW,
          EEPROM_SoftSPI_SendByte]

theorem ReadByte_framed (dev : Device) (a p : Nat) (w : World) :
    FramedRun w (EEPROM_SoftSPI_ReadByte dev a p w).2 := by
  refine ⟨[Event.CS_LOW, Event.tx (CMD_READ % 256), Event.tx ((a >>> 8 % 256 &&& 0xFF) % 256),
    Event.tx ((a % 256 &&& 0xFF) % 256),
    Event.rx (dev.miso (w.trace ++ [Event.CS_LOW, Event.tx (CMD_READ % 256),
      Event.tx ((a >>> 8 % 256 &&& 0xFF) % 256), Event.tx ((a % 256 &&& 0xFF) % 256)]) % 256),
    Event.CS_HIGH], ?_, rfl⟩
  simp [EEPROM_SoftSPI_ReadByte, EEP_SPI_CS_LOW, EEP_SPI_CS_HIGH, EEPROM_SoftSPI_SendByte,
    EEPROM_SoftSPI_RecvByte]

theorem WriteByte_framed (dev : Device) (fuel a d : Nat) (w : World) (st : HAL_StatusTypeDef)
    (w1 : World) (h : EEPROM_SoftSPI_WriteByte dev fuel a d w = some (st, w1)) :
    FramedRun w w1 := by
  simp only [EEPROM_SoftSPI_WriteByte] at h
  rcases hg : IsReady_retry dev fuel w with _ | ⟨s1, w2⟩
  · simp [hg, orReturn] at h
  · have hf := IsReady_retry_framed dev fuel w s1 w2 hg
    rw [hg, orReturn_some] at h
    split_ifs at h
    · simp only [Option.some.injEq, Prod.mk.injEq] at h
      obtain ⟨-, rfl⟩ := h
      exact hf
    · simp only [Option.some.injEq, Prod.mk.injEq] at h
      obtain ⟨-, rfl⟩ := h
      refine hf.trans ⟨[Event.CS_LOW, Event.tx (CMD_WREN % 256), Event.CS_HIGH, Event.CS_LOW,
        Event.tx (CMD_WRITE % 256), Event.tx ((a >>> 8 % 256 &&& 0xFF) % 256),
        Event.tx ((a % 256 &&& 0xFF) % 256), Event.tx (d % 256), Event.CS_HIGH, Event.CS_LOW,
        Event.tx (CMD_WRDI % 256), Event.CS_HIGH], ?_, rfl⟩
      simp [EEP_SPI_CS_LOW, EEP_SPI_CS_HIGH, EEPROM_SoftSPI_SendByte]

theorem WriteStatusRegister_framed (dev : Device) (fuel v : Nat) (w : World)
    (st : HAL_StatusTypeDef) (w1 : World)
    (h : EEPROM_SoftSPI_WriteStatusRegister dev fuel v w = some (st, w1)) :
    FramedRun w w1 := by
  simp only [EEPROM_SoftSPI_WriteStatusRegister] at h
  rcases hg : IsReady_retry dev fuel w with _ | ⟨s1, w2⟩
  · simp [hg, orReturn] at h
  · have hf := IsReady_retry_framed dev fuel w s1 w2 hg
    rw [hg, orReturn_some] at h
    split_ifs at h
    · simp only [Option.some.injEq, Prod.mk.injEq] at h
      obtain ⟨-, rfl⟩ := h
      exact hf
    · simp only [Option.some.injEq, Prod.mk.injEq] at h
      obtain ⟨-, rfl⟩ := h
      refine hf.trans ⟨[Event.CS_LOW, Event.tx (CMD_WREN % 256), Event.CS_HIGH, Event.CS_LOW,
        Event.tx (CMD_WRSR % 256), Event.tx (v % 256), Event.CS_HIGH, Event.CS_LOW,
        Event.tx (CMD_WRDI % 256), Event.CS_HIGH], ?_, rfl⟩
      simp [EEP_SPI_CS_LOW, EEP_SPI_CS_HIGH, EEPROM_SoftSPI_SendByte]

theorem WriteByte_converges (dev : Device) (hclk : ClockAdvances dev) (a d : Nat) (w : World) :
    Converges (fun m => EEPROM_SoftSPI_WriteByte dev m a d w) := by
  simp only [EEPROM_SoftSPI_WriteByte]
  exact Converges.orReturn (IsReady_retry_converges dev hclk w) (fun s => Converges.const _)

theorem WriteStatusRegister_converges (dev : Device) (hclk : ClockAdvances dev) (v : Nat)
    (w : World) : Converges (fun m => EEPROM_SoftSPI_WriteStatusRegister dev m v w) := by
  simp only [EEPROM_SoftSPI_WriteStatusRegister]
  exact Converges.orReturn (IsReady_retry_converges dev hclk w) (fun s => Converges.const _)


/-- C13: chip-select framing is balanced on every path.  For every device,
every tick sequence and all arguments, the bus events added by each
software-SPI routine (`IsReady`, `WriteByte`, `ReadByte`,
`WriteStatusRegister`, `ReadBuffer`, `WritePage`, `WriteBuffer`) are well
framed: chip-select edges alternate low, high, ... starting with low, every
byte sent or received lies between a low and the next high, and chip select is
high when the routine returns, on error returns too.  The routines that poll
the status return when the clock advances; the two read routines always
return. -/
theorem chip_select_balanced (dev : Device) (w : World) :
    (∀ fuel r, EEPROM_SoftSPI_IsReady dev fuel w = some r → FramedRun w r.2) ∧
    (∀ fuel RegAdd RegData r,
      EEPROM_SoftSPI_WriteByte dev fuel RegAdd RegData w = some r → FramedRun w r.2) ∧
    (∀ RegAdd pData, FramedRun w (EEPROM_SoftSPI_ReadByte dev RegAdd pData w).2) ∧
    (∀ fuel regval r,
      EEPROM_SoftSPI_WriteStatusRegister dev fuel regval w = some r → FramedRun w r.2) ∧
    (∀ pBuffer ReadAddr n, FramedRun w (EEPROM_SoftSPI_ReadBuffer dev pBuffer ReadAddr n w).2) ∧
    (∀ fuel pBuffer WriteAddr n r,
      EEPROM_SoftSPI_WritePage dev fuel pBuffer WriteAddr n w = some r → FramedRun w r.2) ∧
    (∀ fuel pBuffer WriteAddr n r, WriteAddr < 65536 →
      EEPROM_SoftSPI_WriteBuffer dev fuel pBuffer WriteAddr n w = some r → FramedRun w r.2) ∧
    (ClockAdvances dev →
      (∃ fuel r, EEPROM_SoftSPI_IsReady dev fuel w = some r) ∧
      (∀ RegAdd RegData, ∃ fuel r,
        EEPROM_SoftSPI_WriteByte dev fuel RegAdd RegData w = some r) ∧
      (∀ regval, ∃ fuel r, EEPROM_SoftSPI_WriteStatusRegister dev fuel regval w = some r) ∧
      (∀ pBuffer WriteAddr n, ∃ fuel r,
        EEPROM_SoftSPI_WritePage dev fuel pBuffer WriteAddr n w = some r) ∧
      (∀ pBuffer WriteAddr n, WriteAddr < 65536 → ∃ fuel r,
        EEPROM_SoftSPI_WriteBuffer dev fuel pBuffer WriteAddr n w = some r)) := by
  refine ⟨?_, ?_, ?_, ?_, ?_, ?_, ?_, ?_⟩
  · rintro fuel ⟨st, w1⟩ h
    exact IsReady_framed dev fuel w st w1 h
  · rintro fuel a d ⟨st, w1⟩ h
    exact WriteByte_framed dev fuel a d w st w1 h
  · intro a p
    exact ReadByte_framed dev a p w
  · rintro fuel v ⟨st, w1⟩ h
    exact WriteStatusRegister_framed dev fuel v w st w1 h
  · intro b a n
    exact ReadBuffer_framed dev b a n w
  · rintro fuel b a n ⟨st, w1⟩ h
    exact WritePage_framed dev fuel b a n w st w1 h
  · rintro fuel b a n ⟨st, w1⟩ ha h
    exact WriteBuffer_framed dev fuel b a n ha w st w1 h
  · intro hclk
    refine ⟨?_, ?_, ?_, ?_, ?_⟩
    · obtain ⟨k, r, hk⟩ := (IsReady_converges dev hclk w).exists_some
      exact ⟨k, r, hk⟩
    · intro a d
      obtain ⟨k, r, hk⟩ := (WriteByte_converges dev hclk a d w).exists_some
      exact ⟨k, r, hk⟩
    · intro v
      obtain ⟨k, r, hk⟩ := (WriteStatusRegister_converges dev hclk v w).exists_some
      exact ⟨k, r, hk⟩
    · intro b a n
      obtain ⟨k, r, hk⟩ := (WritePage_converges dev hclk b a n w).exists_some
      exact ⟨k, r, hk⟩
    · intro b a n ha
      obtain ⟨k, r, hk⟩ := (WriteBuffer_converges dev hclk b a n ha w).exists_some
      exact ⟨k, r, hk⟩

/-- C13 on two runs: a 50-byte write at address 20 on an idle device with a
running clock, and a one-byte write on a device that is busy at every poll
(the error return after two timed-out polls). -/
theorem chip_select_balanced_witness :
    ClockAdvances tickingDevice ∧ ClockAdvances busyDevice ∧
    (∃ fuel r, EEPROM_SoftSPI_WriteBuffer tickingDevice fuel (some 0) 20 50 w0 = some r ∧
      FramedRun w0 r.2) ∧
    (∃ fuel r, EEPROM_SoftSPI_WriteByte busyDevice fuel 7 9 w0 = some r ∧ FramedRun w0 r.2) := by
  refine ⟨tickingDevice_clock, busyDevice_clock, ?_, ?_⟩
  · obtain ⟨fuel, r, h⟩ :=
      ((chip_select_balanced tickingDevice w0).2.2.2.2.2.2.2 tickingDevice_clock).2.2.2.2
        (some 0) 20 50 (by decide)
    exact ⟨fuel, r, h,
      (chip_select_balanced tickingDevice w0).2.2.2.2.2.2.1 fuel (some 0) 20 50 r (by decide) h⟩
  · obtain ⟨fuel, r, h⟩ :=
      ((chip_select_balanced busyDevice w0).2.2.2.2.2.2.2 busyDevice_clock).2.1 7 9
    exact ⟨fuel, r, h, (chip_select_balanced busyDevice w0).2.1 fuel 7 9 r h⟩

/-- C15: for every 16-bit `ReadAddr`, every non-null buffer and every
`n > 0`, `EEPROM_SoftSPI_ReadBuffer` returns `HAL_OK` and adds one chip-select
frame to the bus: the bytes `0x03`, `ReadAddr / 256`, `ReadAddr mod 256` sent,
then exactly `n` bytes shifted in (those the device supplies); the `i`-th
received byte is stored at `pBuffer[i]` for `i < n`, RAM outside
`pBuffer[0..n)` is unchanged, and no tick is read. -/
theorem ReadBuffer_one_frame (dev : Device) (p ReadAddr n : Nat) (w : World)
    (ha : ReadAddr < 65536) (hn : 0 < n) :
    (EEPROM_SoftSPI_ReadBuffer dev (some p) ReadAddr n w).1 = HAL_OK ∧
    ∃ bs : List Nat, bs.length = n ∧
      bs = recvBytes dev n (w.trace ++ [Event.CS_LOW, Event.tx 0x03,
        Event.tx (ReadAddr / 256), Event.tx (ReadAddr % 256)]) ∧
      (EEPROM_SoftSPI_ReadBuffer dev (some p) ReadAddr n w).2.trace =
        w.trace ++ ([Event.CS_LOW, Event.tx 0x03, Event.tx (ReadAddr / 256),
          Event.tx (ReadAddr % 256)] ++ bs.map Event.rx ++ [Event.CS_HIGH]) ∧
      (∀ i, i < n →
        (EEPROM_SoftSPI_ReadBuffer dev (some p) ReadAddr n w).2.mem (p + i) = bs.getD i 0) ∧
      (∀ x, x < p ∨ p + n ≤ x →
        (EEPROM_SoftSPI_ReadBuffer dev (some p) ReadAddr n w).2.mem x = w.mem x) ∧
      (EEPROM_SoftSPI_ReadBuffer dev (some p) ReadAddr n w).2.tk = w.tk ∧
      ReadAddr / 256 * 256 + ReadAddr % 256 = ReadAddr := by
  have hn0 : n ≠ 0 := by omega
  have e1 : (ReadAddr >>> 8 % 256 &&& 0xFF) % 256 = ReadAddr / 256 := by
    rw [and_0xFF, Nat.shiftRight_eq_div_pow]
    omega
  have e2 : (ReadAddr &&& 0xFF) % 256 % 256 = ReadAddr % 256 := by
    rw [and_0xFF]
    omega
  have htr : (EEPROM_SoftSPI_SendByte ((ReadAddr &&& 0xFF) % 256)
        (EEPROM_SoftSPI_SendByte (ReadAddr >>> 8 % 256 &&& 0xFF)
          (EEPROM_SoftSPI_SendByte CMD_READ (EEP_SPI_CS_LOW w)))).trace
      = w.trace ++ [Event.CS_LOW, Event.tx 0x03, Event.tx (ReadAddr / 256),
          Event.tx (ReadAddr % 256)] := by
    simp [EEPROM_SoftSPI_SendByte, EEP_SPI_CS_LOW, e1, e2, CMD_READ]
  obtain ⟨h1, h2, -, h4, h5⟩ := ReadBuffer_loop_spec dev n p
    (EEPROM_SoftSPI_SendByte ((ReadAddr &&& 0xFF) % 256)
      (EEPROM_SoftSPI_SendByte (ReadAddr >>> 8 % 256 &&& 0xFF)
        (EEPROM_SoftSPI_SendByte CMD_READ (EEP_SPI_CS_LOW w))))
  rw [htr] at h1 h4
  simp only [EEPROM_SoftSPI_ReadBuffer, hn0, if_false]
  refine ⟨trivial, _, recvBytes_length dev n _, rfl, ?_, ?_, ?_, ?_, by omega⟩
  · simp only [EEP_SPI_CS_HIGH, h1]
    simp
  · intro i hi
    exact h4 i hi
  · intro x hx
    exact h5 x hx
  · exact h2

/-- C15 on a device that echoes the number of bytes it has shifted out: three
bytes read from address `0x0123` into `pBuffer = 10`. -/
theorem ReadBuffer_one_frame_witness :
    0x0123 < 65536 ∧ 0 < 3 ∧
    (EEPROM_SoftSPI_ReadBuffer (statusStream (fun i => i + 7) (fun _ => 0))
        (some 10) 0x0123 3 w0).1 = HAL_OK ∧
    ∃ bs : List Nat, bs.length = 3 ∧
      (EEPROM_SoftSPI_ReadBuffer (statusStream (fun i => i + 7) (fun _ => 0))
        (some 10) 0x0123 3 w0).2.trace =
        w0.trace ++ ([Event.CS_LOW, Event.tx 0x03, Event.tx (0x0123 / 256),
          Event.tx (0x0123 % 256)] ++ bs.map Event.rx ++ [Event.CS_HIGH]) := by
  obtain ⟨h1, bs, h2, -, h3, -⟩ :=
    ReadBuffer_one_frame (statusStream (fun i => i + 7) (fun _ => 0)) 10 0x0123 3 w0
      (by decide) (by decide)
  exact ⟨by decide, by decide, h1, bs, h2, h3⟩


/-- C16: bounded readiness retry before a write.  For every device, a call of
`EEPROM_SoftSPI_WritePage` with a non-null buffer and `n > 0` polls at most
twice, the second time only if the first poll did not return `HAL_OK`:
if the first `EEPROM_SoftSPI_IsReady` returns `HAL_OK`, or the first fails and
the second returns `HAL_OK`, the call goes on to the write sequence (the three
frames follow, no further tick is read) and returns `HAL_OK`; if both fail it
returns `HAL_ERROR` right after the second poll, and the only opcode it has
sent is read-status: no `0x06`, `0x02` or `0x04`.  With an advancing clock the
call returns. -/
theorem WritePage_bounded_retry (dev : Device) (fuel p WriteAddr n : Nat) (w : World)
    (ha : WriteAddr < 65536) (hn : 0 < n) :
    (∀ w1, EEPROM_SoftSPI_IsReady dev fuel w = some (HAL_OK, w1) →
      ∃ w3, EEPROM_SoftSPI_WritePage dev fuel (some p) WriteAddr n w = some (HAL_OK, w3) ∧
        w3.trace = w1.trace ++ pageFrames w.mem p WriteAddr n ∧ w3.tk = w1.tk) ∧
    (∀ s1 w1 w2, EEPROM_SoftSPI_IsReady dev fuel w = some (s1, w1) → s1 ≠ HAL_OK →
      EEPROM_SoftSPI_IsReady dev fuel w1 = some (HAL_OK, w2) →
      ∃ w3, EEPROM_SoftSPI_WritePage dev fuel (some p) WriteAddr n w = some (HAL_OK, w3) ∧
        w3.trace = w2.trace ++ pageFrames w.mem p WriteAddr n ∧ w3.tk = w2.tk) ∧
    (∀ s1 w1 s2 w2, EEPROM_SoftSPI_IsReady dev fuel w = some (s1, w1) → s1 ≠ HAL_OK →
      EEPROM_SoftSPI_IsReady dev fuel w1 = some (s2, w2) → s2 ≠ HAL_OK →
      ∃ w3, EEPROM_SoftSPI_WritePage dev fuel (some p) WriteAddr n w = some (HAL_ERROR, w3) ∧
        w3.trace = w2.trace ∧ w3.tk = w2.tk ∧
        ∃ bs cs, w3.trace = w.trace ++ (pollFrame bs ++ pollFrame cs) ∧
          (∀ b, Event.tx b ∈ pollFrame bs ++ pollFrame cs → b = CMD_RDSR) ∧
          Event.tx CMD_WREN ∉ pollFrame bs ++ pollFrame cs ∧
          Event.tx CMD_WRITE ∉ pollFrame bs ++ pollFrame cs ∧
          Event.tx CMD_WRDI ∉ pollFrame bs ++ pollFrame cs) ∧
    (ClockAdvances dev →
      ∃ fuel1 r, EEPROM_SoftSPI_WritePage dev fuel1 (some p) WriteAddr n w = some r) := by
  refine ⟨?_, ?_, ?_, ?_⟩
  · intro w1 h1
    have hg : IsReady_retry dev fuel w = some (HAL_OK, w1) :=
      (IsReady_retry_iff_guard dev fuel w w1).mpr (Or.inl h1)
    exact WritePage_after_guard dev fuel p WriteAddr n w w1 ha hn hg
  · intro s1 w1 w2 h1 hs1 h2
    have hg : IsReady_retry dev fuel w = some (HAL_OK, w2) :=
      (IsReady_retry_iff_guard dev fuel w w2).mpr (Or.inr ⟨s1, w1, h1, hs1, h2⟩)
    exact WritePage_after_guard dev fuel p WriteAddr n w w2 ha hn hg
  · intro s1 w1 s2 w2 h1 hs1 h2 hs2
    have hg : IsReady_retry dev fuel w = some (HAL_ERROR, w2) := by
      simp only [IsReady_retry, h1, ne_eq, hs1, not_false_eq_true, if_true, h2, hs2]
    obtain ⟨-, -, -, bs, -, htr1⟩ := IsReady_spec dev fuel w s1 w1 h1
    obtain ⟨-, -, -, cs, -, htr2⟩ := IsReady_spec dev fuel w1 s2 w2 h2
    have hw : EEPROM_SoftSPI_WritePage dev fuel (some p) WriteAddr n w
        = some (HAL_ERROR, { w2 with pages := w2.pages ++ [⟨WriteAddr, n, some p, HAL_ERROR⟩] }) := by
      simp only [EEPROM_SoftSPI_WritePage, WritePage_body, Nat.pos_iff_ne_zero.mp hn, if_false,
        hg, orReturn_some, ne_eq, reduceCtorEq, not_false_eq_true, if_true, recordPage]
    have htx : ∀ b, Event.tx b ∈ pollFrame bs ++ pollFrame cs → b = CMD_RDSR := by
      intro b hb
      rcases List.mem_append.mp hb with hb | hb
      · exact not_tx_mem_pollFrame bs b hb
      · exact not_tx_mem_pollFrame cs b hb
    refine ⟨_, hw, rfl, rfl, bs, cs, ?_, htx, ?_, ?_, ?_⟩
    · show w2.trace = _
      rw [htr2, htr1, List.append_assoc]
    · exact fun h => absurd (htx _ h) (by decide)
    · exact fun h => absurd (htx _ h) (by decide)
    · exact fun h => absurd (htx _ h) (by decide)
  · intro hclk
    obtain ⟨k, r, hk⟩ := (WritePage_converges dev hclk (some p) WriteAddr n w).exists_some
    exact ⟨k, r, hk⟩

/-- C16 on a device that is busy at every poll: both polls time out and the
page write returns `HAL_ERROR`. -/
theorem WritePage_bounded_retry_witness :
    (5 : Nat) < 65536 ∧ 0 < 1 ∧
    ∃ w3, EEPROM_SoftSPI_WritePage busyDevice 20 (some 0) 5 1 w0 = some (HAL_ERROR, w3) := by
  have hb : ((EEPROM_SoftSPI_IsReady busyDevice 20 w0).bind fun r =>
      (EEPROM_SoftSPI_IsReady busyDevice 20 r.2).map fun r2 => (r.1, r2.1))
        = some (HAL_ERROR, HAL_ERROR) := by decide
  rcases h1 : EEPROM_SoftSPI_IsReady busyDevice 20 w0 with _ | ⟨s1, w1⟩
  · rw [h1] at hb
    simp at hb
  · rw [h1] at hb
    simp only [Option.some_bind] at hb
    rcases h2 : EEPROM_SoftSPI_IsReady busyDevice 20 w1 with _ | ⟨s2, w2⟩
    · rw [h2] at hb
      simp at hb
    · rw [h2] at hb
      simp only [Option.map_some', Option.some.injEq, Prod.mk.injEq] at hb
      obtain ⟨rfl, rfl⟩ := hb
      obtain ⟨w3, hw, -⟩ :=
        (WritePage_bounded_retry busyDevice 20 0 5 1 w0 (by decide) (by decide)).2.2.1
          HAL_ERROR w1 HAL_ERROR w2 h1 (by decide) h2 (by decide)
      exact ⟨by decide, by decide, w3, hw⟩

/-! ## Connection probe -/

/-- The probe loop over a sequence of results: it ends at the first `HAL_OK`
among the next `k` results with value 1, or after `k` probes with value 0. -/
theorem IsConnected_loop_spec (res : Nat → HAL_StatusTypeDef) (k s : Nat) :
    ∃ r c, IsConnected_loop (probeSeq res) (fun _ t => t) k s = some (r, c) ∧
      ((r = 1 ∧ s < c ∧ c ≤ s + k ∧ res (c - 1) = HAL_OK ∧
          ∀ i, s ≤ i → i < c - 1 → res i ≠ HAL_OK) ∨
       (r = 0 ∧ c = s + k ∧ ∀ i, s ≤ i → i < s + k → res i ≠ HAL_OK)) := by
  induction k generalizing s with
  | zero =>
    refine ⟨0, s, rfl, Or.inr ⟨rfl, rfl, ?_⟩⟩
    intro i h1 h2
    omega
  | succ k ih =>
    by_cases h0 : res s = HAL_OK
    · refine ⟨1, s + 1, by simp [IsConnected_loop, probeSeq, h0], Or.inl ⟨rfl, by omega,
        by omega, by simpa using h0, ?_⟩⟩
      intro i h1 h2
      omega
    · obtain ⟨r, c, hrun, hcase⟩ := ih (s + 1)
      refine ⟨r, c, by simp [IsConnected_loop, probeSeq, h0, hrun], ?_⟩
      rcases hcase with ⟨h1, h2, h3, h4, h5⟩ | ⟨h1, h2, h3⟩
      · refine Or.inl ⟨h1, by omega, by omega, h4, ?_⟩
        intro i hi1 hi2
        rcases Nat.eq_or_lt_of_le hi1 with rfl | hlt
        · exact h0
        · exact h5 i (by omega) hi2
      · refine Or.inr ⟨h1, by omega, ?_⟩
        intro i hi1 hi2
        rcases Nat.eq_or_lt_of_le hi1 with rfl | hlt
        · exact h0
        · exact h3 i (by omega) (by omega)

/-- C17: `BSP_EEPROM_IsConnected` probes readiness at most 5 times.  For every
sequence `res` of `EEPROM_SPI_IsReady` results it returns, with a value `r`
after `c` probes: `r = 1` if and only if one of the first 5 results is
`HAL_OK`; in that case the last probe made is the first `HAL_OK` (no probe
follows it); otherwise `r = 0` after exactly 5 probes, all of them failed. -/
theorem IsConnected_probes_at_most_five (res : Nat → HAL_StatusTypeDef) :
    ∃ r c, BSP_EEPROM_IsConnected (fun t => t) (probeSeq res) (fun _ t => t) 0 = some (r, c) ∧
      (r = 1 ↔ ∃ i, i < 5 ∧ res i = HAL_OK) ∧
      (r = 1 → 1 ≤ c ∧ c ≤ 5 ∧ res (c - 1) = HAL_OK ∧ ∀ i, i < c - 1 → res i ≠ HAL_OK) ∧
      (r ≠ 1 → r = 0 ∧ c = 5 ∧ ∀ i, i < 5 → res i ≠ HAL_OK) := by
  obtain ⟨r, c, hrun, hcase⟩ := IsConnected_loop_spec res 5 0
  refine ⟨r, c, hrun, ?_, ?_, ?_⟩
  · rcases hcase with ⟨h1, h2, h3, h4, h5⟩ | ⟨h1, h2, h3⟩
    · exact ⟨fun _ => ⟨c - 1, by omega, h4⟩, fun _ => h1⟩
    · constructor
      · intro hr
        omega
      · rintro ⟨i, hi, hok⟩
        exact absurd hok (h3 i (by omega) (by omega))
  · intro hr
    rcases hcase with ⟨h1, h2, h3, h4, h5⟩ | ⟨h1, h2, h3⟩
    · exact ⟨by omega, by omega, h4, fun i hi => h5 i (by omega) hi⟩
    · omega
  · intro hr
    rcases hcase with ⟨h1, h2, h3, h4, h5⟩ | ⟨h1, h2, h3⟩
    · exact absurd h1 hr
    · exact ⟨h1, by omega, fun i hi => h3 i (by omega) (by omega)⟩


/-- C17 on the sequence in which only the third probe succeeds. -/
theorem IsConnected_probes_at_most_five_witness :
    ∃ r c, BSP_EEPROM_IsConnected (fun t => t) (probeSeq thirdProbeOk) (fun _ t => t) 0
        = some (r, c) ∧
      (r = 1 ↔ ∃ i, i < 5 ∧ thirdProbeOk i = HAL_OK) ∧
      (r = 1 → 1 ≤ c ∧ c ≤ 5 ∧ thirdProbeOk (c - 1) = HAL_OK ∧
        ∀ i, i < c - 1 → thirdProbeOk i ≠ HAL_OK) ∧
      (r ≠ 1 → r = 0 ∧ c = 5 ∧ ∀ i, i < 5 → thirdProbeOk i ≠ HAL_OK) :=
  IsConnected_probes_at_most_five thirdProbeOk

/-! ## Hardware SPI: buffer read -/

/-- C18 fails for every `NumByteToRead > 1`: `EEPROM_HardSPI_ReadBuffer` never
reads its parameter `NumByteToRead` (the call is the same as with 1), and on a
transport on which every call succeeds a read of 2 bytes at `0x0123` sends the
header `0x03, 0x01, 0x23`, receives exactly one byte with
`HAL_SPI_Receive(pBuffer, 1)`, stores it at `pBuffer[0]`, leaves `pBuffer[1]`
untouched and returns `HAL_OK`. -/
theorem HardSPI_ReadBuffer_receives_one_byte :
    (∀ (hal : Hal) (fuel pBuffer ReadAddr n : Nat) (w : HardWorld),
      EEPROM_HardSPI_ReadBuffer hal fuel pBuffer ReadAddr n w
        = EEPROM_HardSPI_ReadBuffer hal fuel pBuffer ReadAddr 1 w) ∧
    (EEPROM_HardSPI_ReadBuffer goodHal 1 0 0x0123 2 hw0).map
        (fun r => (r.1, r.2.trace, r.2.mem 0, r.2.mem 1))
      = some (HAL_OK,
          [HardEvent.CS_LOW, HardEvent.transmit [0x03, 0x01, 0x23] HAL_OK,
           HardEvent.receive 1 [0xA0] HAL_OK, HardEvent.CS_HIGH],
          0xA0, 0) := by
  refine ⟨fun _ _ _ _ _ _ => rfl, ?_⟩
  decide


/-! ## Bit-banged byte transfer -/

/-- The byte assembled from eight MISO samples, most significant bit first. -/
theorem RecvByte_pins_value (so : Nat → Bool) :
    (EEPROM_SoftSPI_RecvByte_pins so).1
      = (so 0).toNat * 2 ^ 7 + (so 1).toNat * 2 ^ 6 + (so 2).toNat * 2 ^ 5
        + (so 3).toNat * 2 ^ 4 + (so 4).toNat * 2 ^ 3 + (so 5).toNat * 2 ^ 2
        + (so 6).toNat * 2 ^ 1 + (so 7).toNat * 2 ^ 0 := by
  simp only [EEPROM_SoftSPI_RecvByte_pins, RecvByte_pins]
  generalize so 0 = b0
  generalize so 1 = b1
  generalize so 2 = b2
  generalize so 3 = b3
  generalize so 4 = b4
  generalize so 5 = b5
  generalize so 6 = b6
  generalize so 7 = b7
  revert b0 b1 b2 b3 b4 b5 b6 b7
  decide

/-- The pin activity of a receive: eight clock pulses, each followed by one MISO sample. -/
theorem RecvByte_pins_events (so : Nat → Bool) :
    (EEPROM_SoftSPI_RecvByte_pins so).2
      = (List.range 8).flatMap
          (fun k => [PinEvent.CK_LOW, PinEvent.CK_HIGH, PinEvent.SO (so k)]) := by
  simp [EEPROM_SoftSPI_RecvByte_pins, RecvByte_pins, List.range_succ_eq_map, List.flatMap]

set_option maxRecDepth 100000 in
/-- The pin activity of a send, for every value of the 8-bit parameter. -/
theorem SendByte_pins_events :
    ∀ v, v < 256 → EEPROM_SoftSPI_SendByte_pins v
      = (List.range 8).flatMap
          (fun i => [PinEvent.SI (v.testBit (7 - i)), PinEvent.CK_LOW, PinEvent.CK_HIGH]) := by
  decide

set_option maxRecDepth 100000 in
/-- Sampling the MOSI levels of a send reassembles the byte, for every 8-bit value. -/
theorem SendByte_RecvByte_pins :
    ∀ v, v < 256 →
      (EEPROM_SoftSPI_RecvByte_pins
        (fun k => (mosiLevels (EEPROM_SoftSPI_SendByte_pins v)).getD k false)).1 = v := by
  decide

theorem SendByte_pins_mod (v : Nat) :
    EEPROM_SoftSPI_SendByte_pins (v % 256) = EEPROM_SoftSPI_SendByte_pins v := by
  simp only [EEPROM_SoftSPI_SendByte_pins, Nat.mod_mod]

/-- C19. The bit-banged byte transfer is most-significant-bit first and lossless.
`EEPROM_SoftSPI_SendByte (v)` produces exactly eight clock pulses (low, then high), and the
MOSI level set before pulse `i` is bit `7 - i` of the 8-bit value; `EEPROM_SoftSPI_RecvByte`
produces eight clock pulses, samples MISO after each rising edge and returns the sum of
`b_i * 2 ^ i`, where `b_7` is the first sample and `b_0` the last; feeding the MOSI levels of
`SendByte (v)` into `RecvByte` returns `v` (as an 8-bit value). -/
theorem SoftSPI_byte_transfer_msb_first (v : Nat) (so : Nat → Bool) :
    EEPROM_SoftSPI_SendByte_pins v
        = (List.range 8).flatMap
            (fun i => [PinEvent.SI ((v % 256).testBit (7 - i)), PinEvent.CK_LOW,
                        PinEvent.CK_HIGH])
      ∧ (EEPROM_SoftSPI_RecvByte_pins so).2
        = (List.range 8).flatMap
            (fun k => [PinEvent.CK_LOW, PinEvent.CK_HIGH, PinEvent.SO (so k)])
      ∧ (EEPROM_SoftSPI_RecvByte_pins so).1
        = (so 0).toNat * 2 ^ 7 + (so 1).toNat * 2 ^ 6 + (so 2).toNat * 2 ^ 5
          + (so 3).toNat * 2 ^ 4 + (so 4).toNat * 2 ^ 3 + (so 5).toNat * 2 ^ 2
          + (so 6).toNat * 2 ^ 1 + (so 7).toNat * 2 ^ 0
      ∧ (EEPROM_SoftSPI_RecvByte_pins
          (fun k => (mosiLevels (EEPROM_SoftSPI_SendByte_pins v)).getD k false)).1
        = v % 256 := by
  have hv : v % 256 < 256 := Nat.mod_lt _ (by decide)
  refine ⟨?_, RecvByte_pins_events so, RecvByte_pins_value so, ?_⟩
  · rw [← SendByte_pins_mod v]
    exact SendByte_pins_events (v % 256) hv
  · rw [← SendByte_pins_mod v]
    exact SendByte_RecvByte_pins (v % 256) hv

/-! ## Round trip on the idealised device -/

theorem Eeprom.run_append (s : Eeprom) (xs ys : List Event) :
    Eeprom.run s (xs ++ ys) = Eeprom.run (Eeprom.run s xs) ys := by
  simp [Eeprom.run, List.foldl_append]

theorem idealEeprom_ready (cells : Nat → Nat) (tick : Nat → Nat) (k : Nat)
    (h : PollsInTime tick k) : AlwaysReady (idealEeprom cells tick) k := by
  refine ⟨fun hist => ?_, h⟩
  simp [idealEeprom, Eeprom.run, List.foldl_append, Eeprom.step, Eeprom.respond, CMD_RDSR,
    CMD_WRITE, CMD_READ, bitRead]

theorem writeSpan_zero (cells mem : Nat → Nat) (a p : Nat) :
    writeSpan cells mem a p 0 = cells := by
  funext x
  simp only [writeSpan]
  rw [if_neg (by omega)]

theorem writeSpan_succ (cells mem : Nat → Nat) (a p n : Nat) :
    writeSpan (Function.update cells a (mem p % 256)) mem (a + 1) (p + 1) n
      = writeSpan cells mem a p (n + 1) := by
  funext x
  simp only [writeSpan, Function.update_apply]
  by_cases h1 : x = a
  · subst h1
    rw [if_neg (by omega), if_pos (by omega)]
    simp
  · by_cases h2 : a + 1 ≤ x ∧ x < a + 1 + n
    · rw [if_pos h2, if_pos (by omega)]
      have : p + 1 + (x - (a + 1)) = p + (x - a) := by omega
      rw [this]
    · rw [if_neg h2, if_neg h1, if_neg (by omega)]

theorem writeSpan_add (cells mem : Nat → Nat) (a p n m : Nat) :
    writeSpan (writeSpan cells mem a p n) mem (a + n) (p + n) m
      = writeSpan cells mem a p (n + m) := by
  funext x
  simp only [writeSpan]
  by_cases h2 : a + n ≤ x ∧ x < a + n + m
  · rw [if_pos h2, if_pos (by omega)]
    have : p + n + (x - (a + n)) = p + (x - a) := by omega
    rw [this]
  · rw [if_neg h2]
    by_cases h1 : a ≤ x ∧ x < a + n
    · rw [if_pos h1, if_pos (by omega)]
    · rw [if_neg h1, if_neg (by omega)]

/-- The payload of a write frame that stays inside the page is stored at
consecutive addresses. -/
theorem Eeprom.run_payload (mem : Nat → Nat) (n : Nat) :
    ∀ (a p : Nat) (cells : Nat → Nat), a % 32 + n ≤ 32 →
      ∃ a1, Eeprom.run { cells := cells, phase := Phase.writing a }
          ((payloadBytes mem p n).map Event.tx)
        = { cells := writeSpan cells mem a p n, phase := Phase.writing a1 } := by
  induction n with
  | zero =>
    intro a p cells _
    exact ⟨a, by simp [payloadBytes, Eeprom.run, writeSpan_zero]⟩
  | succ n ih =>
    intro a p cells h
    rw [payloadBytes_succ]
    simp only [List.map_cons, Eeprom.run, List.foldl_cons, Eeprom.step, EEP_SPI_PAGESIZE]
    rcases Nat.eq_zero_or_pos n with rfl | hn
    · refine ⟨a / 32 * 32 + (a + 1) % 32, ?_⟩
      simp only [payloadBytes, List.range_zero, List.map_nil, List.foldl_nil]
      rw [← writeSpan_succ, writeSpan_zero]
    · have e : a / 32 * 32 + (a + 1) % 32 = a + 1 := by omega
      rw [e]
      obtain ⟨a1, h1⟩ := ih (a + 1) (p + 1) (Function.update cells a (mem p % 256)) (by omega)
      refine ⟨a1, ?_⟩
      simp only [Eeprom.run] at h1
      rw [h1, writeSpan_succ]

/-- The three frames of a page write that stays inside the page store the
payload at consecutive addresses from the write address. -/
theorem Eeprom.run_pageFrames (s : Eeprom) (mem : Nat → Nat) (p a n : Nat)
    (hpage : a % 32 + n ≤ 32) :
    (Eeprom.run s (pageFrames mem p a n)).cells = writeSpan s.cells mem a p n := by
  have e : a / 256 * 256 + a % 256 = a := by omega
  obtain ⟨a1, h1⟩ := Eeprom.run_payload mem n a p s.cells hpage
  simp only [pageFrames, Eeprom.run_append]
  simp only [Eeprom.run, List.foldl_cons, List.foldl_nil, Eeprom.step, CMD_WREN, CMD_WRITE,
    CMD_READ, CMD_RDSR, CMD_WRDI] at h1 ⊢
  simp [e, h1, Eeprom.step]

/-- A page write inside one page on the idealised device: `HAL_OK`, and the
payload is stored at consecutive addresses. -/
theorem WritePage_ideal (cells : Nat → Nat) (tick : Nat → Nat) (fuel p a n : Nat) (w : World)
    (h : AlwaysReady (idealEeprom cells tick) w.tk) (hf : 1 ≤ fuel) (ha : a < 65536)
    (hn : 0 < n) (hpage : a % 32 + n ≤ 32) :
    ∃ w1, EEPROM_SoftSPI_WritePage (idealEeprom cells tick) fuel (some p) a n w
        = some (HAL_OK, w1) ∧
      w1.tk = w.tk + 2 ∧ w1.mem = w.mem ∧
      (Eeprom.run { cells := cells, phase := Phase.idle } w1.trace).cells
        = writeSpan (Eeprom.run { cells := cells, phase := Phase.idle } w.trace).cells
            w.mem a p n := by
  have hg := IsReady_retry_ready (idealEeprom cells tick) fuel w h hf
  obtain ⟨w1, h1, htk, -, hmem⟩ := WritePage_ready (idealEeprom cells tick) fuel p a n w h hf hn
  obtain ⟨w2, h2, htr, -⟩ := WritePage_after_guard (idealEeprom cells tick) fuel p a n w _ ha hn hg
  have e : w2 = w1 := by
    rw [h1] at h2
    injection h2 with h2
    injection h2 with _ h2
    exact h2.symm
  subst e
  refine ⟨w2, h1, htk, hmem, ?_⟩
  rw [htr, Eeprom.run_append, Eeprom.run_pageFrames _ _ _ _ _ hpage]
  simp only [Eeprom.run_append]
  simp [Eeprom.run, Eeprom.step, CMD_RDSR, CMD_WRITE, CMD_READ]

/-- Running a request list whose requests stay inside their pages on the
idealised device: the byte array ends as `storeChunks`. -/
theorem runPages_ideal (cells : Nat → Nat) (tick : Nat → Nat) (fuel : Nat) (hf : 1 ≤ fuel)
    (cs : List Chunk) :
    ∀ w : World, AlwaysReady (idealEeprom cells tick) w.tk →
      (∀ c ∈ cs, c.address < 65536 ∧ c.address % 32 + c.length ≤ 32) →
      ∃ st w1, runPages (EEPROM_SoftSPI_WritePage (idealEeprom cells tick) fuel) cs w
          = some (st, w1) ∧ w1.mem = w.mem ∧
        (Eeprom.run { cells := cells, phase := Phase.idle } w1.trace).cells
          = storeChunks w.mem cs
              (Eeprom.run { cells := cells, phase := Phase.idle } w.trace).cells := by
  induction cs with
  | nil =>
    intro w _ _
    exact ⟨HAL_OK, w, rfl, rfl, rfl⟩
  | cons c cs ih =>
    intro w h hcs
    rcases c with ⟨b, a, n⟩
    by_cases hc : n = 0 ∨ b = none
    · refine ⟨HAL_ERROR, { w with pages := w.pages ++ [⟨a, n, b, HAL_ERROR⟩] }, ?_, rfl, ?_⟩
      · simp only [runPages, WritePage_rejected (idealEeprom cells tick) fuel b a n w hc,
          orReturn_some]
        simp
      · rcases b with _ | p
        · simp [storeChunks]
        · have hn : n = 0 := by
            rcases hc with hc | hc
            · exact hc
            · cases hc
          simp [storeChunks, hn]
    · have hn : 0 < n := by
        rcases Nat.eq_zero_or_pos n with h0 | h0
        · exact absurd (Or.inl h0) hc
        · exact h0
      obtain ⟨p, rfl⟩ : ∃ p, b = some p := by
        rcases b with _ | p
        · exact absurd (Or.inr rfl) hc
        · exact ⟨p, rfl⟩
      have hin := hcs ⟨some p, a, n⟩ (List.mem_cons_self _ _)
      obtain ⟨w2, hw, htk, hmem, hcells⟩ :=
        WritePage_ideal cells tick fuel p a n w h hf hin.1 hn hin.2
      have hr : AlwaysReady (idealEeprom cells tick) w2.tk := by
        rw [htk]
        exact AlwaysReady_step h
      obtain ⟨st, w1, h1, h2, h3⟩ := ih w2 hr (fun c hc => hcs c (List.mem_cons_of_mem _ hc))
      refine ⟨st, w1, ?_, ?_, ?_⟩
      · simp only [runPages, hw, orReturn_some, ne_eq, not_true_eq_false, if_false, h1]
      · rw [h2, hmem]
      · rw [h3, hcells, hmem]
        have hn0 : n ≠ 0 := by omega
        simp [storeChunks, hn0]

/-- In a read frame the idealised device returns the stored bytes at
consecutive addresses. -/
theorem recvBytes_ideal (cells : Nat → Nat) (tick : Nat → Nat) (n : Nat) :
    ∀ (h : List Event) (a : Nat) (c : Nat → Nat),
      Eeprom.run { cells := cells, phase := Phase.idle } h
        = { cells := c, phase := Phase.reading a } →
      a + n ≤ 65536 →
      ∀ i, i < n → (recvBytes (idealEeprom cells tick) n h).getD i 0 = c (a + i) % 256 := by
  induction n with
  | zero =>
    intro h a c _ _ i hi
    omega
  | succ n ih =>
    intro h a c hs ha i hi
    have hm : (idealEeprom cells tick).miso h = c a := by
      simp [idealEeprom, hs, Eeprom.respond]
    rcases Nat.eq_zero_or_pos i with rfl | hpos
    · simp [recvBytes, hm]
    · obtain ⟨j, rfl⟩ : ∃ j, i = j + 1 := ⟨i - 1, by omega⟩
      have hs1 : Eeprom.run { cells := cells, phase := Phase.idle }
          (h ++ [Event.rx ((idealEeprom cells tick).miso h % 256)])
            = { cells := c, phase := Phase.reading (a + 1) } := by
        rw [Eeprom.run_append, hs]
        have e : (a + 1) % 65536 = a + 1 := Nat.mod_eq_of_lt (by omega)
        simp [Eeprom.run, Eeprom.step, e]
      have := ih _ (a + 1) c hs1 (by omega) j (by omega)
      have e2 : a + (j + 1) = a + 1 + j := by omega
      rw [e2, ← this]
      simp [recvBytes]

/-- A buffer read inside the address space on the idealised device returns
`HAL_OK` and stores the bytes at consecutive addresses in the buffer. -/
theorem ReadBuffer_ideal (cells : Nat → Nat) (tick : Nat → Nat) (q a n : Nat) (w : World)
    (hn : 0 < n) (hspace : a + n ≤ 65536) :
    (EEPROM_SoftSPI_ReadBuffer (idealEeprom cells tick) (some q) a n w).1 = HAL_OK ∧
    ∀ i, i < n →
      (EEPROM_SoftSPI_ReadBuffer (idealEeprom cells tick) (some q) a n w).2.mem (q + i)
        = (Eeprom.run { cells := cells, phase := Phase.idle } w.trace).cells (a + i) % 256 := by
  have hn0 : n ≠ 0 := by omega
  have e1 : (a >>> 8 % 256 &&& 0xFF) % 256 = a / 256 := by
    rw [and_0xFF, Nat.shiftRight_eq_div_pow]
    omega
  have e2 : (a &&& 0xFF) % 256 % 256 = a % 256 := by
    rw [and_0xFF]
    omega
  have e : a / 256 * 256 + a % 256 = a := by omega
  simp only [EEPROM_SoftSPI_ReadBuffer, hn0, if_false, EEP_SPI_CS_HIGH, true_and]
  intro i hi
  rw [(ReadBuffer_loop_spec _ n q _).2.2.2.1 i hi]
  apply recvBytes_ideal cells tick n _ a _ _ hspace i hi
  simp only [EEP_SPI_CS_LOW, EEPROM_SoftSPI_SendByte, e1, e2, List.append_assoc,
    Eeprom.run_append]
  simp [Eeprom.run, Eeprom.step, CMD_READ, CMD_WRITE, e]

theorem storeChunks_fullPages (mem : Nat → Nat) (k : Nat) :
    ∀ (a p : Nat) (c : Nat → Nat) (rest : List Chunk), a + 32 * k ≤ 65536 →
      storeChunks mem (fullPages k (some p) a ++ rest) c
        = storeChunks mem rest (writeSpan c mem a p (32 * k)) := by
  induction k with
  | zero =>
    intro a p c rest _
    simp [fullPages, writeSpan_zero]
  | succ k ih =>
    intro a p c rest h
    simp only [fullPages, EEP_SPI_PAGESIZE, Option.map_some', List.cons_append, storeChunks]
    rw [if_neg (by decide)]
    rcases Nat.eq_zero_or_pos k with rfl | hk
    · simp [fullPages]
    · have e : (a + 32) % 65536 = a + 32 := Nat.mod_eq_of_lt (by omega)
      have hi := ih (a + 32) (p + 32) (writeSpan c mem a p 32) rest (by omega)
      have e2 : 32 + 32 * k = 32 * (k + 1) := by omega
      rw [writeSpan_add, e2] at hi
      rw [e]
      exact hi

/-- The requests of the segmentation of a span inside the address space store
the whole payload at consecutive addresses from the start address, also when
the last request has length zero and is rejected. -/
theorem storeChunks_segments (mem : Nat → Nat) (p a n : Nat) (c : Nat → Nat)
    (hn : 0 < n) (hn16 : n < 65536) (hspace : a + n ≤ 65536) :
    storeChunks mem (segments (some p) a n) c = writeSpan c mem a p n := by
  unfold segments
  simp only [EEP_SPI_PAGESIZE, Option.map_some']
  split_ifs with h1 h2 h3 h4 h5
  · simp only [storeChunks]
    rw [if_neg (by omega)]
  · rw [storeChunks_fullPages mem (n / 32) a p c _ (by omega)]
    by_cases h0 : n % 32 = 0
    · have e : 32 * (n / 32) = n := by omega
      simp [storeChunks, h0, e]
    · have e : (a + 32 * (n / 32)) % 65536 = a + 32 * (n / 32) :=
        Nat.mod_eq_of_lt (by omega)
      have e2 : 32 * (n / 32) + n % 32 = n := by omega
      simp only [storeChunks, h0, if_false, e, writeSpan_add, e2]
  · have e : (a + (32 - a % 32)) % 65536 = a + (32 - a % 32) := Nat.mod_eq_of_lt (by omega)
    have e1 : (n % 32 + 65536 - (32 - a % 32)) % 65536 = n - (32 - a % 32) := by omega
    have e2 : 32 - a % 32 + (n - (32 - a % 32)) = n := by omega
    have e3 : ¬ 32 - a % 32 = 0 := by omega
    have e4 : ¬ n - (32 - a % 32) = 0 := by omega
    simp only [storeChunks, e, e1, e3, e4, if_false, writeSpan_add, e2]
  · simp only [storeChunks]
    rw [if_neg (by omega)]
  · have e : (a + (32 - a % 32)) % 65536 = a + (32 - a % 32) := Nat.mod_eq_of_lt (by omega)
    have e1 : (n + 65536 - (32 - a % 32)) % 65536 = n - (32 - a % 32) := by omega
    have e3 : ¬ 32 - a % 32 = 0 := by omega
    simp only [storeChunks, e, e1, e3, if_false]
    rw [storeChunks_fullPages mem _ _ _ _ _ (by omega), writeSpan_add]
    have e5 : (a + (32 - a % 32) + 32 * ((n - (32 - a % 32)) / 32)) % 65536
        = a + (32 - a % 32) + 32 * ((n - (32 - a % 32)) / 32) := Nat.mod_eq_of_lt (by omega)
    have e6 : 32 - a % 32 + 32 * ((n - (32 - a % 32)) / 32) + (n - (32 - a % 32)) % 32 = n := by
      omega
    have e7 : ¬ (n - (32 - a % 32)) % 32 = 0 := by simpa [e1] using h5
    simp only [storeChunks, e5, e7, if_false, writeSpan_add]
    rw [Nat.add_assoc a, Nat.add_assoc p, writeSpan_add, e6]
  · have e : (a + (32 - a % 32)) % 65536 = a + (32 - a % 32) := Nat.mod_eq_of_lt (by omega)
    have e1 : (n + 65536 - (32 - a % 32)) % 65536 = n - (32 - a % 32) := by omega
    have e3 : ¬ 32 - a % 32 = 0 := by omega
    simp only [storeChunks, e, e1, e3, if_false]
    rw [storeChunks_fullPages mem _ _ _ _ _ (by omega), writeSpan_add]
    have e7 : (n - (32 - a % 32)) % 32 = 0 := by simpa [e1] using h5
    have e6 : 32 - a % 32 + 32 * ((n - (32 - a % 32)) / 32) = n := by omega
    simp only [storeChunks, e6]

theorem fullPages_address (k : Nat) (b : Option Nat) (a : Nat) (ha : a < 65536) :
    ∀ c ∈ fullPages k b a, c.address < 65536 := by
  induction k generalizing b a with
  | zero => simp [fullPages]
  | succ k ih =>
    intro c hc
    simp only [fullPages, List.mem_cons] at hc
    rcases hc with rfl | hc
    · exact ha
    · exact ih _ _ (Nat.mod_lt _ (by decide)) c hc

theorem segments_address (b : Option Nat) (a n : Nat) (ha : a < 65536) :
    ∀ c ∈ segments b a n, c.address < 65536 := by
  intro c hc
  unfold segments at hc
  simp only [EEP_SPI_PAGESIZE] at hc
  have hm : ∀ x : Nat, x % 65536 < 65536 := fun x => Nat.mod_lt _ (by decide)
  split_ifs at hc with h1 h2 h3 h4 h5
  · simp only [List.mem_singleton] at hc
    subst hc
    exact ha
  · rcases List.mem_append.mp hc with hc | hc
    · exact fullPages_address _ _ _ ha c hc
    · simp only [List.mem_singleton] at hc
      subst hc
      exact hm _
  · simp only [List.mem_cons, List.mem_singleton, List.not_mem_nil, or_false] at hc
    rcases hc with rfl | rfl
    · exact ha
    · exact hm _
  · simp only [List.mem_singleton] at hc
    subst hc
    exact ha
  · simp only [List.mem_cons, List.mem_append, List.not_mem_nil, or_false] at hc
    rcases hc with rfl | hc | rfl
    · exact ha
    · exact fullPages_address _ _ _ (hm _) c hc
    · exact hm _
  · simp only [List.mem_cons, List.mem_append, List.not_mem_nil, or_false] at hc
    rcases hc with rfl | hc
    · exact ha
    · exact fullPages_address _ _ _ (hm _) c hc

/-- A buffer write of a span inside the address space on the idealised device
returns, and leaves the payload stored at consecutive addresses. -/
theorem WriteBuffer_ideal (cells : Nat → Nat) (tick : Nat → Nat) (fuel p a n : Nat) (w : World)
    (hf : 1 ≤ fuel) (h : AlwaysReady (idealEeprom cells tick) w.tk)
    (hn : 0 < n) (hn16 : n < 65536) (hspace : a + n ≤ 65536) :
    ∃ st w1, EEPROM_SoftSPI_WriteBuffer (idealEeprom cells tick) fuel (some p) a n w
        = some (st, w1) ∧ w1.mem = w.mem ∧
      (Eeprom.run { cells := cells, phase := Phase.idle } w1.trace).cells
        = writeSpan (Eeprom.run { cells := cells, phase := Phase.idle } w.trace).cells
            w.mem a p n := by
  have ha : a < 65536 := by omega
  have hr := IsReady_retry_ready (idealEeprom cells tick) fuel w h hf
  simp only [EEPROM_SoftSPI_WriteBuffer, hr, orReturn_some, ne_eq, not_true_eq_false, if_false]
  rw [WriteBuffer_pages_eq_runPages _ (some p) a n ha]
  obtain ⟨st, w1, h1, h2, h3⟩ := runPages_ideal cells tick fuel hf (segments (some p) a n)
    { w with
      trace := w.trace ++ [Event.CS_LOW, Event.tx CMD_RDSR,
        Event.rx ((idealEeprom cells tick).miso (w.trace ++ [Event.CS_LOW, Event.tx CMD_RDSR])
          % 256), Event.CS_HIGH]
      tk := w.tk + 2 }
    (AlwaysReady_step h)
    (fun c hc => ⟨segments_address _ a n ha c hc, segments_within_page _ a n c hc⟩)
  refine ⟨st, w1, h1, h2, ?_⟩
  rw [h3, storeChunks_segments _ p a n _ hn hn16 hspace]
  simp only [Eeprom.run_append]
  simp [Eeprom.run, Eeprom.step, CMD_RDSR, CMD_WRITE, CMD_READ]

theorem PollsInTime_still (k : Nat) : PollsInTime (fun _ => 0) k := by
  intro i
  show 0 % 2 ^ 32 < (0 % 2 ^ 32 + WRITE_TIMEOUT_MS) % 2 ^ 32
  decide

/-- Round trip on the idealised device when every status poll ends within its deadline
(`PollsInTime`): for every address and every payload of `0 < n < 65536` bytes with
`address + n ≤ 65536`, whatever the bus history and the content of the device before,
`BSP_EEPROM_Write (address, payload, n)` returns, and a following
`BSP_EEPROM_Read (address, out, n)` returns `HAL_OK` with `out[i]` equal to `payload[i]`
for every `i < n` (the cells of RAM are bytes, hence the reduction modulo 256 of the
model's unbounded cells). -/
theorem Write_Read_round_trip (cells : Nat → Nat) (tick : Nat → Nat)
    (fuel address payload out n : Nat) (w : World)
    (hfuel : 1 ≤ fuel) (hclock : PollsInTime tick w.tk)
    (hn : 0 < n) (hn16 : n < 65536) (hspace : address + n ≤ 65536) :
    ∃ st w1,
      BSP_EEPROM_Write (idealEeprom cells tick) fuel address (some payload) n w
        = some (st, w1) ∧
      (BSP_EEPROM_Read (idealEeprom cells tick) address (some out) n w1).1 = HAL_OK ∧
      ∀ i, i < n →
        (BSP_EEPROM_Read (idealEeprom cells tick) address (some out) n w1).2.mem (out + i)
          = w.mem (payload + i) % 256 := by
  obtain ⟨st, w1, h1, -, h3⟩ := WriteBuffer_ideal cells tick fuel payload address n w hfuel
    (idealEeprom_ready cells tick w.tk hclock) hn hn16 hspace
  obtain ⟨r1, r2⟩ := ReadBuffer_ideal cells tick out address n w1 hn hspace
  refine ⟨st, w1, h1, r1, fun i hi => ?_⟩
  simp only [BSP_EEPROM_Read]
  rw [r2 i hi, h3]
  simp only [writeSpan]
  rw [if_pos (by omega)]
  have e : address + i - address = i := by omega
  rw [e, Nat.mod_mod]

/-- The round trip in the aligned case of the self-test (address 0, 40 bytes) and in
a misaligned case (address 20, 50 bytes), on an erased device with a clock that stands
still, the read going to a second buffer at offset 100. -/
theorem Write_Read_round_trip_witness :
    (∃ st w1,
      BSP_EEPROM_Write (idealEeprom (fun _ => 0xFF) (fun _ => 0)) 1 0 (some 0) 40 w0
        = some (st, w1) ∧
      (BSP_EEPROM_Read (idealEeprom (fun _ => 0xFF) (fun _ => 0)) 0 (some 100) 40 w1).1
        = HAL_OK ∧
      ∀ i, i < 40 →
        (BSP_EEPROM_Read (idealEeprom (fun _ => 0xFF) (fun _ => 0)) 0 (some 100) 40 w1).2.mem
            (100 + i)
          = w0.mem (0 + i) % 256) ∧
    (∃ st w1,
      BSP_EEPROM_Write (idealEeprom (fun _ => 0xFF) (fun _ => 0)) 1 20 (some 0) 50 w0
        = some (st, w1) ∧
      (BSP_EEPROM_Read (idealEeprom (fun _ => 0xFF) (fun _ => 0)) 20 (some 100) 50 w1).1
        = HAL_OK ∧
      ∀ i, i < 50 →
        (BSP_EEPROM_Read (idealEeprom (fun _ => 0xFF) (fun _ => 0)) 20 (some 100) 50 w1).2.mem
            (100 + i)
          = w0.mem (0 + i) % 256) :=
  ⟨Write_Read_round_trip (fun _ => 0xFF) (fun _ => 0) 1 0 0 100 40 w0 (by decide)
      (PollsInTime_still _) (by decide) (by decide) (by decide),
    Write_Read_round_trip (fun _ => 0xFF) (fun _ => 0) 1 20 0 100 50 w0 (by decide)
      (PollsInTime_still _) (by decide) (by decide) (by decide)⟩


/-! ## The deadline of the status poll near the wrap of the tick counter -/

/-- C12: an idle device is reported as timed out.  With the tick counter at `4294967290`
the deadline `tw + 20` wraps to 14 in 32 bits: `EEPROM_SoftSPI_IsReady` samples one status
byte `0x00` (WIP = 0), stops polling, closes the frame and returns `HAL_ERROR`, because
the tick read after the loop is not below the wrapped deadline.  The same happens on the
clock that advances by one at every read, for the poll that starts at its seventh
reading (`tw = 4294967276`, deadline 0). -/
theorem IsReady_idle_device_fails_near_wrap :
    (EEPROM_SoftSPI_IsReady nearWrapIdle 1 w0).map (fun r => (r.1, r.2.trace))
      = some (HAL_ERROR, [Event.CS_LOW, Event.tx 0x05, Event.rx 0, Event.CS_HIGH]) ∧
    bitRead 0 BIT_WIP = 0 ∧
    (nearWrapIdle.tick 0 % 2 ^ 32 + WRITE_TIMEOUT_MS) % 2 ^ 32 = 14 ∧
    (EEPROM_SoftSPI_IsReady { miso := fun _ => 0, tick := nearWrapClock } 1
        { w0 with tk := 6 }).map (fun r => (r.1, r.2.trace))
      = some (HAL_ERROR, [Event.CS_LOW, Event.tx 0x05, Event.rx 0, Event.CS_HIGH]) := by
  decide

/-- C6: a misaligned write to a device that is idle at every poll issues no page write
when the tick counter is close to its wrap.  On the idle device with the tick counter at
`4294967290`, both polls of the readiness guard of `EEPROM_SoftSPI_WriteBuffer` sample
WIP = 0 and return `HAL_ERROR` (the deadline `tw + 20` has wrapped to 14), so the requests
`(20, 10)` and `(20, 50)` return `HAL_ERROR` with an empty log of page writes, the bus
having seen only the two status polls.  On the clock that advances by one at every read
from `4294967272`, the request `(20, 50)` issues `(20, 12)`, then `(32, 32)`, which fails
on its polls, and never issues `(64, 6)`. -/
theorem WriteBuffer_unaligned_no_page_write_near_wrap :
    (∀ h : List Event, bitRead (nearWrapIdle.miso h % 256) BIT_WIP = 0) ∧
    (EEPROM_SoftSPI_WriteBuffer nearWrapIdle 1 (some 0) 20 10 w0).map
        (fun r => (r.1, r.2.pages, r.2.trace))
      = some (HAL_ERROR, [],
          [Event.CS_LOW, Event.tx 0x05, Event.rx 0, Event.CS_HIGH,
           Event.CS_LOW, Event.tx 0x05, Event.rx 0, Event.CS_HIGH]) ∧
    (EEPROM_SoftSPI_WriteBuffer nearWrapIdle 1 (some 0) 20 50 w0).map
        (fun r => (r.1, r.2.pages))
      = some (HAL_ERROR, []) ∧
    (EEPROM_SoftSPI_WriteBuffer { miso := fun _ => 0, tick := fun n => nearWrapClock (n + 2) }
        1 (some 0) 20 50 w0).map (fun r => (r.1, r.2.pages))
      = some (HAL_ERROR, [⟨20, 12, some 0, HAL_OK⟩, ⟨32, 32, some 12, HAL_ERROR⟩]) := by
  refine ⟨fun _ => ?_, by decide, by decide, by decide⟩
  show bitRead (0 % 256) BIT_WIP = 0
  decide

set_option maxRecDepth 100000 in
/-- C14: the round trip fails on the idealised always-ready device when the tick counter
is close to its wrap.  The device is erased (every cell `0xFF`), the payload is
`payload[i] = i`.  On the clock that advances by one at every read from `4294967270`,
`BSP_EEPROM_Write (20, payload, 50)` writes the pages `(20, 12)` and `(32, 32)`, fails on
the polls before `(64, 6)` and returns `HAL_ERROR`; the following
`BSP_EEPROM_Read (20, out, 50)` returns `HAL_OK` with `out[49] = 255`, not
`payload[49] = 49`.  With the tick counter standing at `4294967290`,
`BSP_EEPROM_Write (0, payload, 40)` returns `HAL_ERROR` without any page write and the read
returns `HAL_OK` with `out[0] = 255`, not `payload[0] = 0`. -/
theorem Write_Read_round_trip_fails_near_wrap :
    (BSP_EEPROM_Write (idealEeprom (fun _ => 0xFF) nearWrapClock) 1 20 (some 0) 50 w0).map
        (fun r => (r.1, r.2.pages,
          (BSP_EEPROM_Read (idealEeprom (fun _ => 0xFF) nearWrapClock) 20 (some 100) 50 r.2).1,
          (BSP_EEPROM_Read (idealEeprom (fun _ => 0xFF) nearWrapClock) 20 (some 100) 50
            r.2).2.mem (100 + 49)))
      = some (HAL_ERROR,
          [⟨20, 12, some 0, HAL_OK⟩, ⟨32, 32, some 12, HAL_OK⟩, ⟨64, 6, some 44, HAL_ERROR⟩],
          HAL_OK, 255) ∧
    w0.mem (0 + 49) = 49 ∧
    (BSP_EEPROM_Write (idealEeprom (fun _ => 0xFF) nearWrapIdle.tick) 1 0 (some 0) 40 w0).map
        (fun r => (r.1, r.2.pages,
          (BSP_EEPROM_Read (idealEeprom (fun _ => 0xFF) nearWrapIdle.tick) 0 (some 100) 40
            r.2).1,
          (BSP_EEPROM_Read (idealEeprom (fun _ => 0xFF) nearWrapIdle.tick) 0 (some 100) 40
            r.2).2.mem (100 + 0)))
      = some (HAL_ERROR, [], HAL_OK, 255) ∧
    w0.mem (0 + 0) = 0 := by
  refine ⟨by decide, by decide, by decide, by decide⟩

end BSP_EEPROM
